import Mathlib

/-! # Patch generation of the App Mesh sidecar injector

A shallow embedding of `pkg/patch/patch.go` and `pkg/patch/sidecar.go`.

* Go strings are byte sequences (`Str`); a string literal is the UTF-8
  encoding of its characters. A string need not be valid UTF-8.
* A Go `map[string]string` is an optional association list: `none` is the
  nil map, `some []` the empty map.
* `fmt.Sprintf` with `%v` / `%s` applied to strings is concatenation.
* Functions and constants of the repository that live outside the embedded
  files (`renderInit`, the tracing renderers, package `config`) are fields of
  an environment record `Env`.
-/

set_option autoImplicit false

namespace Patch

/-! ## Strings -/

/-- Go bytes. -/
abbrev Byte := Fin 256

/-- Go strings: sequences of bytes. -/
abbrev Str := List Byte

/-- The byte of an ASCII character. -/
def ch (c : Char) : Byte := Fin.ofNat c.toNat

/-- The UTF-8 encoding of a code point (Go `utf8.EncodeRune` on a valid rune). -/
def utf8Encode (r : Nat) : Str :=
  if r < 0x80 then [Fin.ofNat r]
  else if r < 0x800 then [Fin.ofNat (0xC0 + r / 64), Fin.ofNat (0x80 + r % 64)]
  else if r < 0x10000 then
    [Fin.ofNat (0xE0 + r / 4096), Fin.ofNat (0x80 + r / 64 % 64), Fin.ofNat (0x80 + r % 64)]
  else
    [Fin.ofNat (0xF0 + r / 262144), Fin.ofNat (0x80 + r / 4096 % 64),
     Fin.ofNat (0x80 + r / 64 % 64), Fin.ofNat (0x80 + r % 64)]

/-- A Go string literal: the UTF-8 encoding of its characters. -/
def lit (s : String) : Str := s.data.flatMap (fun c => utf8Encode c.toNat)

/-- Go `error` values. -/
abbrev GoError := Str

/-! ### UTF-8

Go reads a string as UTF-8 one encoding at a time (`utf8.DecodeRune`): a
well-formed encoding of one to four bytes is taken whole; a byte that does
not start one, or whose encoding is cut short or out of range, is taken alone
and stands for the replacement character U+FFFD. -/

/-- For a byte that starts an encoding of several bytes: how many bytes
follow, and the range of the first of them (the table `first` and the accept
ranges of Go package `unicode/utf8`). All further bytes are in `0x80..0xBF`. -/
def utf8Lead (c : Byte) : Option (Nat × Nat × Nat) :=
  if 0xC2 ≤ c.val ∧ c.val ≤ 0xDF then some (1, 0x80, 0xBF)
  else if c.val = 0xE0 then some (2, 0xA0, 0xBF)
  else if c.val = 0xED then some (2, 0x80, 0x9F)
  else if 0xE1 ≤ c.val ∧ c.val ≤ 0xEF then some (2, 0x80, 0xBF)
  else if c.val = 0xF0 then some (3, 0x90, 0xBF)
  else if 0xF1 ≤ c.val ∧ c.val ≤ 0xF3 then some (3, 0x80, 0xBF)
  else if c.val = 0xF4 then some (3, 0x80, 0x8F)
  else none

/-- The decoder between two bytes: idle, or inside an encoding with the bytes
read so far, the number of bytes still needed and the range of the next. -/
inductive Utf8State
  | idle
  | inside (first : Byte) (rest : Str) (more lo hi : Nat)

/-- A unit the decoder steps over: its bytes, and whether they are a
well-formed encoding (otherwise it is a single byte). -/
abbrev Utf8Unit := Str × Bool

/-- The bytes of an unfinished encoding, each given up as an ill-formed unit. -/
def Utf8State.flush : Utf8State → List Utf8Unit
  | .idle => []
  | .inside first rest _ _ _ => (first :: rest).map (fun b => ([b], false))

/-- A byte met when no encoding is open: the units completed and the next state. -/
def utf8Start (c : Byte) : List Utf8Unit × Utf8State :=
  if c.val < 0x80 then ([([c], true)], .idle)
  else
    match utf8Lead c with
    | some (more, lo, hi) => ([], .inside c [] more lo hi)
    | none => ([([c], false)], .idle)

/-- One byte: the units completed by it and the next state. -/
def utf8Step (st : Utf8State) (c : Byte) : List Utf8Unit × Utf8State :=
  match st with
  | .idle => utf8Start c
  | .inside first rest more lo hi =>
    if lo ≤ c.val ∧ c.val ≤ hi then
      if more ≤ 1 then ([(first :: rest ++ [c], true)], .idle)
      else ([], .inside first (rest ++ [c]) (more - 1) 0x80 0xBF)
    else (st.flush ++ (utf8Start c).1, (utf8Start c).2)

/-- The units of a string from a decoder state on. -/
def utf8UnitsFrom : Utf8State → Str → List Utf8Unit
  | st, [] => st.flush
  | st, c :: cs => (utf8Step st c).1 ++ utf8UnitsFrom (utf8Step st c).2 cs

/-- The units Go steps over when it reads a string as UTF-8. -/
def utf8Units (s : Str) : List Utf8Unit := utf8UnitsFrom .idle s

/-- Go `utf8.Valid`: every unit is a well-formed encoding. -/
def validUTF8 (s : Str) : Bool := (utf8Units s).all (fun u => u.2)

/-- The UTF-8 encoding of the replacement character U+FFFD. -/
def replacement : Str := [0xEF, 0xBF, 0xBD]

/-- A string coerced to well-formed UTF-8: every ill-formed unit becomes the
replacement character. -/
def toValidUTF8 (s : Str) : Str :=
  (utf8Units s).flatMap (fun u => if u.2 then u.1 else replacement)

/-! ### Library functions on strings -/

/-- Worker of `strings.ReplaceAll` for a non-empty `old`: scans left to right;
`skip` counts the bytes of a matched occurrence still to be dropped, so
matches never overlap. -/
def replaceFrom (old new : Str) : Nat → Str → Str
  | _, [] => []
  | skip + 1, _ :: s => replaceFrom old new skip s
  | 0, c :: s =>
    if old.isPrefixOf (c :: s) then new ++ replaceFrom old new (old.length - 1) s
    else c :: replaceFrom old new 0 s

/-- Go `strings.ReplaceAll(s, old, new)`: every non-overlapping occurrence of
`old`, leftmost first, is replaced by `new`; an empty `old` matches at the
beginning and after every UTF-8 unit. -/
def ReplaceAll (s old new : Str) : Str :=
  if old = [] then new ++ (utf8Units s).flatMap (fun u => u.1 ++ new)
  else replaceFrom old new 0 s

/-- Go `strings.Join(elems, sep)`. -/
def Join : List Str → Str → Str
  | [], _ => []
  | [a], _ => a
  | a :: b :: rest, sep => a ++ sep ++ Join (b :: rest) sep

/-! ## Maps -/

/-- Go `map[string]string`; `none` is the nil map. -/
abbrev GoMap := Option (List (Str × Str))

/-- Lookup in the entries of a map. -/
def entryGet : List (Str × Str) → Str → Option Str
  | [], _ => none
  | (k, v) :: rest, key => if k = key then some v else entryGet rest key

/-- Go `v, ok := m[key]`: the zero value and `false` when the key is missing
or the map is nil. -/
def mapIndex (m : GoMap) (key : Str) : Str × Bool :=
  match m with
  | none => ([], false)
  | some es =>
    match entryGet es key with
    | some v => (v, true)
    | none => ([], false)

/-- Go `m[key] = v` on the entries of a map. -/
def entrySet : List (Str × Str) → Str → Str → List (Str × Str)
  | [], key, v => [(key, v)]
  | (k, w) :: rest, key, v =>
    if k = key then (k, v) :: rest else (k, w) :: entrySet rest key v

/-- A Go map literal `map[string]string{k1: v1, ...}`. -/
def mapLiteral (entries : List (Str × Str)) : List (Str × Str) :=
  entries.foldl (fun m kv => entrySet m kv.1 kv.2) []

/-- The order in which `for key, value := range m` visits the entries of a
map: Go leaves it unspecified, so it is supplied from outside; every entry is
visited once. -/
structure MapRange where
  visit : List (Str × Str) → List (Str × Str)
  visit_perm : ∀ es, (visit es).Perm es

/-! ## patch.go: constants -/

/-- The constant `ecrSecret`. -/
def ecrSecret : Str := lit "\x7b\"name\": \"appmesh-ecr-secret\"\x7d"

/-- The format `create`, applied: `fmt.Sprintf(create, target, value)`. -/
def create (target value : Str) : Str :=
  lit "\x7b\"op\":\"add\",\"path\":\"/spec/" ++ target ++ lit "\", \"value\": [" ++ value ++ lit "]\x7d"

/-- The format `add`, applied: `fmt.Sprintf(add, target, value)`. -/
def add (target value : Str) : Str :=
  lit "\x7b\"op\":\"add\",\"path\":\"/spec/" ++ target ++ lit "/-\", \"value\": " ++ value ++ lit "\x7d"

/-- The format `createAnnotation`, applied: `fmt.Sprintf(createAnnotation, key, value)`. -/
def createAnnotation (key value : Str) : Str :=
  lit "\x7b\"op\":\"add\",\"path\":\"/metadata/annotations\",\"value\":\x7b\"" ++ key ++ lit "\": \"" ++ value
    ++ lit "\"\x7d\x7d"

/-- The format `updateAnnotation`, applied: `fmt.Sprintf(updateAnnotation, op, key, value)`. -/
def updateAnnotation (op key value : Str) : Str :=
  lit "\x7b\"op\":\"" ++ op ++ lit "\",\"path\":\"/metadata/annotations/" ++ key ++ lit "\",\"value\":\"" ++ value
    ++ lit "\"\x7d"

/-! ## patch.go: annotation merge -/

/-- The function `escapeJSONPointer` (patch.go, lines 148-151). -/
def escapeJSONPointer (key : Str) : Str :=
  let s0 := ReplaceAll key (lit "~") (lit "~0")
  ReplaceAll s0 (lit "/") (lit "~1")

/-- One iteration of the loop of `annotationsPatches` (patch.go, lines
132-142); the state is the local `existingAnnotations` and `patches`. -/
def annotationsStep (st : GoMap × List Str) (kv : Str × Str) : GoMap × List Str :=
  match st.1 with
  | none =>
    (some [], st.2 ++ [ createAnnotation kv.1 kv.2])
  | some _ =>
    let op := if (mapIndex st.1 kv.1).1 ≠ [] then lit "replace" else lit "add"
    (st.1, st.2 ++ [ updateAnnotation op (escapeJSONPointer kv.1) kv.2])

/-- The function `annotationsPatches` (patch.go, lines 130-146);
`newAnnotations` lists the entries of the desired map in the order the
`range` loop visits them. -/
def annotationsPatches (existingAnnotations : GoMap) (newAnnotations : List (Str × Str)) : List Str :=
  (newAnnotations.foldl annotationsStep (existingAnnotations, [])).2

/-- JSON-Pointer un-escaping as the specification words it: every `~1`
becomes `/`, then every `~0` becomes `~`. -/
def unescapeJSONPointer (token : Str) : Str :=
  ReplaceAll (ReplaceAll token (lit "~1") (lit "/")) (lit "~0") (lit "~")

/-! ## sidecar.go: templates

The fragment of Go `text/template` the two container templates use: literal
text, `{{ .Field }}` actions, `{{ if pipeline }} ... {{ end }}` and the
function `or`. `text/template` writes values unescaped. -/

/-- The three fields of the Kubernetes `corev1.VolumeMount` the templates read. -/
structure VolumeMount where
  Name : Str
  MountPath : Str
  ReadOnly : Bool

/-- The struct `SidecarMeta` (sidecar.go, lines 118-140). -/
structure SidecarMeta where
  ContainerImage : Str
  MeshName : Str
  VirtualNodeName : Str
  Preview : Str
  LogLevel : Str
  Region : Str
  CpuRequests : Str
  MemoryRequests : Str
  EnableJaegerTracing : Bool
  JaegerAddress : Str
  JaegerPort : Str
  EnableDatadogTracing : Bool
  DatadogAddress : Str
  DatadogPort : Str
  InjectXraySidecar : Bool
  EnableStatsTags : Bool
  EnableStatsD : Bool
  ServiceAccountVolumeMount : Option VolumeMount

/-- Values a template pipeline evaluates to. -/
inductive Value
  | str (s : Str)
  | bool (b : Bool)
  | mount (p : Option VolumeMount)

/-- Template pipelines: a field chain `.A.B` or the call `or a b`. -/
inductive Pipeline
  | field (chain : List String)
  | orFn (a b : Pipeline)

/-- Parsed template nodes. -/
inductive Node
  | text (s : String)
  | action (p : Pipeline)
  | ifNode (cond : Pipeline) (body : Node)
  | seq (items : List Node)

/-- Truth of a value in `{{ if }}` and `or`: the empty string, `false` and the
nil pointer are false. -/
def truth : Value → Bool
  | .str s => !s.isEmpty
  | .bool b => b
  | .mount p => p.isSome

/-- Field access on a `*VolumeMount`. -/
def VolumeMount.field (vm : VolumeMount) : String → Except GoError Value
  | "Name" => .ok (.str vm.Name)
  | "MountPath" => .ok (.str vm.MountPath)
  | "ReadOnly" => .ok (.bool vm.ReadOnly)
  | _ => .error (lit "cannot evaluate field")

/-- Evaluation of a field chain with `SidecarMeta` as dot; a field of a nil
pointer and an unknown field are execution errors. -/
def SidecarMeta.field (m : SidecarMeta) : List String → Except GoError Value
  | ["ContainerImage"] => .ok (.str m.ContainerImage)
  | ["MeshName"] => .ok (.str m.MeshName)
  | ["VirtualNodeName"] => .ok (.str m.VirtualNodeName)
  | ["Preview"] => .ok (.str m.Preview)
  | ["LogLevel"] => .ok (.str m.LogLevel)
  | ["Region"] => .ok (.str m.Region)
  | ["CpuRequests"] => .ok (.str m.CpuRequests)
  | ["MemoryRequests"] => .ok (.str m.MemoryRequests)
  | ["EnableJaegerTracing"] => .ok (.bool m.EnableJaegerTracing)
  | ["JaegerAddress"] => .ok (.str m.JaegerAddress)
  | ["JaegerPort"] => .ok (.str m.JaegerPort)
  | ["EnableDatadogTracing"] => .ok (.bool m.EnableDatadogTracing)
  | ["DatadogAddress"] => .ok (.str m.DatadogAddress)
  | ["DatadogPort"] => .ok (.str m.DatadogPort)
  | ["InjectXraySidecar"] => .ok (.bool m.InjectXraySidecar)
  | ["EnableStatsTags"] => .ok (.bool m.EnableStatsTags)
  | ["EnableStatsD"] => .ok (.bool m.EnableStatsD)
  | ["ServiceAccountVolumeMount"] => .ok (.mount m.ServiceAccountVolumeMount)
  | ["ServiceAccountVolumeMount", f] =>
    match m.ServiceAccountVolumeMount with
    | none => .error (lit "nil pointer evaluating")
    | some vm => vm.field f
  | _ => .error (lit "cannot evaluate field")

/-- Evaluation of a pipeline; `or` returns its first true argument, else the
last one. -/
def evalPipeline (m : SidecarMeta) : Pipeline → Except GoError Value
  | .field chain => m.field chain
  | .orFn a b => do
    let va ← evalPipeline m a
    let vb ← evalPipeline m b
    pure (if truth va then va else vb)

/-- What an action writes for a value; the templates print strings and
booleans only. -/
def printValue : Value → Except GoError Str
  | .str s => .ok s
  | .bool true => .ok (lit "true")
  | .bool false => .ok (lit "false")
  | .mount _ => .error (lit "pointer values are not printed by these templates")

mutual
/-- Template execution of one node (`Template.Execute`). -/
def execNode (m : SidecarMeta) : Node → Except GoError Str
  | .text s => .ok (lit s)
  | .action p => do
    let v ← evalPipeline m p
    printValue v
  | .ifNode c body => do
    let v ← evalPipeline m c
    if truth v then execNode m body else pure []
  | .seq items => execList m items
/-- Template execution of a list of nodes, in order. -/
def execList (m : SidecarMeta) : List Node → Except GoError Str
  | [] => .ok []
  | n :: rest => do
    let a ← execNode m n
    let b ← execList m rest
    pure (a ++ b)
end

/-- The constant `envoyContainerTemplate` (sidecar.go, lines 10-80), parsed. -/
def envoyContainerTemplate : Node :=
  .seq [
    .text ("\n" ++
      "\x7b\n" ++
      "  \"name\": \"envoy\",\n" ++
      "  \"image\": \""),
    .action (.field ["ContainerImage"]),
    .text ("\",\n" ++
      "  \"securityContext\": \x7b\n" ++
      "    \"runAsUser\": 1337\n" ++
      "  \x7d,\n" ++
      "  \"ports\": [\n" ++
      "    \x7b\n" ++
      "      \"containerPort\": 9901,\n" ++
      "      \"name\": \"stats\",\n" ++
      "      \"protocol\": \"TCP\"\n" ++
      "    \x7d\n" ++
      "  ],\n" ++
      "  \"env\": [\n" ++
      "    \x7b\n" ++
      "      \"name\": \"APPMESH_VIRTUAL_NODE_NAME\",\n" ++
      "      \"value\": \"mesh/"),
    .action (.field ["MeshName"]),
    .text "/virtualNode/",
    .action (.field ["VirtualNodeName"]),
    .text ("\"\n" ++
      "    \x7d,\n" ++
      "    \x7b\n" ++
      "      \"name\": \"APPMESH_PREVIEW\",\n" ++
      "      \"value\": \""),
    .action (.field ["Preview"]),
    .text ("\"\n" ++
      "    \x7d,\n" ++
      "    \x7b\n" ++
      "      \"name\": \"ENVOY_LOG_LEVEL\",\n" ++
      "      \"value\": \""),
    .action (.field ["LogLevel"]),
    .text ("\"\n" ++
      "    \x7d"),
    .ifNode (.orFn (.field ["EnableJaegerTracing"]) (.field ["EnableDatadogTracing"])) (.seq [
      .text (",\n" ++
        "    \x7b\n" ++
        "      \"name\": \"ENVOY_STATS_CONFIG_FILE\",\n" ++
        "      \"value\": \"/tmp/envoy/envoyconf.yaml\"\n" ++
        "    \x7d")]),
    .text (",\n" ++
      "    \x7b\n" ++
      "      \"name\": \"AWS_ROLE_SESSION_NAME\",\n" ++
      "      \"value\": \""),
    .action (.field ["VirtualNodeName"]),
    .text ("\"\n" ++
      "    \x7d,\n" ++
      "    \x7b\n" ++
      "      \"name\": \"AWS_REGION\",\n" ++
      "      \"value\": \""),
    .action (.field ["Region"]),
    .text ("\"\n" ++
      "    \x7d"),
    .ifNode (.field ["InjectXraySidecar"]) (.seq [
      .text (",\n" ++
        "    \x7b\n" ++
        "      \"name\": \"ENABLE_ENVOY_XRAY_TRACING\",\n" ++
        "      \"value\": \"1\"\n" ++
        "    \x7d")]),
    .ifNode (.field ["EnableStatsTags"]) (.seq [
      .text (",\n" ++
        "    \x7b\n" ++
        "      \"name\": \"ENABLE_ENVOY_STATS_TAGS\",\n" ++
        "      \"value\": \"1\"\n" ++
        "    \x7d")]),
    .ifNode (.field ["EnableStatsD"]) (.seq [
      .text (",\n" ++
        "    \x7b\n" ++
        "      \"name\": \"ENABLE_ENVOY_DOG_STATSD\",\n" ++
        "      \"value\": \"1\"\n" ++
        "    \x7d")]),
    .text ("\n" ++
      "  ],\n" ++
      "  \"volumeMounts\": [\n" ++
      "    "),
    .ifNode (.field ["ServiceAccountVolumeMount"]) (.seq [
      .text ("\x7b\n" ++
        "      \"mountPath\": \""),
      .action (.field ["ServiceAccountVolumeMount", "MountPath"]),
      .text ("\",\n" ++
        "      \"name\": \""),
      .action (.field ["ServiceAccountVolumeMount", "Name"]),
      .text ("\",\n" ++
        "      \"readOnly\": "),
      .action (.field ["ServiceAccountVolumeMount", "ReadOnly"]),
      .text ("\n" ++
        "    \x7d")]),
    .ifNode (.orFn (.field ["EnableJaegerTracing"]) (.field ["EnableDatadogTracing"])) (.seq [
      .ifNode (.field ["ServiceAccountVolumeMount"]) (.seq [
        .text ","]),
      .text ("\n" ++
        "    \x7b\n" ++
        "      \"mountPath\": \"/tmp/envoy\",\n" ++
        "      \"name\": \"envoy-tracing-config\"\n" ++
        "    \x7d")]),
    .text ("\n" ++
      "  ],\n" ++
      "  \"resources\": \x7b\n" ++
      "    \"requests\": \x7b\n" ++
      "      \"cpu\": \""),
    .action (.field ["CpuRequests"]),
    .text ("\",\n" ++
      "      \"memory\": \""),
    .action (.field ["MemoryRequests"]),
    .text ("\"\n" ++
      "    \x7d\n" ++
      "  \x7d\n" ++
      "\x7d\n")]

/-- The constant `xrayDaemonContainerTemplate` (sidecar.go, lines 81-116), parsed. -/
def xrayDaemonContainerTemplate : Node :=
  .seq [
    .text ("\n" ++
      "\x7b\n" ++
      "  \"name\": \"xray-daemon\",\n" ++
      "  \"image\": \"amazon/aws-xray-daemon\",\n" ++
      "  \"securityContext\": \x7b\n" ++
      "    \"runAsUser\": 1337\n" ++
      "  \x7d,\n" ++
      "  \"ports\": [\n" ++
      "    \x7b\n" ++
      "      \"containerPort\": 2000,\n" ++
      "      \"name\": \"xray\",\n" ++
      "      \"protocol\": \"UDP\"\n" ++
      "    \x7d\n" ++
      "  ],\n" ++
      "  \"env\": [\n" ++
      "    \x7b\n" ++
      "      \"name\": \"AWS_ROLE_SESSION_NAME\",\n" ++
      "      \"value\": \""),
    .action (.field ["VirtualNodeName"]),
    .text ("\"\n" ++
      "    \x7d\n" ++
      "  ],\n" ++
      "  \"volumeMounts\": [\n" ++
      "    "),
    .ifNode (.field ["ServiceAccountVolumeMount"]) (.seq [
      .text ("\n" ++
        "    \x7b\n" ++
        "\t  \"mountPath\": \""),
      .action (.field ["ServiceAccountVolumeMount", "MountPath"]),
      .text ("\",\n" ++
        "\t  \"name\": \""),
      .action (.field ["ServiceAccountVolumeMount", "Name"]),
      .text ("\",\n" ++
        "\t  \"readOnly\": "),
      .action (.field ["ServiceAccountVolumeMount", "ReadOnly"]),
      .text ("\n" ++
        "    \x7d")]),
    .text ("\n" ++
      "  ],\n" ++
      "  \"resources\": \x7b\n" ++
      "    \"requests\": \x7b\n" ++
      "      \"cpu\": \""),
    .action (.field ["CpuRequests"]),
    .text ("\",\n" ++
      "      \"memory\": \""),
    .action (.field ["MemoryRequests"]),
    .text ("\"\n" ++
      "    \x7d\n" ++
      "  \x7d\n" ++
      "\x7d\n")]

/-- The function `renderTemplate` (sidecar.go, lines 164-180): the template
text is a constant that parses, so `t` is its parsed form; writing to the
in-memory buffer and flushing it do not fail. -/
def renderTemplate (_name : Str) (t : Node) (m : SidecarMeta) : Except GoError Str :=
  execNode m t

/-- The function `renderSidecars` (sidecar.go, lines 142-162). -/
def renderSidecars (m : SidecarMeta) : Except GoError (List Str) := do
  let mut sidecars : List Str := []
  let envoySidecar ← renderTemplate (lit "envoy") envoyContainerTemplate m
  sidecars := sidecars ++ [envoySidecar]
  if m.InjectXraySidecar then
    let xrayDaemonSidecar ← renderTemplate (lit "xray-daemon") xrayDaemonContainerTemplate m
    sidecars := sidecars ++ [xrayDaemonSidecar]
  return sidecars

/-! ## patch.go: patch composition -/

/-- The constants of package `config` that patch.go names; their values are
declared outside the embedded files. -/
structure Config where
  AppMeshCNIAnnotation : Str
  AppMeshEgressIgnoredIPsAnnotation : Str
  AppMeshEgressIgnoredPortsAnnotation : Str
  AppMeshPortsAnnotation : Str
  AppMeshSidecarInjectAnnotation : Str
  AppMeshIgnoredUIDAnnotation : Str
  AppMeshProxyEgressPortAnnotation : Str
  AppMeshProxyIngressPortAnnotation : Str
  AppMeshProxyUID : Str
  AppMeshProxyEgressPort : Str
  AppMeshProxyIngressPort : Str

/-- The keys of the map literal of `appMeshCNIAnnotationsPatch`, in source order. -/
def Config.annotationKeys (cfg : Config) : List Str :=
  [ Config.AppMeshEgressIgnoredIPsAnnotation cfg,
    Config.AppMeshEgressIgnoredPortsAnnotation cfg,
    Config.AppMeshPortsAnnotation cfg,
    Config.AppMeshSidecarInjectAnnotation cfg,
    Config.AppMeshIgnoredUIDAnnotation cfg,
    Config.AppMeshProxyEgressPortAnnotation cfg,
    Config.AppMeshProxyIngressPortAnnotation cfg]

/-- The struct `InitMeta`, declared outside the embedded files: the three
fields patch.go reads, and `other` for whatever else `renderInit` consumes. -/
structure InitMeta (ρ : Type) where
  IgnoredIPs : Str
  EgressIgnoredPorts : Str
  Ports : Str
  other : ρ

/-- The struct `Meta` (patch.go, lines 19-27). -/
structure Meta (ρ : Type) where
  AppendInit : Bool
  AppendSidecar : Bool
  AppendImagePullSecret : Bool
  HasImagePullSecret : Bool
  Init : InitMeta ρ
  Sidecar : SidecarMeta
  PodAnnotations : GoMap

/-- What patch.go takes from outside the embedded files: the constants of
package `config`, the renderers of init.go and of the tracing files, and the
visiting order of `range` over a map. -/
structure Env (ρ : Type) where
  cfg : Config
  renderInit : InitMeta ρ → Except GoError Str
  renderDatadogConfigVolume : Str
  renderDatadogInitContainer : Str → Str → Except GoError Str
  renderJaegerConfigVolume : Str
  renderJaegerInitContainer : Str → Str → Except GoError Str
  range : MapRange

/-- The local `newAnnotations` of `appMeshCNIAnnotationsPatch` (patch.go,
lines 117-126). -/
def newAnnotations {ρ : Type} (env : Env ρ) (m : Meta ρ) : List (Str × Str) :=
  mapLiteral [
    ( Config.AppMeshEgressIgnoredIPsAnnotation env.cfg, m.Init.IgnoredIPs),
    ( Config.AppMeshEgressIgnoredPortsAnnotation env.cfg, m.Init.EgressIgnoredPorts),
    ( Config.AppMeshPortsAnnotation env.cfg, m.Init.Ports),
    ( Config.AppMeshSidecarInjectAnnotation env.cfg, lit "enabled"),
    ( Config.AppMeshIgnoredUIDAnnotation env.cfg, env.cfg.AppMeshProxyUID),
    ( Config.AppMeshProxyEgressPortAnnotation env.cfg, env.cfg.AppMeshProxyEgressPort),
    ( Config.AppMeshProxyIngressPortAnnotation env.cfg, env.cfg.AppMeshProxyIngressPort)]

/-- The function `appMeshCNIAnnotationsPatch` (patch.go, lines 116-128). -/
def appMeshCNIAnnotationsPatch {ρ : Type} (env : Env ρ) (m : Meta ρ) : List Str :=
  annotationsPatches m.PodAnnotations (env.range.visit (newAnnotations env m))

/-- The local `appmeshCNIEnabled` of `GeneratePatch` (patch.go, lines 34-37). -/
def appmeshCNIEnabled {ρ : Type} (env : Env ρ) (m : Meta ρ) : Bool :=
  match mapIndex m.PodAnnotations ( Config.AppMeshCNIAnnotation env.cfg) with
  | (v, true) => decide (v = lit "enabled")
  | (_, false) => false

/-- The body of `GeneratePatch` up to its last statement (patch.go, lines
30-110): the value of the local `patches`, or the error of the first renderer
that fails (each `if err != nil` returns at once). -/
def composePatches {ρ : Type} (env : Env ρ) (m : Meta ρ) : Except GoError (List Str) := do
  let mut patches : List Str := []
  if appmeshCNIEnabled env m then
    patches := patches ++ appMeshCNIAnnotationsPatch env m
  else
    let mut initPatch ← env.renderInit m.Init
    if m.AppendInit then
      initPatch := add (lit "initContainers") initPatch
    else
      initPatch := create (lit "initContainers") initPatch
    patches := patches ++ [initPatch]
  let mut sidecarPatches : List Str := []
  let sidecars ← renderSidecars m.Sidecar
  if m.AppendSidecar then
    sidecarPatches := sidecars.foldl (fun acc sidecar => acc ++ [add (lit "containers") sidecar]) sidecarPatches
  else
    sidecarPatches := sidecarPatches ++ [create (lit "containers") (Join sidecars (lit ","))]
  patches := patches ++ sidecarPatches
  if m.HasImagePullSecret then
    let mut ecrPatch : Str := []
    if m.AppendImagePullSecret then
      ecrPatch := add (lit "imagePullSecrets") ecrSecret
    else
      ecrPatch := create (lit "imagePullSecrets") ecrSecret
    patches := patches ++ [ecrPatch]
  if m.Sidecar.EnableDatadogTracing then
    let volumePatch := add (lit "volumes") env.renderDatadogConfigVolume
    patches := patches ++ [volumePatch]
    let datadogInit ← env.renderDatadogInitContainer m.Sidecar.DatadogAddress m.Sidecar.DatadogPort
    let j := add (lit "initContainers") datadogInit
    patches := patches ++ [j]
  if m.Sidecar.EnableJaegerTracing then
    let volumePatch := add (lit "volumes") env.renderJaegerConfigVolume
    patches := patches ++ [volumePatch]
    let jaegerInit ← env.renderJaegerInitContainer m.Sidecar.JaegerAddress m.Sidecar.JaegerPort
    let j := add (lit "initContainers") jaegerInit
    patches := patches ++ [j]
  return patches

/-- The function `GeneratePatch` (patch.go, lines 29-114): the returned bytes
and error. Every error return hands back the local `patch`, which is never
assigned and so is the empty string. -/
def GeneratePatch {ρ : Type} (env : Env ρ) (m : Meta ρ) : Str × Option GoError :=
  let patch : Str := []
  match composePatches env m with
  | .error err => (patch, some err)
  | .ok patches => (lit "[" ++ Join patches (lit ",") ++ lit "]", none)

/-! ## The steps of `GeneratePatch`, one by one

`composePatches` is the source function as written. The definitions below
describe its five steps separately; `composePatches_eq_steps` proves that
running them in sequence is `composePatches`. -/

/-- Step 1 (patch.go, lines 38-52): the annotation merge in CNI mode, the
wrapped init container otherwise. -/
def initStep {ρ : Type} (env : Env ρ) (m : Meta ρ) : Except GoError (List Str) :=
  if appmeshCNIEnabled env m then .ok (appMeshCNIAnnotationsPatch env m)
  else
    match env.renderInit m.Init with
    | .error err => .error err
    | .ok initPatch =>
      .ok [if m.AppendInit then add (lit "initContainers") initPatch
           else create (lit "initContainers") initPatch]

/-- Step 2 (patch.go, lines 60-68): the containers operations for the rendered
sidecars. -/
def containersOps {ρ : Type} (m : Meta ρ) (sidecars : List Str) : List Str :=
  if m.AppendSidecar then sidecars.map (fun sidecar => add (lit "containers") sidecar)
  else [create (lit "containers") (Join sidecars (lit ","))]

/-- Step 3 (patch.go, lines 71-79): the image pull secret. -/
def pullSecretOps {ρ : Type} (m : Meta ρ) : List Str :=
  if m.HasImagePullSecret then
    [if m.AppendImagePullSecret then add (lit "imagePullSecrets") ecrSecret
     else create (lit "imagePullSecrets") ecrSecret]
  else []

/-- Step 4 (patch.go, lines 81-94): Datadog tracing. -/
def datadogStep {ρ : Type} (env : Env ρ) (m : Meta ρ) : Except GoError (List Str) :=
  if m.Sidecar.EnableDatadogTracing then
    match env.renderDatadogInitContainer m.Sidecar.DatadogAddress m.Sidecar.DatadogPort with
    | .error err => .error err
    | .ok datadogInit =>
      .ok [add (lit "volumes") env.renderDatadogConfigVolume, add (lit "initContainers") datadogInit]
  else .ok []

/-- Step 5 (patch.go, lines 96-109): Jaeger tracing. -/
def jaegerStep {ρ : Type} (env : Env ρ) (m : Meta ρ) : Except GoError (List Str) :=
  if m.Sidecar.EnableJaegerTracing then
    match env.renderJaegerInitContainer m.Sidecar.JaegerAddress m.Sidecar.JaegerPort with
    | .error err => .error err
    | .ok jaegerInit =>
      .ok [add (lit "volumes") env.renderJaegerConfigVolume, add (lit "initContainers") jaegerInit]
  else .ok []

/-! ## Reading an operation

Operations are strings; every format of patch.go starts with the `op` and the
`path`, so the path of an operation is read off its beginning. -/

/-- An operation whose `op` is `add` or `replace` and whose path begins with `pre`. -/
def pathStartsWith (pre p : Str) : Bool :=
  (lit "\x7b\"op\":\"add\",\"path\":\"" ++ pre).isPrefixOf p
    || (lit "\x7b\"op\":\"replace\",\"path\":\"" ++ pre).isPrefixOf p

/-- An operation whose `op` is `add` or `replace` and whose path is exactly `path`. -/
def hasPath (path p : Str) : Bool :=
  pathStartsWith (path ++ lit "\"") p

/-- The beginning of every rendering of `envoyContainerTemplate`, up to the image. -/
def envoyHeader : Str :=
  lit "\n\x7b\n  \"name\": \"envoy\",\n  \"image\": \""

/-- Escaping of one character: what `escapeJSONPointer` does to it. -/
def escapeChar (c : Byte) : Str :=
  if c = ch '~' then [ch '~', ch '0'] else if c = ch '/' then [ch '~', ch '1'] else [c]

/-! ## Sample inputs -/

/-- Sample constants for package `config`, with pairwise distinct keys. -/
def sampleConfig : Config where
  AppMeshCNIAnnotation := lit "appmesh.k8s.aws/cni"
  AppMeshEgressIgnoredIPsAnnotation := lit "appmesh.k8s.aws/egressIgnoredIPs"
  AppMeshEgressIgnoredPortsAnnotation := lit "appmesh.k8s.aws/egressIgnoredPorts"
  AppMeshPortsAnnotation := lit "appmesh.k8s.aws/ports"
  AppMeshSidecarInjectAnnotation := lit "appmesh.k8s.aws/sidecarInjectorWebhook"
  AppMeshIgnoredUIDAnnotation := lit "appmesh.k8s.aws/ignoredUID"
  AppMeshProxyEgressPortAnnotation := lit "appmesh.k8s.aws/proxyEgressPort"
  AppMeshProxyIngressPortAnnotation := lit "appmesh.k8s.aws/proxyIngressPort"
  AppMeshProxyUID := lit "1337"
  AppMeshProxyEgressPort := lit "15001"
  AppMeshProxyIngressPort := lit "15000"

/-- A sample environment: every renderer succeeds with a short JSON object and
`range` visits a map in the order of its entries. -/
def sampleEnv : Env Unit where
  cfg := sampleConfig
  renderInit := fun _ => .ok (lit "\x7b\"name\": \"proxyinit\"\x7d")
  renderDatadogConfigVolume := lit "\x7b\"name\": \"envoy-tracing-config\"\x7d"
  renderDatadogInitContainer := fun _ _ => .ok (lit "\x7b\"name\": \"inject-datadog-config\"\x7d")
  renderJaegerConfigVolume := lit "\x7b\"name\": \"envoy-tracing-config\"\x7d"
  renderJaegerInitContainer := fun _ _ => .ok (lit "\x7b\"name\": \"inject-jaeger-config\"\x7d")
  range := ⟨id, fun es => List.Perm.refl es⟩

/-- The sidecar description of `Test_Sidecar` (sidecar_test.go, lines 13-22). -/
def sampleSidecar : SidecarMeta where
  ContainerImage := lit "111345817488.dkr.ecr.us-west-2.amazonaws.com/aws-appmesh-envoy:latest"
  MeshName := lit "global"
  VirtualNodeName := lit "podinfo"
  Preview := lit "0"
  LogLevel := lit "debug"
  Region := lit "us-west-2"
  CpuRequests := lit "100m"
  MemoryRequests := lit "128Mi"
  EnableJaegerTracing := false
  JaegerAddress := []
  JaegerPort := []
  EnableDatadogTracing := false
  DatadogAddress := []
  DatadogPort := []
  InjectXraySidecar := false
  EnableStatsTags := false
  EnableStatsD := false
  ServiceAccountVolumeMount := none

/-- A sample request: append mode for the sidecars, no image pull secret, no
tracing, pod without annotations. -/
def sampleMeta : Meta Unit where
  AppendInit := false
  AppendSidecar := true
  AppendImagePullSecret := false
  HasImagePullSecret := false
  Init := ⟨lit "10.0.0.1", lit "22", lit "9898", ()⟩
  Sidecar := sampleSidecar
  PodAnnotations := none

/-- The sample request with the X-Ray daemon switched on. -/
def sampleMetaXray : Meta Unit :=
  { sampleMeta with Sidecar := { sampleSidecar with InjectXraySidecar := true } }

/-- The sample request in CNI mode. -/
def sampleMetaCNI : Meta Unit :=
  { sampleMeta with PodAnnotations := some [(lit "appmesh.k8s.aws/cni", lit "enabled")] }

/-- The sample request in create mode with an image pull secret. -/
def sampleMetaSecret : Meta Unit :=
  { sampleMeta with AppendSidecar := false, HasImagePullSecret := true }

/-- The sample request with both tracers switched on. -/
def sampleMetaTracing : Meta Unit :=
  { sampleMeta with Sidecar := { sampleSidecar with
      EnableDatadogTracing := true, DatadogAddress := lit "datadog.appmesh-system", DatadogPort := lit "8126",
      EnableJaegerTracing := true, JaegerAddress := lit "appmesh-jaeger.appmesh-system", JaegerPort := lit "9411" } }

/-- The operations `composePatches` yields in the sample environment (empty on error). -/
def samplePatches (m : Meta Unit) : List Str :=
  match composePatches sampleEnv m with
  | .ok patches => patches
  | .error _ => []

/-! ## Reading JSON text

The reading of "parses as JSON" used by the claims on fragments and on the
patch document: a byte-by-byte reader for the grammar of RFC 8259, with the
values it builds, as Go `encoding/json` reads a text. An object keeps its
members in order; `field` returns the last member with a given name, as
decoding into a Go map does. A string is its bytes with the escapes resolved
and then coerced to well-formed UTF-8: an escape gives the encoding of its
character (a `\u` pair of surrogates one character, a lone surrogate the
replacement character), and a raw byte that is not part of a well-formed
encoding becomes the replacement character. The result of an escape is a
whole encoding that starts with no continuation byte, so coercing the string
when it ends treats the raw bytes as coercing them one by one does. -/

/-- JSON values; a number keeps its text. -/
inductive JValue
  | null
  | bool (b : Bool)
  | num (text : Str)
  | str (s : Str)
  | arr (items : List JValue)
  | obj (fields : List (Str × JValue))

/-- An open container on the reader's stack: an array with its items so far,
or an object with its members so far and the member name awaiting its value;
`bad` marks a value delivered where none was expected. -/
inductive Frame
  | arr (items : List JValue)
  | obj (fields : List (Str × JValue)) (key : Option Str)
  | bad

/-- Where the reader is inside a number. -/
inductive NumState
  | minus | zero | int | dot | frac | e | esign | exp

/-- What the reader expects next. -/
inductive Mode
  | value (closeAllowed : Bool)
  | key (closeAllowed : Bool)
  | colon
  | after
  | str (acc : Str) (isKey : Bool)
  | esc (acc : Str) (isKey : Bool)
  | uni (acc : Str) (isKey : Bool) (digits : Str) (high : Option Nat)
  | sur (acc : Str) (isKey : Bool) (high : Nat)
  | surEsc (acc : Str) (isKey : Bool) (high : Nat)
  | num (text : Str) (st : NumState)
  | word (rest : Str) (v : JValue)

/-- The state of the reader. -/
structure PState where
  mode : Mode
  stack : List Frame
  root : Option JValue

/-- JSON whitespace. -/
def isWs (c : Byte) : Bool :=
  c = ch ' ' || c = ch '\t' || c = ch '\n' || c = ch '\r'

/-- A decimal digit. -/
def isDigit (c : Byte) : Bool :=
  (ch '0').val ≤ c.val && c.val ≤ (ch '9').val

/-- The value of a hexadecimal digit, if it is one. -/
def hexDigit (c : Byte) : Option Nat :=
  if isDigit c then some (c.val - (ch '0').val)
  else if (ch 'a').val ≤ c.val && c.val ≤ (ch 'f').val then some (c.val - (ch 'a').val + 10)
  else if (ch 'A').val ≤ c.val && c.val ≤ (ch 'F').val then some (c.val - (ch 'A').val + 10)
  else none

/-- A complete value `v` arrives: it becomes the root, an array item or the
value of the pending member. -/
def deliver (v : JValue) (stack : List Frame) (root : Option JValue) : PState :=
  { mode := .after
    stack :=
      match stack with
      | [] => []
      | .arr items :: rest => .arr (items ++ [v]) :: rest
      | .obj fields (some k) :: rest => .obj (fields ++ [(k, v)]) none :: rest
      | .obj _ none :: rest => .bad :: rest
      | .bad :: rest => .bad :: rest
    root :=
      match stack with
      | [] => some v
      | _ => root }

/-- The reader after a complete value: a comma, a closing bracket, whitespace. -/
def stepAfter (stack : List Frame) (root : Option JValue) (c : Byte) : Option PState :=
  if isWs c then some ⟨.after, stack, root⟩
  else
    match stack with
    | .arr items :: rest =>
      if c = ch ',' then some ⟨.value false, .arr items :: rest, root⟩
      else if c = ch ']' then some (deliver (.arr items) rest root)
      else none
    | .obj fields none :: rest =>
      if c = ch ',' then some ⟨.key false, .obj fields none :: rest, root⟩
      else if c = ch '\x7d' then some (deliver (.obj fields) rest root)
      else none
    | _ => none

/-- The reader where a value must start. -/
def stepValue (closeAllowed : Bool) (stack : List Frame) (root : Option JValue) (c : Byte) :
    Option PState :=
  if isWs c then some ⟨.value closeAllowed, stack, root⟩
  else if c = ch '"' then some ⟨.str [] false, stack, root⟩
  else if c = ch '\x7b' then some ⟨.key true, .obj [] none :: stack, root⟩
  else if c = ch '[' then some ⟨.value true, .arr [] :: stack, root⟩
  else if c = ch ']' then
    match closeAllowed, stack with
    | true, .arr items :: rest => some (deliver (.arr items) rest root)
    | _, _ => none
  else if c = ch '-' then some ⟨.num [c] .minus, stack, root⟩
  else if c = ch '0' then some ⟨.num [c] .zero, stack, root⟩
  else if isDigit c then some ⟨.num [c] .int, stack, root⟩
  else if c = ch 't' then some ⟨.word (lit "rue") (.bool true), stack, root⟩
  else if c = ch 'f' then some ⟨.word (lit "alse") (.bool false), stack, root⟩
  else if c = ch 'n' then some ⟨.word (lit "ull") .null, stack, root⟩
  else none

/-- The reader where a member name must start. -/
def stepKey (closeAllowed : Bool) (stack : List Frame) (root : Option JValue) (c : Byte) :
    Option PState :=
  if isWs c then some ⟨.key closeAllowed, stack, root⟩
  else if c = ch '"' then some ⟨.str [] true, stack, root⟩
  else if c = ch '\x7d' then
    match closeAllowed, stack with
    | true, .obj fields none :: rest => some (deliver (.obj fields) rest root)
    | _, _ => none
  else none

/-- A string ends: its bytes are coerced to well-formed UTF-8; a member name is
kept on its object, a value is delivered. -/
def endString (acc : Str) (isKey : Bool) (stack : List Frame) (root : Option JValue) :
    Option PState :=
  if isKey then
    match stack with
    | .obj fields none :: rest => some ⟨.colon, .obj fields (some (toValidUTF8 acc)) :: rest, root⟩
    | _ => none
  else some (deliver (.str (toValidUTF8 acc)) stack root)

/-- The byte an escape letter stands for. -/
def escapeLetter (c : Byte) : Option Byte :=
  if c = ch '"' then some (ch '"')
  else if c = ch '\\' then some (ch '\\')
  else if c = ch '/' then some (ch '/')
  else if c = ch 'b' then some 8
  else if c = ch 'f' then some 12
  else if c = ch 'n' then some (ch '\n')
  else if c = ch 'r' then some (ch '\r')
  else if c = ch 't' then some (ch '\t')
  else none

/-- The next state inside a number, if `c` continues it. -/
def numStep (st : NumState) (c : Byte) : Option NumState :=
  match st with
  | .minus => if c = ch '0' then some .zero else if isDigit c then some .int else none
  | .zero => if c = ch '.' then some .dot else if c = ch 'e' || c = ch 'E' then some .e else none
  | .int =>
    if isDigit c then some .int else if c = ch '.' then some .dot
    else if c = ch 'e' || c = ch 'E' then some .e else none
  | .dot => if isDigit c then some .frac else none
  | .frac => if isDigit c then some .frac else if c = ch 'e' || c = ch 'E' then some .e else none
  | .e => if c = ch '+' || c = ch '-' then some .esign else if isDigit c then some .exp else none
  | .esign => if isDigit c then some .exp else none
  | .exp => if isDigit c then some .exp else none

/-- Whether a number may end here. -/
def numFinal : NumState → Bool
  | .zero | .int | .frac | .exp => true
  | _ => false

/-- A high surrogate, the first half of a `\u` pair. -/
def isHighSurrogate (r : Nat) : Bool := 0xD800 ≤ r && r < 0xDC00

/-- A low surrogate, the second half of a `\u` pair. -/
def isLowSurrogate (r : Nat) : Bool := 0xDC00 ≤ r && r < 0xE000

/-- The number four hexadecimal digits stand for. -/
def hexValue (digits : Str) : Nat :=
  digits.foldl (fun n d => 16 * n + (hexDigit d).getD 0) 0

/-- One byte inside a string, outside an escape. -/
def stepStr (acc : Str) (k : Bool) (stack : List Frame) (root : Option JValue) (c : Byte) :
    Option PState :=
  if c = ch '"' then endString acc k stack root
  else if c = ch '\\' then some ⟨.esc acc k, stack, root⟩
  else if c.val < 32 then none
  else some ⟨.str (acc ++ [c]) k, stack, root⟩

/-- The byte after a backslash. -/
def stepEsc (acc : Str) (k : Bool) (stack : List Frame) (root : Option JValue) (c : Byte) :
    Option PState :=
  if c = ch 'u' then some ⟨.uni acc k [] none, stack, root⟩
  else
    match escapeLetter c with
    | some d => some ⟨.str (acc ++ [d]) k, stack, root⟩
    | none => none

/-- A `\u` escape with no high surrogate before it is complete: a high
surrogate waits for its pair, a low surrogate alone is the replacement
character, any other code is written in UTF-8. -/
def unicodeAlone (acc : Str) (k : Bool) (code : Nat) (stack : List Frame)
    (root : Option JValue) : PState :=
  if isHighSurrogate code then ⟨.sur acc k code, stack, root⟩
  else if isLowSurrogate code then ⟨.str (acc ++ replacement) k, stack, root⟩
  else ⟨.str (acc ++ utf8Encode code) k, stack, root⟩

/-- A `\u` escape is complete: after a high surrogate a low surrogate makes
the pair; anything else leaves the high surrogate alone, which is the
replacement character. -/
def unicodeDone (acc : Str) (k : Bool) (high : Option Nat) (code : Nat) (stack : List Frame)
    (root : Option JValue) : PState :=
  match high with
  | some h =>
    if isLowSurrogate code then
      ⟨.str (acc ++ utf8Encode (0x10000 + (h - 0xD800) * 0x400 + (code - 0xDC00))) k, stack, root⟩
    else unicodeAlone (acc ++ replacement) k code stack root
  | none => unicodeAlone acc k code stack root

/-- One byte. -/
def step (st : PState) (c : Byte) : Option PState :=
  match st.mode with
  | .value b => stepValue b st.stack st.root c
  | .key b => stepKey b st.stack st.root c
  | .colon =>
    if isWs c then some st
    else if c = ch ':' then some ⟨.value false, st.stack, st.root⟩
    else none
  | .after => stepAfter st.stack st.root c
  | .str acc k => stepStr acc k st.stack st.root c
  | .esc acc k => stepEsc acc k st.stack st.root c
  | .uni acc k digits high =>
    match hexDigit c with
    | none => none
    | some _ =>
      if digits.length = 3 then
        some (unicodeDone acc k high (hexValue (digits ++ [c])) st.stack st.root)
      else some ⟨.uni acc k (digits ++ [c]) high, st.stack, st.root⟩
  | .sur acc k high =>
    if c = ch '\\' then some ⟨.surEsc acc k high, st.stack, st.root⟩
    else stepStr (acc ++ replacement) k st.stack st.root c
  | .surEsc acc k high =>
    if c = ch 'u' then some ⟨.uni acc k [] (some high), st.stack, st.root⟩
    else stepEsc (acc ++ replacement) k st.stack st.root c
  | .num text ns =>
    match numStep ns c with
    | some ns' => some ⟨.num (text ++ [c]) ns', st.stack, st.root⟩
    | none =>
      if numFinal ns then
        stepAfter (deliver (.num text) st.stack st.root).stack
          (deliver (.num text) st.stack st.root).root c
      else none
  | .word rest v =>
    match rest with
    | [] => none
    | [d] => if c = d then some (deliver v st.stack st.root) else none
    | d :: rest' => if c = d then some ⟨.word rest' v, st.stack, st.root⟩ else none

/-- The reader run over a text. -/
def run : Str → PState → Option PState
  | [], st => some st
  | c :: cs, st =>
    match step st c with
    | some st' => run cs st'
    | none => none

/-- The value read, when the text has ended: all containers are closed. -/
def finish (st : PState) : Option JValue :=
  match st.mode, st.stack with
  | .after, [] => st.root
  | .num text ns, [] => if numFinal ns then some (.num text) else none
  | _, _ => none

/-- The JSON value a text parses to, if it is valid JSON. -/
def jsonParse (text : Str) : Option JValue :=
  match run text ⟨.value false, [], none⟩ with
  | some st => finish st
  | none => none

/-- The last member named `name` of a member list. -/
def fieldLast : List (Str × JValue) → Str → Option JValue
  | [], _ => none
  | (k, v) :: rest, name =>
    match fieldLast rest name with
    | some w => some w
    | none => if k = name then some v else none

/-- The member `name` of an object. -/
def JValue.field : JValue → Str → Option JValue
  | .obj fields, name => fieldLast fields name
  | _, _ => none

/-- The items of an array. -/
def JValue.items : JValue → List JValue
  | .arr xs => xs
  | _ => []

/-- The string a value is, if it is one. -/
def JValue.asStr : JValue → Option Str
  | .str s => some s
  | _ => none

/-- Whether a value is an object. -/
def JValue.isObj : JValue → Bool
  | .obj _ => true
  | _ => false

/-- The string member `name` of an object. -/
def JValue.strField (v : JValue) (name : Str) : Option Str :=
  (v.field name).bind JValue.asStr

/-- A text that reads as the complete value `v` wherever a value may start. -/
def Embeds (text : Str) (v : JValue) : Prop :=
  ∀ b stack root, run text ⟨.value b, stack, root⟩ = some (deliver v stack root)

/-- Bytes that the reader keeps as they are inside a JSON string: no quote, no
backslash, no control character. -/
def jsonSafeChar (c : Byte) : Bool :=
  !(c = ch '"') && !(c = ch '\\') && !(c.val < 32)

/-- Strings whose bytes the reader keeps as they are inside a JSON string. -/
def jsonSafe (s : Str) : Bool :=
  s.all jsonSafeChar

/-! ## Rendered text in pieces

The output of a template kept in pieces: the literal text of the template
and the field values written into it. -/

/-- A piece of rendered text: template text, or a string field written as is. -/
inductive Piece
  | text (s : Str)
  | hole (s : Str)

/-- The text of a piece. -/
def Piece.chars : Piece → Str
  | .text s => s
  | .hole s => s

/-- The text of a list of pieces. -/
def flatten : List Piece → Str
  | [] => []
  | p :: ps => p.chars ++ flatten ps

/-- What an action writes for a value, as a piece. -/
def pieceOfValue : Value → Except GoError Piece
  | .str s => .ok (.hole s)
  | .bool true => .ok (.text (lit "true"))
  | .bool false => .ok (.text (lit "false"))
  | .mount _ => .error (lit "pointer values are not printed by these templates")

mutual
/-- Template execution of one node, in pieces. -/
def piecesNode (m : SidecarMeta) : Node → Except GoError (List Piece)
  | .text s => .ok [.text (lit s)]
  | .action p => do
    let v ← evalPipeline m p
    let piece ← pieceOfValue v
    pure [piece]
  | .ifNode c body => do
    let v ← evalPipeline m c
    if truth v then piecesNode m body else pure []
  | .seq items => piecesList m items
/-- Template execution of a list of nodes, in pieces. -/
def piecesList (m : SidecarMeta) : List Node → Except GoError (List Piece)
  | [] => .ok []
  | n :: rest => do
    let a ← piecesNode m n
    let b ← piecesList m rest
    pure (a ++ b)
end

/-- The field values among the pieces. -/
def holes : List Piece → List Str
  | [] => []
  | .text _ :: ps => holes ps
  | .hole s :: ps => s :: holes ps

/-- The reader run over pieces: template text character by character, a field
value in one step, and only inside a string. -/
def runPieces : List Piece → PState → Option PState
  | [], st => some st
  | .text t :: ps, st =>
    match run t st with
    | some st' => runPieces ps st'
    | none => none
  | .hole h :: ps, st =>
    match st.mode with
    | .str acc k => runPieces ps ⟨.str (acc ++ h) k, st.stack, st.root⟩
    | _ => none

/-- The string fields the container templates write are all JSON-safe. -/
def SidecarMeta.jsonSafe (m : SidecarMeta) : Bool :=
  Patch.jsonSafe m.ContainerImage && Patch.jsonSafe m.MeshName && Patch.jsonSafe m.VirtualNodeName
    && Patch.jsonSafe m.Preview && Patch.jsonSafe m.LogLevel && Patch.jsonSafe m.Region
    && Patch.jsonSafe m.CpuRequests && Patch.jsonSafe m.MemoryRequests
    && (match m.ServiceAccountVolumeMount with
        | some vm => Patch.jsonSafe vm.MountPath && Patch.jsonSafe vm.Name
        | none => true)

/-- The string fields the container templates write are all valid UTF-8. -/
def SidecarMeta.validUTF8 (m : SidecarMeta) : Bool :=
  Patch.validUTF8 m.ContainerImage && Patch.validUTF8 m.MeshName
    && Patch.validUTF8 m.VirtualNodeName
    && Patch.validUTF8 m.Preview && Patch.validUTF8 m.LogLevel && Patch.validUTF8 m.Region
    && Patch.validUTF8 m.CpuRequests && Patch.validUTF8 m.MemoryRequests
    && (match m.ServiceAccountVolumeMount with
        | some vm => Patch.validUTF8 vm.MountPath && Patch.validUTF8 vm.Name
        | none => true)

/-! ## The JSON values the container templates stand for

A field written into a JSON string is read back coerced to well-formed
UTF-8 (`toValidUTF8`); for a field that is valid UTF-8 that is the field. -/

/-- An entry of an `env` array. -/
def envEntry (name : String) (value : Str) : JValue :=
  .obj [(lit "name", .str (lit name)), (lit "value", .str value)]

/-- The bytes of the value of `APPMESH_VIRTUAL_NODE_NAME`, as the reader
collects them: the bytes after the mesh name are added one by one. -/
def virtualNodePath (m : SidecarMeta) : Str :=
  (lit "/virtualNode/").foldl (fun acc c => acc ++ [c]) (lit "mesh/" ++ m.MeshName)
    ++ m.VirtualNodeName

/-- The `env` array of the envoy container. -/
def envoyEnv (m : SidecarMeta) : List JValue :=
  [envEntry "APPMESH_VIRTUAL_NODE_NAME" (toValidUTF8 (virtualNodePath m)),
   envEntry "APPMESH_PREVIEW" (toValidUTF8 m.Preview),
   envEntry "ENVOY_LOG_LEVEL" (toValidUTF8 m.LogLevel)]
  ++ (if m.EnableJaegerTracing || m.EnableDatadogTracing
      then [envEntry "ENVOY_STATS_CONFIG_FILE" (lit "/tmp/envoy/envoyconf.yaml")] else [])
  ++ [envEntry "AWS_ROLE_SESSION_NAME" (toValidUTF8 m.VirtualNodeName)]
  ++ [envEntry "AWS_REGION" (toValidUTF8 m.Region)]
  ++ (if m.InjectXraySidecar then [envEntry "ENABLE_ENVOY_XRAY_TRACING" (lit "1")] else [])
  ++ (if m.EnableStatsTags then [envEntry "ENABLE_ENVOY_STATS_TAGS" (lit "1")] else [])
  ++ (if m.EnableStatsD then [envEntry "ENABLE_ENVOY_DOG_STATSD" (lit "1")] else [])

/-- The service-account mount as a JSON object. -/
def mountValue (vm : VolumeMount) : JValue :=
  .obj [(lit "mountPath", .str (toValidUTF8 vm.MountPath)),
        (lit "name", .str (toValidUTF8 vm.Name)), (lit "readOnly", .bool vm.ReadOnly)]

/-- The fixed tracing-config mount as a JSON object. -/
def tracingMountValue : JValue :=
  .obj [(lit "mountPath", .str (lit "/tmp/envoy")), (lit "name", .str (lit "envoy-tracing-config"))]

/-- The `volumeMounts` array of the envoy container. -/
def envoyMounts (m : SidecarMeta) : List JValue :=
  (match m.ServiceAccountVolumeMount with
   | some vm => [mountValue vm]
   | none => [])
  ++ (if m.EnableJaegerTracing || m.EnableDatadogTracing then [tracingMountValue] else [])

/-- The `resources` member of both containers. -/
def resourcesValue (m : SidecarMeta) : JValue :=
  .obj [(lit "requests",
    .obj [(lit "cpu", .str (toValidUTF8 m.CpuRequests)),
          (lit "memory", .str (toValidUTF8 m.MemoryRequests))])]

/-- The JSON value `envoyContainerTemplate` stands for. -/
def envoyValue (m : SidecarMeta) : JValue :=
  .obj [
    (lit "name", .str (lit "envoy")),
    (lit "image", .str (toValidUTF8 m.ContainerImage)),
    (lit "securityContext", .obj [(lit "runAsUser", .num (lit "1337"))]),
    (lit "ports", .arr [.obj [(lit "containerPort", .num (lit "9901")),
      (lit "name", .str (lit "stats")), (lit "protocol", .str (lit "TCP"))]]),
    (lit "env", .arr (envoyEnv m)),
    (lit "volumeMounts", .arr (envoyMounts m)),
    (lit "resources", resourcesValue m)]

/-- The JSON value `xrayDaemonContainerTemplate` stands for. -/
def xrayValue (m : SidecarMeta) : JValue :=
  .obj [
    (lit "name", .str (lit "xray-daemon")),
    (lit "image", .str (lit "amazon/aws-xray-daemon")),
    (lit "securityContext", .obj [(lit "runAsUser", .num (lit "1337"))]),
    (lit "ports", .arr [.obj [(lit "containerPort", .num (lit "2000")),
      (lit "name", .str (lit "xray")), (lit "protocol", .str (lit "UDP"))]]),
    (lit "env", .arr [envEntry "AWS_ROLE_SESSION_NAME" (toValidUTF8 m.VirtualNodeName)]),
    (lit "volumeMounts", .arr (match m.ServiceAccountVolumeMount with
      | some vm => [mountValue vm]
      | none => [])),
    (lit "resources", resourcesValue m)]

/-- Every field value among the pieces is JSON-safe. -/
def holesSafe : List Piece → Prop
  | [] => True
  | .text _ :: ps => holesSafe ps
  | .hole h :: ps => jsonSafe h = true ∧ holesSafe ps

/-- Executing the nodes `l` gives a text that takes the reader from `st` to `st'`. -/
def ReadsList (m : SidecarMeta) (l : List Node) (st st' : PState) : Prop :=
  ∃ text, execList m l = .ok text ∧ run text st = some st'

/-- The nodes of a sequence. -/
def Node.children : Node → List Node
  | .seq items => items
  | _ => []

/-! ## Reading a container fragment -/

/-- The entries of the `env` array of a container. -/
def JValue.envEntries (v : JValue) : List JValue :=
  match v.field (lit "env") with
  | some e => e.items
  | none => []

/-- Whether the `env` array has an entry named `name`. -/
def hasEnvName (v : JValue) (name : Str) : Bool :=
  v.envEntries.any (fun e => decide (e.strField (lit "name") = some name))

/-- Whether the `env` array has an entry named `name` with value `value`. -/
def hasEnv (v : JValue) (name value : Str) : Bool :=
  v.envEntries.any (fun e =>
    decide (e.strField (lit "name") = some name) && decide (e.strField (lit "value") = some value))

/-- The items of the `volumeMounts` array of a container. -/
def JValue.mounts (v : JValue) : List JValue :=
  match v.field (lit "volumeMounts") with
  | some e => e.items
  | none => []

/-- The first fragment `renderSidecars` returns (empty if there is none). -/
def firstFragment (s : SidecarMeta) : Str :=
  match renderSidecars s with
  | .ok (f :: _) => f
  | _ => []

/-- The sample description with a log level that closes its string and opens
another `env` entry. -/
def sampleSidecarLogLevel : SidecarMeta :=
  { sampleSidecar with
    LogLevel := lit ("debug\"\n    \x7d,\n    \x7b\n      \"name\": \"ENABLE_ENVOY_STATS_TAGS\",\n"
      ++ "      \"value\": \"1") }

/-- The sample description with an image that holds an escaped backslash. -/
def sampleSidecarImage : SidecarMeta :=
  { sampleSidecar with ContainerImage := lit "registry\\\\envoy" }

/-- The sample description with an image that ends in a byte that is not
UTF-8. -/
def sampleSidecarImageBytes : SidecarMeta :=
  { sampleSidecar with ContainerImage := lit "img" ++ [0xFF] }

/-- The sample description with a service-account mount whose path ends in a
byte that is not UTF-8. -/
def sampleSidecarMountBytes : SidecarMeta :=
  { sampleSidecar with
    ServiceAccountVolumeMount := some ⟨lit "pod-sa", lit "/var/run" ++ [0xFF], true⟩ }

/-- The sample description with an image that is a double quote. -/
def sampleSidecarQuote : SidecarMeta :=
  { sampleSidecar with ContainerImage := lit "\"" }

/-- The sample description with a service-account mount whose path closes its
object and opens another. -/
def sampleSidecarMount : SidecarMeta :=
  { sampleSidecar with
    ServiceAccountVolumeMount :=
      some ⟨lit "pod-sa", lit "/var/run\"\x7d, \x7b\"mountPath\": \"/etc", true⟩ }

/-- The sample description with a service-account mount and Jaeger tracing. -/
def sampleSidecarBoth : SidecarMeta :=
  { sampleSidecar with
    EnableJaegerTracing := true
    ServiceAccountVolumeMount := some ⟨lit "pod-sa", lit "/var/run/secrets", true⟩ }

/-! ## Reading the patch document -/

/-- A text that reads as a complete JSON value wherever a value may start. -/
def IsJsonText (text : Str) : Prop :=
  ∃ v, Embeds text v

/-- An object with members `op`, `path` and `value`. -/
def isPatchOp (e : JValue) : Bool :=
  e.isObj && (e.field (lit "op")).isSome && (e.field (lit "path")).isSome
    && (e.field (lit "value")).isSome

/-- A text that reads as a patch operation. -/
def IsPatchOpText (text : Str) : Prop :=
  ∃ e, Embeds text e ∧ isPatchOp e = true

/-- A patch operation as a JSON value. -/
def opValue (op path : Str) (value : JValue) : JValue :=
  .obj [(lit "op", .str op), (lit "path", .str path), (lit "value", value)]

/-- Whether the `path` of an operation is `path`. -/
def opAt (path : Str) (e : JValue) : Bool :=
  decide (e.strField (lit "path") = some path)

/-- Whether the `path` of an operation begins with `pre`. -/
def opUnder (pre : Str) (e : JValue) : Bool :=
  match e.strField (lit "path") with
  | some p => pre.isPrefixOf p
  | none => false

/-- The operations of a patch document: the items of the array it parses to
(none if the text is not a JSON array). -/
def docOps (text : Str) : Option (List JValue) :=
  match jsonParse text with
  | some (.arr items) => some items
  | _ => none

/-- The value of the constant `ecrSecret`. -/
def secretValue : JValue :=
  .obj [(lit "name", .str (lit "appmesh-ecr-secret"))]

/-- The value of the per-key annotation operation for a desired pair against
the present map `es`: the op as `annotationsPatches` chooses it, the escaped
key in the path, the value as a string. -/
def annotationValue (es : List (Str × Str)) (kv : Str × Str) : JValue :=
  opValue (if (mapIndex (some es) kv.1).1 ≠ [] then lit "replace" else lit "add")
    (lit "/metadata/annotations/" ++ toValidUTF8 (escapeJSONPointer kv.1))
    (.str (toValidUTF8 kv.2))

/-- The values of the fragments `renderSidecars` returns. -/
def sidecarValues (s : SidecarMeta) : List JValue :=
  if s.InjectXraySidecar then [envoyValue s, xrayValue s] else [envoyValue s]

/-- The values of the operations of the containers step. -/
def containersValues {ρ : Type} (m : Meta ρ) : List JValue :=
  if m.AppendSidecar then
    (sidecarValues m.Sidecar).map (fun v => opValue (lit "add") (lit "/spec/containers/-") v)
  else [opValue (lit "add") (lit "/spec/containers") (.arr (sidecarValues m.Sidecar))]

/-- The values of the operations of the image pull secret step. -/
def pullSecretValues {ρ : Type} (m : Meta ρ) : List JValue :=
  if m.HasImagePullSecret then
    [if m.AppendImagePullSecret then opValue (lit "add") (lit "/spec/imagePullSecrets/-") secretValue
     else opValue (lit "add") (lit "/spec/imagePullSecrets") (.arr [secretValue])]
  else []

/-- The values of the operations of step 1: in CNI mode the per-key annotation
operations of the visited entries, otherwise the init container, read as `v`,
appended or created. -/
def InitValues {ρ : Type} (env : Env ρ) (m : Meta ρ) (vs : List JValue) : Prop :=
  (appmeshCNIEnabled env m = true ∧ ∃ es, m.PodAnnotations = some es
      ∧ vs = (env.range.visit (newAnnotations env m)).map (annotationValue es))
  ∨ (appmeshCNIEnabled env m = false ∧ ∃ x v, env.renderInit m.Init = .ok x ∧ Embeds x v
      ∧ vs = [if m.AppendInit then opValue (lit "add") (lit "/spec/initContainers/-") v
              else opValue (lit "add") (lit "/spec/initContainers") (.arr [v])])

/-- The values of the operations of a tracing step: none when the tracer is
off, otherwise the volume, read as `w`, and the init container, read as `v`,
both appended. -/
def TracingValues (enabled : Bool) (volume : Str) (init : Except GoError Str)
    (vs : List JValue) : Prop :=
  (enabled = false ∧ vs = [])
  ∨ (enabled = true ∧ ∃ x v w, init = .ok x ∧ Embeds volume w ∧ Embeds x v
      ∧ vs = [opValue (lit "add") (lit "/spec/volumes/-") w,
              opValue (lit "add") (lit "/spec/initContainers/-") v])

/-- The conditions under which the patch document is read as JSON: the string
fields the container templates write are JSON-safe; in CNI mode the desired
annotation keys and values are JSON-safe; and every fragment of a renderer
outside the embedded files that the request uses reads as a JSON value. -/
def JsonRequest {ρ : Type} (env : Env ρ) (m : Meta ρ) : Prop :=
  m.Sidecar.jsonSafe = true
  ∧ (appmeshCNIEnabled env m = true →
      ∀ kv ∈ newAnnotations env m, jsonSafe kv.1 = true ∧ jsonSafe kv.2 = true)
  ∧ (appmeshCNIEnabled env m = false →
      ∀ x, env.renderInit m.Init = .ok x → IsJsonText x)
  ∧ (m.Sidecar.EnableDatadogTracing = true →
      IsJsonText env.renderDatadogConfigVolume
      ∧ ∀ x, env.renderDatadogInitContainer m.Sidecar.DatadogAddress m.Sidecar.DatadogPort = .ok x →
          IsJsonText x)
  ∧ (m.Sidecar.EnableJaegerTracing = true →
      IsJsonText env.renderJaegerConfigVolume
      ∧ ∀ x, env.renderJaegerInitContainer m.Sidecar.JaegerAddress m.Sidecar.JaegerPort = .ok x →
          IsJsonText x)

/-- The sample request in CNI mode with both tracers switched on. -/
def sampleMetaCNITracing : Meta Unit :=
  { sampleMetaTracing with PodAnnotations := some [(lit "appmesh.k8s.aws/cni", lit "enabled")] }

/-- The sample request in CNI mode with ignored IPs that are a double quote. -/
def sampleMetaCNIQuote : Meta Unit :=
  { sampleMetaCNI with Init := ⟨lit "\"", lit "22", lit "9898", ()⟩ }

/-- The `name` a fragment has when it is read as JSON. -/
def fragmentName (f : Str) : Option Str :=
  (jsonParse f).bind (fun v => v.strField (lit "name"))

/-- The sample description with an image that closes its string and adds a
second `name` member. -/
def sampleSidecarName : SidecarMeta :=
  { sampleSidecar with ContainerImage := lit "envoy:latest\", \"name\": \"xray-daemon" }

/-- The sample request with a memory request that closes the containers
operation and opens an operation on an annotation. -/
def sampleMetaInjectAnnotation : Meta Unit :=
  { sampleMeta with Sidecar := { sampleSidecar with
      MemoryRequests := lit ("128Mi\"\x7d\x7d\x7d\x7d,\x7b\"op\":\"add\","
        ++ "\"path\":\"/metadata/annotations/k\",\"value\":\x7b\"a\":\x7b\"b\":\x7b\"c\":\"x") } }

/-- The sample request with a memory request that closes the containers
operation and opens a second append to `/spec/containers`. -/
def sampleMetaInjectContainer : Meta Unit :=
  { sampleMeta with Sidecar := { sampleSidecar with
      MemoryRequests := lit ("128Mi\"\x7d\x7d\x7d\x7d,\x7b\"op\":\"add\","
        ++ "\"path\":\"/spec/containers/-\",\"value\":\x7b\"a\":\x7b\"b\":\x7b\"c\":\"x") } }

/-- The sample request with a memory request that closes the containers
operation and opens an operation on `/spec/imagePullSecrets`. -/
def sampleMetaInjectSecret : Meta Unit :=
  { sampleMeta with Sidecar := { sampleSidecar with
      MemoryRequests := lit ("128Mi\"\x7d\x7d\x7d\x7d,\x7b\"op\":\"add\","
        ++ "\"path\":\"/spec/imagePullSecrets\",\"value\":\x7b\"a\":\x7b\"b\":\x7b\"c\":\"x") } }

/-- The sample request with a memory request that closes the containers
operation and opens an append to `/spec/volumes`. -/
def sampleMetaInjectVolume : Meta Unit :=
  { sampleMeta with Sidecar := { sampleSidecar with
      MemoryRequests := lit ("128Mi\"\x7d\x7d\x7d\x7d,\x7b\"op\":\"add\","
        ++ "\"path\":\"/spec/volumes/-\",\"value\":\x7b\"a\":\x7b\"b\":\x7b\"c\":\"x") } }

/-- The sample request in CNI mode with ignored IPs that close their operation
and open an operation on the whole annotation map. -/
def sampleMetaCNIInject : Meta Unit :=
  { sampleMetaCNI with
    Init := ⟨lit "10.0.0.1\"\x7d,\x7b\"op\":\"add\",\"path\":\"/metadata/annotations\",\"value\":\"x",
      lit "22", lit "9898", ()⟩ }
/-! ## Further definitions for the claims on fragments and tokens -/

/-- The beginning of every rendering of `xrayDaemonContainerTemplate`. -/
def xrayHeader : Str :=
  lit "\n\x7b\n  \"name\": \"xray-daemon\","

/-- A well-formed JSON-Pointer reference token as far as `~` goes: every `~`
is followed by `0` or `1`. -/
def wellEscaped : Str → Bool
  | [] => true
  | c :: rest =>
    (if c = ch '~' then
      match rest with
      | d :: _ => d = ch '0' || d = ch '1'
      | [] => false
     else true) && wellEscaped rest

/-- The path a per-key annotation operation is given for `key`
(`updateAnnotation`, patch.go line 16, with line 141). -/
def annotationPath (key : Str) : Str :=
  lit "/metadata/annotations/" ++ escapeJSONPointer key

/-- The sample environment with a Datadog init container that fails to render. -/
def sampleEnvFailing : Env Unit :=
  { sampleEnv with renderDatadogInitContainer := fun _ _ => .error (lit "datadog address is empty") }

/-! # Theorems -/

/-! ### Strings -/

theorem nil_isPrefixOf (s : Str) : ([] : Str).isPrefixOf s = true := by
  cases s <;> rfl

theorem replaceFrom_zero_cons (old new : Str) (c : Byte) (s : Str) :
    replaceFrom old new 0 (c :: s)
      = if old.isPrefixOf (c :: s) then new ++ replaceFrom old new (old.length - 1) s
        else c :: replaceFrom old new 0 s := rfl

theorem replaceFrom_succ_cons (old new : Str) (n : Nat) (c : Byte) (s : Str) :
    replaceFrom old new (n + 1) (c :: s) = replaceFrom old new n s := rfl

/-- Replacing a one-character pattern, one character at a time. -/
theorem replaceFrom_one (a : Byte) (new : Str) (c : Byte) (s : Str) :
    replaceFrom [a] new 0 (c :: s)
      = (if c = a then new else [c]) ++ replaceFrom [a] new 0 s := by
  rw [replaceFrom_zero_cons]
  by_cases h : c = a
  · subst h
    simp [List.isPrefixOf, nil_isPrefixOf]
  · have h2 : (a == c) = false := by rw [beq_eq_false_iff_ne]; exact fun e => h e.symm
    simp [List.isPrefixOf, h, h2]

/-- Replacing a two-character pattern: a match at the head. -/
theorem replaceFrom_two_hit (a b : Byte) (new s : Str) :
    replaceFrom [a, b] new 0 (a :: b :: s) = new ++ replaceFrom [a, b] new 0 s := by
  rw [replaceFrom_zero_cons]
  simp [List.isPrefixOf, nil_isPrefixOf, replaceFrom_succ_cons]

/-- Replacing a two-character pattern: the head is not its first character. -/
theorem replaceFrom_two_miss (a b : Byte) (new : Str) (c : Byte) (s : Str) (h : c ≠ a) :
    replaceFrom [a, b] new 0 (c :: s) = c :: replaceFrom [a, b] new 0 s := by
  rw [replaceFrom_zero_cons]
  have h2 : (a == c) = false := by rw [beq_eq_false_iff_ne]; exact fun e => h e.symm
  simp [List.isPrefixOf, h2]

/-- Replacing a two-character pattern: the second character differs. -/
theorem replaceFrom_two_miss_snd (a b : Byte) (new : Str) (c : Byte) (s : Str) (h : c ≠ b) :
    replaceFrom [a, b] new 0 (a :: c :: s) = a :: replaceFrom [a, b] new 0 (c :: s) := by
  rw [replaceFrom_zero_cons]
  have h2 : (b == c) = false := by rw [beq_eq_false_iff_ne]; exact fun e => h e.symm
  simp [List.isPrefixOf, h2]

theorem escapeJSONPointer_nil : escapeJSONPointer [] = [] := rfl

theorem escapeJSONPointer_eq (s : Str) :
    escapeJSONPointer s = replaceFrom [ch '/'] [ch '~', ch '1'] 0 (replaceFrom [ch '~'] [ch '~', ch '0'] 0 s) := rfl

theorem escapeJSONPointer_cons (c : Byte) (s : Str) :
    escapeJSONPointer (c :: s) = escapeChar c ++ escapeJSONPointer s := by
  have h1 : ¬ ch '~' = ch '/' := by decide
  have h2 : ¬ ch '0' = ch '/' := by decide
  simp only [escapeJSONPointer_eq, replaceFrom_one, escapeChar]
  by_cases h : c = ch '~'
  · subst h
    simp [replaceFrom_one, h1, h2]
  · simp [h, replaceFrom_one]

theorem unescape_first (s : Str) :
    replaceFrom [ch '~', ch '1'] [ch '/'] 0 (escapeJSONPointer s) = replaceFrom [ch '~'] [ch '~', ch '0'] 0 s := by
  induction s with
  | nil => rfl
  | cons c s ih =>
    rw [escapeJSONPointer_cons, replaceFrom_one, escapeChar]
    by_cases h : c = ch '~'
    · subst h
      simp only [if_true, List.cons_append, List.nil_append]
      rw [replaceFrom_two_miss_snd _ _ _ _ _ (by decide), replaceFrom_two_miss _ _ _ _ _ (by decide), ih]
    · by_cases h1 : c = ch '/'
      · subst h1
        simp only [h, if_false, if_true, List.cons_append, List.nil_append]
        rw [replaceFrom_two_hit, ih]; rfl
      · simp only [h, h1, if_false, List.cons_append, List.nil_append]
        rw [replaceFrom_two_miss _ _ _ _ _ h, ih]

theorem unescape_second (s : Str) :
    replaceFrom [ch '~', ch '0'] [ch '~'] 0 (replaceFrom [ch '~'] [ch '~', ch '0'] 0 s) = s := by
  induction s with
  | nil => rfl
  | cons c s ih =>
    rw [replaceFrom_one]
    by_cases h : c = ch '~'
    · subst h
      simp only [if_true, List.cons_append, List.nil_append]
      rw [replaceFrom_two_hit, ih]; rfl
    · simp only [h, if_false, List.cons_append, List.nil_append]
      rw [replaceFrom_two_miss _ _ _ _ _ h, ih]

theorem unescape_escape (key : Str) : unescapeJSONPointer (escapeJSONPointer key) = key := by
  have e : unescapeJSONPointer (escapeJSONPointer key)
      = replaceFrom [ch '~', ch '0'] [ch '~'] 0 (replaceFrom [ch '~', ch '1'] [ch '/'] 0 (escapeJSONPointer key)) := rfl
  rw [e, unescape_first, unescape_second]


/-! ### The annotation loop -/

theorem foldl_annotationsStep_some (es : List (Str × Str)) (l : List (Str × Str)) (acc : List Str) :
    l.foldl annotationsStep (some es, acc)
      = (some es, acc ++ l.map (fun kv =>
          updateAnnotation (if (mapIndex (some es) kv.1).1 ≠ [] then lit "replace" else lit "add")
            (escapeJSONPointer kv.1) kv.2)) := by
  induction l generalizing acc with
  | nil => simp
  | cons kv l ih =>
    rw [List.foldl_cons]
    have h : annotationsStep (some es, acc) kv
        = (some es, acc ++ [ updateAnnotation
            (if (mapIndex (some es) kv.1).1 ≠ [] then lit "replace" else lit "add")
            (escapeJSONPointer kv.1) kv.2]) := rfl
    rw [h, ih]
    simp

theorem annotationsPatches_some (es : List (Str × Str)) (l : List (Str × Str)) :
    annotationsPatches (some es) l
      = l.map (fun kv =>
          updateAnnotation (if (mapIndex (some es) kv.1).1 ≠ [] then lit "replace" else lit "add")
            (escapeJSONPointer kv.1) kv.2) := by
  simp [annotationsPatches, foldl_annotationsStep_some]

theorem mapIndex_nil_key (key : Str) : (mapIndex (some []) key).1 = [] := rfl

theorem annotationsPatches_none_cons (kv : Str × Str) (l : List (Str × Str)) :
    annotationsPatches none (kv :: l)
      = createAnnotation kv.1 kv.2
          :: l.map (fun p => updateAnnotation (lit "add") (escapeJSONPointer p.1) p.2) := by
  have h : annotationsStep (none, []) kv = (some [], [ createAnnotation kv.1 kv.2]) := rfl
  simp only [annotationsPatches, List.foldl_cons, h, foldl_annotationsStep_some, mapIndex_nil_key]
  simp

theorem perKeyOp_eq (es : List (Str × Str)) (key : Str) :
    (if (mapIndex (some es) key).1 ≠ [] then lit "replace" else lit "add")
      = (match entryGet es key with
         | some (_ :: _) => lit "replace"
         | _ => lit "add") := by
  have h1 : (mapIndex (some es) key).1 = (entryGet es key).getD [] := by
    simp only [mapIndex]
    cases entryGet es key <;> rfl
  rw [h1]
  cases entryGet es key with
  | none => simp
  | some v => cases v <;> simp

theorem createAnnotation_hasPath (key value : Str) :
    hasPath (lit "/metadata/annotations") ( createAnnotation key value) = true := by
  have h : createAnnotation key value
      = (lit "\x7b\"op\":\"add\",\"path\":\"" ++ (lit "/metadata/annotations" ++ lit "\""))
          ++ (lit ",\"value\":\x7b\"" ++ key ++ lit "\": \"" ++ value ++ lit "\"\x7d\x7d") := rfl
  unfold hasPath pathStartsWith
  rw [h, List.isPrefixOf_iff_prefix.mpr (List.prefix_append _ _)]
  rfl

theorem hasPath_updateAnnotation_add (key value : Str) :
    hasPath (lit "/metadata/annotations") ( updateAnnotation (lit "add") key value) = false := rfl

theorem hasPath_updateAnnotation_replace (key value : Str) :
    hasPath (lit "/metadata/annotations") ( updateAnnotation (lit "replace") key value) = false := rfl

theorem pathStartsWith_updateAnnotation_add (key value : Str) :
    pathStartsWith (lit "/metadata/annotations") ( updateAnnotation (lit "add") key value) = true := by
  have h : updateAnnotation (lit "add") key value
      = (lit "\x7b\"op\":\"add\",\"path\":\"" ++ lit "/metadata/annotations")
          ++ (lit "/" ++ key ++ lit "\",\"value\":\"" ++ value ++ lit "\"\x7d") := rfl
  unfold pathStartsWith
  rw [h, List.isPrefixOf_iff_prefix.mpr (List.prefix_append _ _)]
  rfl

theorem pathStartsWith_updateAnnotation_replace (key value : Str) :
    pathStartsWith (lit "/metadata/annotations") ( updateAnnotation (lit "replace") key value) = true := by
  have h : updateAnnotation (lit "replace") key value
      = (lit "\x7b\"op\":\"replace\",\"path\":\"" ++ lit "/metadata/annotations")
          ++ (lit "/" ++ key ++ lit "\",\"value\":\"" ++ value ++ lit "\"\x7d") := rfl
  unfold pathStartsWith
  rw [h, List.isPrefixOf_iff_prefix.mpr (List.prefix_append _ _)]
  simp

theorem createAnnotation_pathStartsWith (key value : Str) :
    pathStartsWith (lit "/metadata/annotations") ( createAnnotation key value) = true := by
  have h : createAnnotation key value
      = (lit "\x7b\"op\":\"add\",\"path\":\"" ++ lit "/metadata/annotations")
          ++ (lit "\",\"value\":\x7b\"" ++ key ++ lit "\": \"" ++ value ++ lit "\"\x7d\x7d") := rfl
  unfold pathStartsWith
  rw [h, List.isPrefixOf_iff_prefix.mpr (List.prefix_append _ _)]
  rfl

/-- Every operation of the annotation loop has one of the three annotation shapes. -/
theorem annotationsPatches_forms (existing : GoMap) (l : List (Str × Str)) :
    ∀ p ∈ annotationsPatches existing l, ∃ key value,
      p = createAnnotation key value ∨ p = updateAnnotation (lit "add") key value
        ∨ p = updateAnnotation (lit "replace") key value := by
  intro p hp
  cases existing with
  | some es =>
    rw [annotationsPatches_some, List.mem_map] at hp
    obtain ⟨kv, _, rfl⟩ := hp
    refine ⟨escapeJSONPointer kv.1, kv.2, ?_⟩
    by_cases h : (mapIndex (some es) kv.1).1 ≠ []
    · rw [if_pos h]; exact Or.inr (Or.inr rfl)
    · rw [if_neg h]; exact Or.inr (Or.inl rfl)
  | none =>
    cases l with
    | nil => cases hp
    | cons kv l =>
      rw [annotationsPatches_none_cons, List.mem_cons, List.mem_map] at hp
      rcases hp with rfl | ⟨q, _, rfl⟩
      · exact ⟨kv.1, kv.2, Or.inl rfl⟩
      · exact ⟨escapeJSONPointer q.1, q.2, Or.inr (Or.inl rfl)⟩

/-! ### Map literals -/

theorem entrySet_of_not_mem (es : List (Str × Str)) (key v : Str) (h : key ∉ es.map Prod.fst) :
    entrySet es key v = es ++ [(key, v)] := by
  induction es with
  | nil => rfl
  | cons e es ih =>
    obtain ⟨k, w⟩ := e
    simp only [List.map_cons, List.mem_cons, not_or] at h
    have hk : ¬ k = key := fun e => h.1 e.symm
    simp only [entrySet, hk, if_false, ih h.2, List.cons_append]

theorem foldl_entrySet (l acc : List (Str × Str)) (hnd : (l.map Prod.fst).Nodup)
    (hdis : ∀ k ∈ l.map Prod.fst, k ∉ acc.map Prod.fst) :
    l.foldl (fun m kv => entrySet m kv.1 kv.2) acc = acc ++ l := by
  induction l generalizing acc with
  | nil => simp
  | cons e l ih =>
    simp only [List.map_cons, List.nodup_cons] at hnd
    rw [List.foldl_cons, entrySet_of_not_mem acc e.1 e.2 (hdis e.1 (by simp))]
    rw [ih _ hnd.2]
    · simp
    · intro k hk
      simp only [List.map_append, List.map_cons, List.map_nil, List.mem_append, List.mem_singleton, not_or]
      refine ⟨hdis k (by simp [hk]), ?_⟩
      rintro rfl
      exact hnd.1 hk

/-- A map literal with pairwise distinct keys has exactly the entries written. -/
theorem mapLiteral_of_nodup (l : List (Str × Str)) (hnd : (l.map Prod.fst).Nodup) :
    mapLiteral l = l := by
  unfold mapLiteral
  rw [foldl_entrySet l [] hnd (by simp)]
  rfl

theorem newAnnotations_keys {ρ : Type} (env : Env ρ) (m : Meta ρ)
    (hkeys : (Config.annotationKeys env.cfg).Nodup) :
    (newAnnotations env m).map Prod.fst = Config.annotationKeys env.cfg := by
  unfold newAnnotations
  rw [mapLiteral_of_nodup _ (by exact hkeys)]
  rfl
/-! ### UTF-8 -/

theorem utf8Start_bytes (c : Byte) :
    (utf8Start c).1.flatMap Prod.fst
        ++ (match (utf8Start c).2 with
            | .idle => []
            | .inside first rest _ _ _ => first :: rest)
      = [c] := by
  unfold utf8Start
  by_cases h : c.val < 0x80
  · simp [h]
  · rw [if_neg h]
    cases utf8Lead c with
    | none => simp
    | some p => obtain ⟨more, lo, hi⟩ := p; simp

theorem flush_bytes (st : Utf8State) :
    st.flush.flatMap Prod.fst
      = (match st with
         | .idle => []
         | .inside first rest _ _ _ => first :: rest) := by
  cases st with
  | idle => rfl
  | inside first rest more lo hi =>
    simp only [Utf8State.flush]
    induction (first :: rest) with
    | nil => rfl
    | cons b l ih => simp [List.flatMap_cons, ih]

/-- The units of a string are a partition of its bytes. -/
theorem utf8UnitsFrom_bytes (st : Utf8State) (s : Str) :
    (utf8UnitsFrom st s).flatMap Prod.fst
      = (match st with
         | .idle => []
         | .inside first rest _ _ _ => first :: rest) ++ s := by
  induction s generalizing st with
  | nil => simp [utf8UnitsFrom, flush_bytes]
  | cons c s ih =>
    simp only [utf8UnitsFrom, List.flatMap_append, ih]
    cases st with
    | idle =>
      have h := utf8Start_bytes c
      simp only [utf8Step]
      rw [← List.append_assoc, h]
      rfl
    | inside first rest more lo hi =>
      simp only [utf8Step]
      by_cases hr : lo ≤ c.val ∧ c.val ≤ hi
      · rw [if_pos hr]
        by_cases hm : more ≤ 1
        · rw [if_pos hm]; simp
        · rw [if_neg hm]; simp
      · rw [if_neg hr]
        have h := utf8Start_bytes c
        have hf := flush_bytes (.inside first rest more lo hi)
        simp only [List.flatMap_append, hf]
        rw [List.append_assoc, ← List.append_assoc _ _ s, h]
        simp

theorem flatMap_units_of_all (us : List Utf8Unit) (h : us.all (fun u => u.2) = true) :
    us.flatMap (fun u => if u.2 then u.1 else replacement) = us.flatMap Prod.fst := by
  induction us with
  | nil => rfl
  | cons u us ih =>
    simp only [List.all_cons, Bool.and_eq_true] at h
    simp [List.flatMap_cons, h.1, ih h.2]

/-- Coercing a string that is valid UTF-8 leaves it as it is. -/
theorem toValidUTF8_of_valid (s : Str) (h : validUTF8 s = true) : toValidUTF8 s = s := by
  unfold toValidUTF8
  rw [flatMap_units_of_all _ h]
  exact utf8UnitsFrom_bytes .idle s

theorem utf8UnitsFrom_append_valid (st : Utf8State) (a b : Str)
    (ha : (utf8UnitsFrom st a).all (fun u => u.2) = true)
    (hb : (utf8UnitsFrom .idle b).all (fun u => u.2) = true) :
    (utf8UnitsFrom st (a ++ b)).all (fun u => u.2) = true := by
  induction a generalizing st with
  | nil =>
    cases st with
    | idle => exact hb
    | inside first rest more lo hi => simp [utf8UnitsFrom, Utf8State.flush] at ha
  | cons c a ih =>
    simp only [List.cons_append, utf8UnitsFrom, List.all_append, Bool.and_eq_true] at ha ⊢
    exact ⟨ha.1, ih _ ha.2⟩

/-- Two strings that are valid UTF-8, one after the other, are valid UTF-8. -/
theorem validUTF8_append (a b : Str) (ha : validUTF8 a = true) (hb : validUTF8 b = true) :
    validUTF8 (a ++ b) = true :=
  utf8UnitsFrom_append_valid .idle a b ha hb


/-! ## Claims on the annotation merge -/

/-- C1: un-escaping `escapeJSONPointer key` by the JSON-Pointer rules (every
`~1` to `/`, then every `~0` to `~`) gives back `key`, for every key; and the
operation `annotationsPatches` emits for a pair `(key, value)` against a
present map carries `escapeJSONPointer key` as the path segment after
`/metadata/annotations/`, so that segment decodes back to `key`. -/
theorem C1_escape_roundtrip (key : Str) :
    unescapeJSONPointer (escapeJSONPointer key) = key
    ∧ ∀ (es : List (Str × Str)) (value : Str), ∃ op seg,
        annotationsPatches (some es) [(key, value)]
          = [lit "\x7b\"op\":\"" ++ op ++ lit "\",\"path\":\"/metadata/annotations/" ++ seg
              ++ lit "\",\"value\":\"" ++ value ++ lit "\"\x7d"]
        ∧ seg = escapeJSONPointer key
        ∧ unescapeJSONPointer seg = key := by
  refine ⟨unescape_escape key, fun es value => ?_⟩
  refine ⟨if (mapIndex (some es) key).1 ≠ [] then lit "replace" else lit "add",
    escapeJSONPointer key, ?_, rfl, unescape_escape key⟩
  rw [annotationsPatches_some]
  rfl

/-- C2: against a present (possibly empty) map, `annotationsPatches` emits one
operation for each desired pair, in order, and it is the text
`{"op":"<op>","path":"/metadata/annotations/<escaped key>","value":"<value>"}`
with the key escaped by `escapeJSONPointer`; the op is `replace` exactly when
the existing map holds a non-empty string for the key and `add` otherwise (key
missing or mapped to the empty string); no operation has the whole-map path
`/metadata/annotations`. -/
theorem C2_present_map_per_key (es desired : List (Str × Str)) :
    annotationsPatches (some es) desired
        = desired.map (fun kv =>
            lit "\x7b\"op\":\""
              ++ (match entryGet es kv.1 with
                  | some (_ :: _) => lit "replace"
                  | _ => lit "add")
              ++ lit "\",\"path\":\"/metadata/annotations/" ++ escapeJSONPointer kv.1
              ++ lit "\",\"value\":\"" ++ kv.2 ++ lit "\"\x7d")
    ∧ (annotationsPatches (some es) desired).length = desired.length
    ∧ (∀ kv ∈ desired,
        (entryGet es kv.1 = none ∨ entryGet es kv.1 = some [] →
          lit "\x7b\"op\":\"add\",\"path\":\"/metadata/annotations/" ++ escapeJSONPointer kv.1
              ++ lit "\",\"value\":\"" ++ kv.2 ++ lit "\"\x7d"
            ∈ annotationsPatches (some es) desired)
        ∧ (∀ c w, entryGet es kv.1 = some (c :: w) →
          lit "\x7b\"op\":\"replace\",\"path\":\"/metadata/annotations/" ++ escapeJSONPointer kv.1
              ++ lit "\",\"value\":\"" ++ kv.2 ++ lit "\"\x7d"
            ∈ annotationsPatches (some es) desired))
    ∧ ∀ p ∈ annotationsPatches (some es) desired,
        hasPath (lit "/metadata/annotations") p = false := by
  have h : annotationsPatches (some es) desired
        = desired.map (fun kv =>
            lit "\x7b\"op\":\""
              ++ (match entryGet es kv.1 with
                  | some (_ :: _) => lit "replace"
                  | _ => lit "add")
              ++ lit "\",\"path\":\"/metadata/annotations/" ++ escapeJSONPointer kv.1
              ++ lit "\",\"value\":\"" ++ kv.2 ++ lit "\"\x7d") := by
    rw [annotationsPatches_some]
    apply List.map_congr_left
    intro kv _
    rw [perKeyOp_eq]
    rfl
  refine ⟨h, by rw [h, List.length_map], ?_, ?_⟩
  · intro kv hkv
    refine ⟨?_, ?_⟩
    · intro hg
      rw [h, List.mem_map]
      refine ⟨kv, hkv, ?_⟩
      rcases hg with hg | hg <;> rw [hg] <;> rfl
    · intro c w hg
      rw [h, List.mem_map]
      refine ⟨kv, hkv, ?_⟩
      rw [hg]
      rfl
  · intro p hp
    rw [annotationsPatches_some, List.mem_map] at hp
    obtain ⟨kv, _, rfl⟩ := hp
    by_cases hc : (mapIndex (some es) kv.1).1 ≠ []
    · rw [if_pos hc]; rfl
    · rw [if_neg hc]; rfl

/-- C3: against an absent (nil) map, the first pair processed yields the
whole-map operation at `/metadata/annotations`; every later pair yields a
per-key `add`, never a second whole-map operation; the output has one
operation per pair. -/
theorem C3_absent_map_first_creates (first : Str × Str) (rest : List (Str × Str)) :
    annotationsPatches none (first :: rest)
        = createAnnotation first.1 first.2
            :: rest.map (fun kv => updateAnnotation (lit "add") (escapeJSONPointer kv.1) kv.2)
    ∧ hasPath (lit "/metadata/annotations") ( createAnnotation first.1 first.2) = true
    ∧ (∀ p ∈ rest.map (fun kv => updateAnnotation (lit "add") (escapeJSONPointer kv.1) kv.2),
        hasPath (lit "/metadata/annotations") p = false)
    ∧ (annotationsPatches none (first :: rest)).length = (first :: rest).length := by
  refine ⟨annotationsPatches_none_cons first rest, createAnnotation_hasPath _ _, ?_, ?_⟩
  · intro p hp
    rw [List.mem_map] at hp
    obtain ⟨kv, _, rfl⟩ := hp
    rfl
  · rw [annotationsPatches_none_cons]
    simp

/-- C4, as stated, fails: the existing map holds the desired key with the
matching value, the empty string, and the operation emitted is an `add`. -/
theorem C4_counterexample_empty_value :
    entryGet [(lit "k", lit "")] (lit "k") = some (lit "")
    ∧ annotationsPatches (some [(lit "k", lit "")]) [(lit "k", lit "")]
        = [ updateAnnotation (lit "add") (lit "k") (lit "")]
    ∧ annotationsPatches (some [(lit "k", lit "")]) [(lit "k", lit "")]
        ≠ [ updateAnnotation (lit "replace") (lit "k") (lit "")] := by
  refine ⟨rfl, rfl, ?_⟩
  decide

/-- C4, amended: when the existing map holds every desired key with the
matching value and that value is not the empty string, `annotationsPatches`
emits a `replace` for every pair (and so no `add`). -/
theorem C4_matching_values_replace (es desired : List (Str × Str))
    (h : ∀ kv ∈ desired, entryGet es kv.1 = some kv.2 ∧ kv.2 ≠ []) :
    annotationsPatches (some es) desired
      = desired.map (fun kv => updateAnnotation (lit "replace") (escapeJSONPointer kv.1) kv.2) := by
  rw [annotationsPatches_some]
  apply List.map_congr_left
  intro kv hkv
  obtain ⟨h1, h2⟩ := h kv hkv
  have h3 : (mapIndex (some es) kv.1).1 = kv.2 := by
    simp only [mapIndex, h1]
  rw [h3, if_pos h2]

/-- C4, amended, at a concrete input: both desired keys are present with their
non-empty values, and both operations are `replace`. -/
theorem C4_matching_values_replace_witness :
    (∀ kv ∈ [(lit "a/b", lit "1"), (lit "c", lit "2")],
        entryGet [(lit "a/b", lit "1"), (lit "c", lit "2")] kv.1 = some kv.2 ∧ kv.2 ≠ [])
    ∧ annotationsPatches (some [(lit "a/b", lit "1"), (lit "c", lit "2")])
          [(lit "a/b", lit "1"), (lit "c", lit "2")]
        = [(lit "a/b", lit "1"), (lit "c", lit "2")].map
            (fun kv => updateAnnotation (lit "replace") (escapeJSONPointer kv.1) kv.2) :=
  ⟨by decide, C4_matching_values_replace _ _ (by decide)⟩

/-- C5: with absent pod annotations and pairwise distinct annotation keys,
`appMeshCNIAnnotationsPatch` yields seven operations: first the whole-map add
`{"op":"add","path":"/metadata/annotations","value":{"<key>": "<value>"}}`
for the first entry visited, then six per-key operations
`{"op":"add","path":"/metadata/annotations/<escaped key>","value":"<value>"}`,
each with op `add`; the entries are those of the fixed seven-key set, in the
order visited. -/
theorem C5_cni_annotations_absent_map {ρ : Type} (env : Env ρ) (m : Meta ρ)
    (hnil : m.PodAnnotations = none) (hkeys : (Config.annotationKeys env.cfg).Nodup) :
    ∃ first rest,
      env.range.visit (newAnnotations env m) = first :: rest
      ∧ (first.1 :: rest.map Prod.fst).Perm (Config.annotationKeys env.cfg)
      ∧ rest.length = 6
      ∧ appMeshCNIAnnotationsPatch env m
          = (lit "\x7b\"op\":\"add\",\"path\":\"/metadata/annotations\",\"value\":\x7b\""
                ++ first.1 ++ lit "\": \"" ++ first.2 ++ lit "\"\x7d\x7d")
              :: rest.map (fun kv =>
                  lit "\x7b\"op\":\"add\",\"path\":\"/metadata/annotations/"
                    ++ escapeJSONPointer kv.1 ++ lit "\",\"value\":\"" ++ kv.2 ++ lit "\"\x7d")
      ∧ (appMeshCNIAnnotationsPatch env m).length = 7
      ∧ ((appMeshCNIAnnotationsPatch env m).filter
          (hasPath (lit "/metadata/annotations"))).length = 1 := by
  have hperm := env.range.visit_perm (newAnnotations env m)
  have hlen : (env.range.visit (newAnnotations env m)).length = 7 := by
    rw [hperm.length_eq, ← List.length_map (newAnnotations env m) Prod.fst, newAnnotations_keys env m hkeys]
    rfl
  have hk : ((env.range.visit (newAnnotations env m)).map Prod.fst).Perm (Config.annotationKeys env.cfg) := by
    rw [← newAnnotations_keys env m hkeys]
    exact hperm.map _
  cases hv : env.range.visit (newAnnotations env m) with
  | nil => rw [hv] at hlen; cases hlen
  | cons first rest =>
    rw [hv] at hlen hk
    have hrest : rest.length = 6 := by simpa using hlen
    have he : appMeshCNIAnnotationsPatch env m
        = createAnnotation first.1 first.2
            :: rest.map (fun kv => updateAnnotation (lit "add") (escapeJSONPointer kv.1) kv.2) := by
      unfold appMeshCNIAnnotationsPatch
      rw [hnil, hv, annotationsPatches_none_cons]
    refine ⟨first, rest, rfl, by simpa using hk, hrest, ?_, ?_, ?_⟩
    · rw [he]
      rfl
    · rw [he]
      simp [hrest]
    · rw [he, List.filter_cons, createAnnotation_hasPath, if_pos rfl]
      have : (rest.map (fun kv => updateAnnotation (lit "add") (escapeJSONPointer kv.1) kv.2)).filter
          (hasPath (lit "/metadata/annotations")) = [] := by
        rw [List.filter_eq_nil_iff]
        intro p hp
        rw [List.mem_map] at hp
        obtain ⟨kv, _, rfl⟩ := hp
        rw [hasPath_updateAnnotation_add]
        decide
      rw [this]
      rfl

set_option maxRecDepth 100000 in
/-- C5 at the sample request: no pod annotations, seven distinct keys, seven
operations, the first of them the whole-map add of the first entry. -/
theorem C5_cni_annotations_absent_map_witness :
    sampleMeta.PodAnnotations = none
    ∧ (Config.annotationKeys sampleEnv.cfg).Nodup
    ∧ (appMeshCNIAnnotationsPatch sampleEnv sampleMeta).head?
        = some (lit ("\x7b\"op\":\"add\",\"path\":\"/metadata/annotations\",\"value\":"
            ++ "\x7b\"appmesh.k8s.aws/egressIgnoredIPs\": \"10.0.0.1\"\x7d\x7d"))
    ∧ ∃ first rest,
      sampleEnv.range.visit (newAnnotations sampleEnv sampleMeta) = first :: rest
      ∧ (first.1 :: rest.map Prod.fst).Perm (Config.annotationKeys sampleEnv.cfg)
      ∧ rest.length = 6
      ∧ appMeshCNIAnnotationsPatch sampleEnv sampleMeta
          = (lit "\x7b\"op\":\"add\",\"path\":\"/metadata/annotations\",\"value\":\x7b\""
                ++ first.1 ++ lit "\": \"" ++ first.2 ++ lit "\"\x7d\x7d")
              :: rest.map (fun kv =>
                  lit "\x7b\"op\":\"add\",\"path\":\"/metadata/annotations/"
                    ++ escapeJSONPointer kv.1 ++ lit "\",\"value\":\"" ++ kv.2 ++ lit "\"\x7d")
      ∧ (appMeshCNIAnnotationsPatch sampleEnv sampleMeta).length = 7
      ∧ ((appMeshCNIAnnotationsPatch sampleEnv sampleMeta).filter
          (hasPath (lit "/metadata/annotations"))).length = 1 :=
  ⟨rfl, by decide, rfl, C5_cni_annotations_absent_map sampleEnv sampleMeta rfl (by decide)⟩

/-! ### Rendering the sidecars -/

/-- The envoy template renders for every description, and the result starts
with the `envoy` name and the image. -/
theorem renderTemplate_envoy_ok (s : SidecarMeta) :
    ∃ body, renderTemplate (lit "envoy") envoyContainerTemplate s
      = .ok (envoyHeader ++ (s.ContainerImage ++ body)) := by
  obtain ⟨a1, a2, a3, a4, a5, a6, a7, a8, b1, a9, a10, b2, a11, a12, b3, b4, b5, sa⟩ := s
  rcases sa with _ | ⟨n, p, _ | _⟩ <;> cases b1 <;> cases b2 <;> cases b3 <;> cases b4 <;> cases b5 <;>
    exact ⟨_, rfl⟩

/-- The X-Ray daemon template renders for every description. -/
theorem renderTemplate_xray_ok (s : SidecarMeta) :
    ∃ body, renderTemplate (lit "xray-daemon") xrayDaemonContainerTemplate s
      = .ok (lit "\n\x7b\n  \"name\": \"xray-daemon\"," ++ body) := by
  obtain ⟨a1, a2, a3, a4, a5, a6, a7, a8, b1, a9, a10, b2, a11, a12, b3, b4, b5, sa⟩ := s
  rcases sa with _ | ⟨n, p, _ | _⟩ <;> exact ⟨_, rfl⟩

/-- What `renderSidecars` returns, given the two renderings. -/
theorem renderSidecars_eq (s : SidecarMeta) (envoy xray : Str)
    (he : renderTemplate (lit "envoy") envoyContainerTemplate s = .ok envoy)
    (hx : renderTemplate (lit "xray-daemon") xrayDaemonContainerTemplate s = .ok xray) :
    renderSidecars s = .ok (if s.InjectXraySidecar then [envoy, xray] else [envoy]) := by
  unfold renderSidecars
  cases hb : s.InjectXraySidecar <;> simp [he, hx, bind, Except.bind, pure, Except.pure]

/-! ### The steps of `GeneratePatch` -/

theorem foldl_append_singleton {α β : Type} (f : α → β) (l : List α) (acc : List β) :
    l.foldl (fun acc x => acc ++ [f x]) acc = acc ++ l.map f := by
  induction l generalizing acc with
  | nil => simp
  | cons a l ih => simp [ih]

/-- The source function `composePatches` is its five steps run in sequence. -/
theorem composePatches_eq_steps {ρ : Type} (env : Env ρ) (m : Meta ρ) :
    composePatches env m =
      (initStep env m).bind fun a =>
      (renderSidecars m.Sidecar).bind fun sidecars =>
      (datadogStep env m).bind fun d =>
      (jaegerStep env m).bind fun j =>
      .ok (a ++ containersOps m sidecars ++ pullSecretOps m ++ d ++ j) := by
  unfold composePatches initStep datadogStep jaegerStep containersOps pullSecretOps
  generalize appmeshCNIEnabled env m = cni
  generalize env.renderInit m.Init = ri
  generalize renderSidecars m.Sidecar = rs
  generalize env.renderDatadogInitContainer m.Sidecar.DatadogAddress m.Sidecar.DatadogPort = rd
  generalize env.renderJaegerInitContainer m.Sidecar.JaegerAddress m.Sidecar.JaegerPort = rj
  generalize appMeshCNIAnnotationsPatch env m = ap
  generalize m.AppendInit = b1
  generalize m.AppendSidecar = b2
  generalize m.HasImagePullSecret = b3
  generalize m.AppendImagePullSecret = b4
  generalize m.Sidecar.EnableDatadogTracing = b5
  generalize m.Sidecar.EnableJaegerTracing = b6
  cases rs with
  | error e => cases cni <;> cases ri <;> cases b1 <;> rfl
  | ok sc =>
    cases cni with
    | true =>
      cases b2 <;> cases b3 <;> cases b4 <;> cases b5 <;> cases b6 <;> cases rd <;> cases rj <;>
        first
        | rfl
        | (refine congrArg Except.ok ?_
           simp only [foldl_append_singleton, List.nil_append, List.append_assoc, List.cons_append,
             List.append_nil, ↓reduceIte, Bool.false_eq_true])
    | false =>
      cases ri with
      | error e => rfl
      | ok ip =>
        cases b1 <;> cases b2 <;> cases b3 <;> cases b4 <;> cases b5 <;> cases b6 <;> cases rd <;> cases rj <;>
          first
          | rfl
          | (refine congrArg Except.ok ?_
             simp only [foldl_append_singleton, List.nil_append, List.append_assoc, List.cons_append,
               List.append_nil, ↓reduceIte, Bool.false_eq_true])

/-- A successful composition, taken apart into the outputs of its steps. -/
theorem composePatches_ok {ρ : Type} (env : Env ρ) (m : Meta ρ) (ps : List Str)
    (h : composePatches env m = .ok ps) :
    ∃ pre sidecars d j,
      initStep env m = .ok pre ∧ renderSidecars m.Sidecar = .ok sidecars
      ∧ datadogStep env m = .ok d ∧ jaegerStep env m = .ok j
      ∧ ps = pre ++ containersOps m sidecars ++ pullSecretOps m ++ d ++ j := by
  rw [composePatches_eq_steps] at h
  cases h1 : initStep env m with
  | error e => rw [h1] at h; cases h
  | ok pre =>
    cases h2 : renderSidecars m.Sidecar with
    | error e => rw [h1, h2] at h; cases h
    | ok sidecars =>
      cases h3 : datadogStep env m with
      | error e => rw [h1, h2, h3] at h; cases h
      | ok d =>
        cases h4 : jaegerStep env m with
        | error e => rw [h1, h2, h3, h4] at h; cases h
        | ok j =>
          rw [h1, h2, h3, h4] at h
          simp only [Except.bind, Except.ok.injEq] at h
          exact ⟨pre, sidecars, d, j, rfl, rfl, rfl, rfl, h.symm⟩

/-- On success `GeneratePatch` returns the operations joined by commas between
brackets, and no error. -/
theorem GeneratePatch_of_ok {ρ : Type} (env : Env ρ) (m : Meta ρ) (ps : List Str)
    (h : composePatches env m = .ok ps) :
    GeneratePatch env m = (lit "[" ++ Join ps (lit ",") ++ lit "]", none) := by
  unfold GeneratePatch
  rw [h]

/-! ### The shapes of the operations of each step -/

theorem initStep_all {ρ : Type} {env : Env ρ} {m : Meta ρ} {pre : List Str} (Q : Str → Prop)
    (h : initStep env m = .ok pre)
    (hc : ∀ k v, Q ( createAnnotation k v))
    (ha : ∀ k v, Q ( updateAnnotation (lit "add") k v))
    (hr : ∀ k v, Q ( updateAnnotation (lit "replace") k v))
    (hi : ∀ x, Q (add (lit "initContainers") x))
    (hic : ∀ x, Q (create (lit "initContainers") x)) :
    ∀ p ∈ pre, Q p := by
  intro p hp
  unfold initStep at h
  cases hcni : appmeshCNIEnabled env m with
  | true =>
    rw [hcni, if_pos rfl] at h
    cases h
    obtain ⟨k, v, rfl | rfl | rfl⟩ := annotationsPatches_forms _ _ p hp
    · exact hc k v
    · exact ha k v
    · exact hr k v
  | false =>
    rw [hcni] at h
    cases hri : env.renderInit m.Init with
    | error e => rw [hri] at h; cases h
    | ok x =>
      rw [hri] at h
      cases hb : m.AppendInit <;> rw [hb] at h <;> cases h <;>
        rw [List.mem_singleton] at hp <;> subst hp
      · exact hic x
      · exact hi x

theorem containersOps_all {ρ : Type} {m : Meta ρ} {sidecars : List Str} (Q : Str → Prop)
    (ha : ∀ x, Q (add (lit "containers") x))
    (hc : ∀ x, Q (create (lit "containers") x)) :
    ∀ p ∈ containersOps m sidecars, Q p := by
  intro p hp
  unfold containersOps at hp
  cases hb : m.AppendSidecar <;> rw [hb] at hp
  · rw [if_neg (by decide), List.mem_singleton] at hp
    subst hp; exact hc _
  · rw [if_pos rfl, List.mem_map] at hp
    obtain ⟨x, _, rfl⟩ := hp
    exact ha x

theorem pullSecretOps_all {ρ : Type} {m : Meta ρ} (Q : Str → Prop)
    (ha : Q (add (lit "imagePullSecrets") ecrSecret))
    (hc : Q (create (lit "imagePullSecrets") ecrSecret)) :
    ∀ p ∈ pullSecretOps m, Q p := by
  intro p hp
  unfold pullSecretOps at hp
  cases hb : m.HasImagePullSecret <;> rw [hb] at hp
  · rw [if_neg (by decide)] at hp; cases hp
  · rw [if_pos rfl, List.mem_singleton] at hp
    subst hp
    cases m.AppendImagePullSecret
    · exact hc
    · exact ha

theorem datadogStep_all {ρ : Type} {env : Env ρ} {m : Meta ρ} {d : List Str} (Q : Str → Prop)
    (h : datadogStep env m = .ok d)
    (hv : ∀ x, Q (add (lit "volumes") x))
    (hi : ∀ x, Q (add (lit "initContainers") x)) :
    ∀ p ∈ d, Q p := by
  intro p hp
  unfold datadogStep at h
  cases hb : m.Sidecar.EnableDatadogTracing <;> rw [hb] at h
  · cases h; cases hp
  · cases hr : env.renderDatadogInitContainer m.Sidecar.DatadogAddress m.Sidecar.DatadogPort with
    | error e => rw [hr] at h; cases h
    | ok x =>
      rw [hr] at h; cases h
      simp only [List.mem_cons, List.mem_singleton, List.not_mem_nil, or_false] at hp
      rcases hp with rfl | rfl
      · exact hv _
      · exact hi _

theorem jaegerStep_all {ρ : Type} {env : Env ρ} {m : Meta ρ} {j : List Str} (Q : Str → Prop)
    (h : jaegerStep env m = .ok j)
    (hv : ∀ x, Q (add (lit "volumes") x))
    (hi : ∀ x, Q (add (lit "initContainers") x)) :
    ∀ p ∈ j, Q p := by
  intro p hp
  unfold jaegerStep at h
  cases hb : m.Sidecar.EnableJaegerTracing <;> rw [hb] at h
  · cases h; cases hp
  · cases hr : env.renderJaegerInitContainer m.Sidecar.JaegerAddress m.Sidecar.JaegerPort with
    | error e => rw [hr] at h; cases h
    | ok x =>
      rw [hr] at h; cases h
      simp only [List.mem_cons, List.mem_singleton, List.not_mem_nil, or_false] at hp
      rcases hp with rfl | rfl
      · exact hv _
      · exact hi _

/-! ### Paths of the `/spec` operations -/

theorem isPrefixOf_append (p s : Str) : p.isPrefixOf (p ++ s) = true :=
  List.isPrefixOf_iff_prefix.mpr (List.prefix_append p s)

theorem hasPath_add_containers (x : Str) :
    hasPath (lit "/spec/containers/-") (add (lit "containers") x) = true := by
  have h : add (lit "containers") x
      = (lit "\x7b\"op\":\"add\",\"path\":\"" ++ (lit "/spec/containers/-" ++ lit "\""))
          ++ (lit ", \"value\": " ++ x ++ lit "\x7d") := rfl
  unfold hasPath pathStartsWith
  rw [h, isPrefixOf_append]
  rfl

theorem hasPath_create_containers (x : Str) :
    hasPath (lit "/spec/containers") (create (lit "containers") x) = true := by
  have h : create (lit "containers") x
      = (lit "\x7b\"op\":\"add\",\"path\":\"" ++ (lit "/spec/containers" ++ lit "\""))
          ++ (lit ", \"value\": [" ++ x ++ lit "]\x7d") := rfl
  unfold hasPath pathStartsWith
  rw [h, isPrefixOf_append]
  rfl

theorem hasPath_add_volumes (x : Str) :
    hasPath (lit "/spec/volumes/-") (add (lit "volumes") x) = true := by
  have h : add (lit "volumes") x
      = (lit "\x7b\"op\":\"add\",\"path\":\"" ++ (lit "/spec/volumes/-" ++ lit "\""))
          ++ (lit ", \"value\": " ++ x ++ lit "\x7d") := rfl
  unfold hasPath pathStartsWith
  rw [h, isPrefixOf_append]
  rfl

theorem hasPath_add_initContainers (x : Str) :
    hasPath (lit "/spec/initContainers/-") (add (lit "initContainers") x) = true := by
  have h : add (lit "initContainers") x
      = (lit "\x7b\"op\":\"add\",\"path\":\"" ++ (lit "/spec/initContainers/-" ++ lit "\""))
          ++ (lit ", \"value\": " ++ x ++ lit "\x7d") := rfl
  unfold hasPath pathStartsWith
  rw [h, isPrefixOf_append]
  rfl

theorem pathStartsWith_add_imagePullSecrets (x : Str) :
    pathStartsWith (lit "/spec/imagePullSecrets") (add (lit "imagePullSecrets") x) = true := by
  have h : add (lit "imagePullSecrets") x
      = (lit "\x7b\"op\":\"add\",\"path\":\"" ++ lit "/spec/imagePullSecrets")
          ++ (lit "/-\", \"value\": " ++ x ++ lit "\x7d") := rfl
  unfold pathStartsWith
  rw [h, isPrefixOf_append]
  rfl

theorem pathStartsWith_create_imagePullSecrets (x : Str) :
    pathStartsWith (lit "/spec/imagePullSecrets") (create (lit "imagePullSecrets") x) = true := by
  have h : create (lit "imagePullSecrets") x
      = (lit "\x7b\"op\":\"add\",\"path\":\"" ++ lit "/spec/imagePullSecrets")
          ++ (lit "\", \"value\": [" ++ x ++ lit "]\x7d") := rfl
  unfold pathStartsWith
  rw [h, isPrefixOf_append]
  rfl

/-! ## Claims on the steps of `GeneratePatch` -/


/-- C7: on a successful composition the containers step contributes, between
the operations of step 1 and those of the later steps, one append operation
per rendered fragment in order when `AppendSidecar` is set, and otherwise one
create operation whose array is the fragments joined by commas; no other
operation has the create path `/spec/containers` or its append path. Nothing here
depends on CNI mode. -/
theorem C7_containers_step {ρ : Type} (env : Env ρ) (m : Meta ρ) (ps : List Str)
    (h : composePatches env m = .ok ps) :
    ∃ sidecars pre post,
      renderSidecars m.Sidecar = .ok sidecars
      ∧ initStep env m = .ok pre
      ∧ ps = pre
            ++ (if m.AppendSidecar then sidecars.map (fun sidecar => add (lit "containers") sidecar)
                else [create (lit "containers") (Join sidecars (lit ","))])
            ++ post
      ∧ (∀ p ∈ pre ++ post,
          hasPath (lit "/spec/containers/-") p = false ∧ hasPath (lit "/spec/containers") p = false)
      ∧ (∀ sidecar, hasPath (lit "/spec/containers/-") (add (lit "containers") sidecar) = true)
      ∧ (∀ array, hasPath (lit "/spec/containers") (create (lit "containers") array) = true) := by
  obtain ⟨pre, sidecars, d, j, h1, h2, h3, h4, rfl⟩ := composePatches_ok env m ps h
  refine ⟨sidecars, pre, pullSecretOps m ++ d ++ j, h2, h1, ?_, ?_,
    hasPath_add_containers, hasPath_create_containers⟩
  · simp only [containersOps, List.append_assoc]
  · intro p hp
    simp only [List.mem_append] at hp
    rcases hp with hp | ((hp | hp) | hp)
    · exact initStep_all
        (fun q => hasPath (lit "/spec/containers/-") q = false ∧ hasPath (lit "/spec/containers") q = false)
        h1 (fun _ _ => ⟨rfl, rfl⟩) (fun _ _ => ⟨rfl, rfl⟩) (fun _ _ => ⟨rfl, rfl⟩)
        (fun _ => ⟨rfl, rfl⟩) (fun _ => ⟨rfl, rfl⟩) p hp
    · exact pullSecretOps_all
        (fun q => hasPath (lit "/spec/containers/-") q = false ∧ hasPath (lit "/spec/containers") q = false)
        ⟨rfl, rfl⟩ ⟨rfl, rfl⟩ p hp
    · exact datadogStep_all
        (fun q => hasPath (lit "/spec/containers/-") q = false ∧ hasPath (lit "/spec/containers") q = false)
        h3 (fun _ => ⟨rfl, rfl⟩) (fun _ => ⟨rfl, rfl⟩) p hp
    · exact jaegerStep_all
        (fun q => hasPath (lit "/spec/containers/-") q = false ∧ hasPath (lit "/spec/containers") q = false)
        h4 (fun _ => ⟨rfl, rfl⟩) (fun _ => ⟨rfl, rfl⟩) p hp

/-- C7 at the sample request with the X-Ray daemon: composition succeeds and
the two fragments are appended in order. -/
theorem C7_containers_step_witness :
    composePatches sampleEnv sampleMetaXray = .ok (samplePatches sampleMetaXray)
    ∧ ∃ sidecars pre post,
      renderSidecars sampleMetaXray.Sidecar = .ok sidecars
      ∧ initStep sampleEnv sampleMetaXray = .ok pre
      ∧ samplePatches sampleMetaXray = pre
            ++ (if sampleMetaXray.AppendSidecar
                then sidecars.map (fun sidecar => add (lit "containers") sidecar)
                else [create (lit "containers") (Join sidecars (lit ","))])
            ++ post
      ∧ (∀ p ∈ pre ++ post,
          hasPath (lit "/spec/containers/-") p = false ∧ hasPath (lit "/spec/containers") p = false)
      ∧ (∀ sidecar, hasPath (lit "/spec/containers/-") (add (lit "containers") sidecar) = true)
      ∧ (∀ array, hasPath (lit "/spec/containers") (create (lit "containers") array) = true) :=
  ⟨rfl, C7_containers_step sampleEnv sampleMetaXray _ rfl⟩


/-! ## Claims on the rendered fragments, errors and tokens -/

/-- C15: `GeneratePatch` is all-or-nothing. When it returns an error the bytes
are empty, whatever was composed before the failing step; when it returns no
error the bytes are all composed operations joined by commas between
brackets. A failing `renderInit` (outside CNI mode) and a failing tracing
renderer each give the empty result with that error. -/
theorem C15_all_or_nothing {ρ : Type} (env : Env ρ) (m : Meta ρ) :
    (∀ err, (GeneratePatch env m).2 = some err →
        (GeneratePatch env m).1 = [] ∧ composePatches env m = .error err)
    ∧ ((GeneratePatch env m).2 = none →
        ∃ ps, composePatches env m = .ok ps
          ∧ (GeneratePatch env m).1 = lit "[" ++ Join ps (lit ",") ++ lit "]")
    ∧ (∀ err, appmeshCNIEnabled env m = false → env.renderInit m.Init = .error err →
        GeneratePatch env m = ([], some err))
    ∧ (∀ err pre, initStep env m = .ok pre → m.Sidecar.EnableDatadogTracing = true →
        env.renderDatadogInitContainer m.Sidecar.DatadogAddress m.Sidecar.DatadogPort = .error err →
        GeneratePatch env m = ([], some err))
    ∧ (∀ err pre d, initStep env m = .ok pre → datadogStep env m = .ok d →
        m.Sidecar.EnableJaegerTracing = true →
        env.renderJaegerInitContainer m.Sidecar.JaegerAddress m.Sidecar.JaegerPort = .error err →
        GeneratePatch env m = ([], some err)) := by
  have hsc : ∃ sc, renderSidecars m.Sidecar = .ok sc := by
    obtain ⟨ebody, he⟩ := renderTemplate_envoy_ok m.Sidecar
    obtain ⟨xbody, hx⟩ := renderTemplate_xray_ok m.Sidecar
    exact ⟨_, renderSidecars_eq m.Sidecar _ _ he hx⟩
  obtain ⟨sc, hsc⟩ := hsc
  refine ⟨?_, ?_, ?_, ?_, ?_⟩
  · intro err h
    unfold GeneratePatch at h ⊢
    cases hc : composePatches env m with
    | error e =>
      rw [hc] at h
      simp only [Option.some.injEq] at h
      subst h
      exact ⟨rfl, rfl⟩
    | ok ps => rw [hc] at h; cases h
  · intro h
    unfold GeneratePatch at h ⊢
    cases hc : composePatches env m with
    | error e => rw [hc] at h; cases h
    | ok ps => exact ⟨ps, rfl, rfl⟩
  · intro err hcni hri
    have : composePatches env m = .error err := by
      rw [composePatches_eq_steps]
      unfold initStep
      rw [hcni, hri]
      rfl
    unfold GeneratePatch
    rw [this]
  · intro err pre hpre hD hr
    have : composePatches env m = .error err := by
      rw [composePatches_eq_steps, hpre, hsc]
      unfold datadogStep
      rw [hD, hr]
      rfl
    unfold GeneratePatch
    rw [this]
  · intro err pre d hpre hd hJ hr
    have : composePatches env m = .error err := by
      rw [composePatches_eq_steps, hpre, hsc, hd]
      unfold jaegerStep
      rw [hJ, hr]
      rfl
    unfold GeneratePatch
    rw [this]

/-- C15 at a sample request whose Datadog init container fails to render: the
init container and the sidecars were composed, and nothing is returned. -/
theorem C15_all_or_nothing_witness :
    initStep sampleEnvFailing sampleMetaTracing
        = .ok [create (lit "initContainers") (lit "\x7b\"name\": \"proxyinit\"\x7d")]
    ∧ GeneratePatch sampleEnvFailing sampleMetaTracing = ([], some (lit "datadog address is empty")) :=
  ⟨rfl, (C15_all_or_nothing sampleEnvFailing sampleMetaTracing).2.2.2.1 _ _ rfl rfl rfl⟩

theorem escapeChar_no_slash (c : Byte) : ch '/' ∉ escapeChar c := by
  unfold escapeChar
  by_cases h1 : c = ch '~'
  · rw [if_pos h1]; decide
  · by_cases h2 : c = ch '/'
    · rw [if_neg h1, if_pos h2]; decide
    · rw [if_neg h1, if_neg h2]
      simp only [List.mem_singleton]
      exact fun e => h2 e.symm

theorem escapeJSONPointer_no_slash (key : Str) : ch '/' ∉ escapeJSONPointer key := by
  induction key with
  | nil => simp [escapeJSONPointer_nil]
  | cons c s ih =>
    rw [escapeJSONPointer_cons, List.mem_append, not_or]
    exact ⟨escapeChar_no_slash c, ih⟩

theorem wellEscaped_escapeChar_append (c : Byte) (t : Str) (h : wellEscaped t = true) :
    wellEscaped (escapeChar c ++ t) = true := by
  have d0 : ¬ ch '0' = ch '~' := by decide
  have d1 : ¬ ch '1' = ch '~' := by decide
  unfold escapeChar
  by_cases h1 : c = ch '~'
  · rw [if_pos h1]
    simp [wellEscaped, h, d0]
  · by_cases h2 : c = ch '/'
    · rw [if_neg h1, if_pos h2]
      simp [wellEscaped, h, d1]
    · rw [if_neg h1, if_neg h2]
      simp [wellEscaped, h, h1]

theorem wellEscaped_escapeJSONPointer (key : Str) : wellEscaped (escapeJSONPointer key) = true := by
  induction key with
  | nil => rfl
  | cons c s ih =>
    rw [escapeJSONPointer_cons]
    exact wellEscaped_escapeChar_append c _ ih

theorem escapeJSONPointer_of_plain (key : Str) (h1 : ch '~' ∉ key) (h2 : ch '/' ∉ key) :
    escapeJSONPointer key = key := by
  induction key with
  | nil => rfl
  | cons c s ih =>
    simp only [List.mem_cons, not_or] at h1 h2
    have hc1 : ¬ c = ch '~' := fun e => h1.1 e.symm
    have hc2 : ¬ c = ch '/' := fun e => h2.1 e.symm
    rw [escapeJSONPointer_cons, ih h1.2 h2.2, escapeChar, if_neg hc1, if_neg hc2]
    rfl

/-- C18: for every key, `escapeJSONPointer key` holds no `/` and each of its
`~` is followed by `0` or `1`; so the path of a per-key annotation operation,
`/metadata/annotations/` followed by the token, has exactly three `/`; and a
key without `~` and `/` is its own token. -/
theorem C18_escape_token (key : Str) :
    ch '/' ∉ escapeJSONPointer key
    ∧ wellEscaped (escapeJSONPointer key) = true
    ∧ (annotationPath key).count (ch '/') = 3
    ∧ (∀ op value, updateAnnotation op (escapeJSONPointer key) value
        = lit "\x7b\"op\":\"" ++ op ++ lit "\",\"path\":\"" ++ annotationPath key
            ++ lit "\",\"value\":\"" ++ value ++ lit "\"\x7d")
    ∧ (ch '~' ∉ key → ch '/' ∉ key → escapeJSONPointer key = key) := by
  refine ⟨escapeJSONPointer_no_slash key, wellEscaped_escapeJSONPointer key, ?_, ?_,
    escapeJSONPointer_of_plain key⟩
  · unfold annotationPath
    rw [List.count_append, List.count_eq_zero_of_not_mem (escapeJSONPointer_no_slash key)]
    rfl
  · intro op value
    simp [ updateAnnotation, annotationPath, lit, List.append_assoc]

/-- The operation texts of a successful composition: none begins as an
operation on the whole-map path `/metadata/annotations`, so none is a
`createAnnotation`; one that begins as an operation under that path occurs
only in CNI mode and is a per-key operation of a visited entry; and in CNI
mode the pod annotation map is present and not empty. -/
theorem composePatches_annotation_texts {ρ : Type} (env : Env ρ) (m : Meta ρ) (ps : List Str)
    (h : composePatches env m = .ok ps) :
    (∀ p ∈ ps, hasPath (lit "/metadata/annotations") p = false)
    ∧ (∀ p ∈ ps, ∀ key value, p ≠ createAnnotation key value)
    ∧ (∀ p ∈ ps, pathStartsWith (lit "/metadata/annotations") p = true →
        appmeshCNIEnabled env m = true
        ∧ ∃ kv ∈ env.range.visit (newAnnotations env m),
            p = updateAnnotation (lit "add") (escapeJSONPointer kv.1) kv.2
            ∨ p = updateAnnotation (lit "replace") (escapeJSONPointer kv.1) kv.2)
    ∧ (appmeshCNIEnabled env m = true →
        ∃ es, m.PodAnnotations = some es ∧ es ≠ []
          ∧ entryGet es ( Config.AppMeshCNIAnnotation env.cfg) = some (lit "enabled")) := by
  obtain ⟨pre, sidecars, d, j, h1, h2, h3, h4, rfl⟩ := composePatches_ok env m ps h
  have hcni : appmeshCNIEnabled env m = true →
      ∃ es, m.PodAnnotations = some es ∧ es ≠ []
        ∧ entryGet es ( Config.AppMeshCNIAnnotation env.cfg) = some (lit "enabled") := by
    intro hc
    unfold appmeshCNIEnabled mapIndex at hc
    cases hp : m.PodAnnotations with
    | none => rw [hp] at hc; simp at hc
    | some es =>
      rw [hp] at hc
      cases hg : entryGet es ( Config.AppMeshCNIAnnotation env.cfg) with
      | none => simp [hg] at hc
      | some v =>
        simp [hg] at hc
        subst hc
        refine ⟨es, rfl, ?_, hg⟩
        intro he
        subst he
        cases hg
  have hpre : ∀ p ∈ pre, hasPath (lit "/metadata/annotations") p = false
      ∧ (pathStartsWith (lit "/metadata/annotations") p = true →
          appmeshCNIEnabled env m = true
          ∧ ∃ kv ∈ env.range.visit (newAnnotations env m),
              p = updateAnnotation (lit "add") (escapeJSONPointer kv.1) kv.2
              ∨ p = updateAnnotation (lit "replace") (escapeJSONPointer kv.1) kv.2) := by
    intro p hp
    cases hc : appmeshCNIEnabled env m with
    | false =>
      have hf : hasPath (lit "/metadata/annotations") p = false
          ∧ pathStartsWith (lit "/metadata/annotations") p = false := by
        unfold initStep at h1
        rw [hc] at h1
        cases hri : env.renderInit m.Init with
        | error e => rw [hri] at h1; cases h1
        | ok x =>
          rw [hri] at h1
          simp only [Bool.false_eq_true, if_false, Except.ok.injEq] at h1
          subst h1
          rw [List.mem_singleton] at hp
          subst hp
          cases m.AppendInit <;> exact ⟨rfl, rfl⟩
      refine ⟨hf.1, fun ht => ?_⟩
      rw [hf.2] at ht
      cases ht
    | true =>
      obtain ⟨es, hes, _, _⟩ := hcni hc
      have hpre' : pre = appMeshCNIAnnotationsPatch env m := by
        unfold initStep at h1
        rw [hc, if_pos rfl] at h1
        cases h1; rfl
      subst hpre'
      unfold appMeshCNIAnnotationsPatch at hp
      rw [hes, annotationsPatches_some, List.mem_map] at hp
      obtain ⟨kv, hkv, rfl⟩ := hp
      by_cases hq : (mapIndex (some es) kv.1).1 ≠ []
      · rw [if_pos hq]
        exact ⟨rfl, fun _ => ⟨rfl, kv, hkv, Or.inr rfl⟩⟩
      · rw [if_neg hq]
        exact ⟨rfl, fun _ => ⟨rfl, kv, hkv, Or.inl rfl⟩⟩
  have hrest : ∀ p ∈ containersOps m sidecars ++ pullSecretOps m ++ d ++ j,
      hasPath (lit "/metadata/annotations") p = false
      ∧ pathStartsWith (lit "/metadata/annotations") p = false := by
    intro p hp
    simp only [List.mem_append] at hp
    rcases hp with ((hp | hp) | hp) | hp
    · exact containersOps_all
        (fun q => hasPath (lit "/metadata/annotations") q = false
          ∧ pathStartsWith (lit "/metadata/annotations") q = false)
        (fun _ => ⟨rfl, rfl⟩) (fun _ => ⟨rfl, rfl⟩) p hp
    · exact pullSecretOps_all
        (fun q => hasPath (lit "/metadata/annotations") q = false
          ∧ pathStartsWith (lit "/metadata/annotations") q = false)
        ⟨rfl, rfl⟩ ⟨rfl, rfl⟩ p hp
    · exact datadogStep_all
        (fun q => hasPath (lit "/metadata/annotations") q = false
          ∧ pathStartsWith (lit "/metadata/annotations") q = false)
        h3 (fun _ => ⟨rfl, rfl⟩) (fun _ => ⟨rfl, rfl⟩) p hp
    · exact jaegerStep_all
        (fun q => hasPath (lit "/metadata/annotations") q = false
          ∧ pathStartsWith (lit "/metadata/annotations") q = false)
        h4 (fun _ => ⟨rfl, rfl⟩) (fun _ => ⟨rfl, rfl⟩) p hp
  have hall : ∀ p ∈ pre ++ containersOps m sidecars ++ pullSecretOps m ++ d ++ j,
      hasPath (lit "/metadata/annotations") p = false := by
    intro p hp
    simp only [List.append_assoc, List.mem_append] at hp
    rcases hp with hp | hp
    · exact (hpre p hp).1
    · exact (hrest p (by simp only [List.append_assoc, List.mem_append]; exact hp)).1
  refine ⟨hall, ?_, ?_, hcni⟩
  · intro p hp key value he
    have := hall p hp
    rw [he, createAnnotation_hasPath] at this
    cases this
  · intro p hp ht
    simp only [List.append_assoc, List.mem_append] at hp
    rcases hp with hp | hp
    · exact (hpre p hp).2 ht
    · have := (hrest p (by simp only [List.append_assoc, List.mem_append]; exact hp)).2
      rw [this] at ht
      cases ht

/-- C20: against a present map the operation for a pair depends on that pair
and the caller's map only: for every order of the desired pairs the output is
the same function mapped over the pairs, so permuting the pairs permutes the
operations alike. Against an absent map, whichever pair comes first becomes
the whole-map create and all other pairs give a per-key `add`. -/
theorem C20_order_independence (es : List (Str × Str)) (desired permuted : List (Str × Str))
    (hperm : permuted.Perm desired) :
    (∃ f : Str × Str → Str,
        (∀ l, annotationsPatches (some es) l = l.map f)
        ∧ annotationsPatches (some es) permuted = permuted.map f
        ∧ annotationsPatches (some es) desired = desired.map f)
    ∧ (annotationsPatches (some es) permuted).Perm (annotationsPatches (some es) desired)
    ∧ (∀ first rest, permuted = first :: rest →
        annotationsPatches none permuted
          = createAnnotation first.1 first.2
              :: rest.map (fun kv => updateAnnotation (lit "add") (escapeJSONPointer kv.1) kv.2)) := by
  refine ⟨⟨_, fun l => annotationsPatches_some es l, annotationsPatches_some es _,
    annotationsPatches_some es _⟩, ?_, ?_⟩
  · rw [annotationsPatches_some, annotationsPatches_some]
    exact hperm.map _
  · intro first rest hp
    rw [hp, annotationsPatches_none_cons]

/-- C20 at two pairs in both orders: against a present map the two outputs are
each other reversed; against an absent map the first pair of each order is
the whole-map create. -/
theorem C20_order_independence_witness :
    [(lit "b", lit "2"), (lit "a", lit "1")].Perm [(lit "a", lit "1"), (lit "b", lit "2")]
    ∧ (annotationsPatches (some [(lit "a", lit "0")]) [(lit "b", lit "2"), (lit "a", lit "1")]).Perm
        (annotationsPatches (some [(lit "a", lit "0")]) [(lit "a", lit "1"), (lit "b", lit "2")])
    ∧ annotationsPatches none [(lit "b", lit "2"), (lit "a", lit "1")]
        = [ createAnnotation (lit "b") (lit "2"), updateAnnotation (lit "add") (lit "a") (lit "1")]
    ∧ annotationsPatches none [(lit "a", lit "1"), (lit "b", lit "2")]
        = [ createAnnotation (lit "a") (lit "1"), updateAnnotation (lit "add") (lit "b") (lit "2")] :=
  ⟨List.Perm.swap _ _ _,
   (C20_order_independence [(lit "a", lit "0")] _ _ (List.Perm.swap _ _ _)).2.1,
   rfl, rfl⟩

/-! ## The JSON reader -/

theorem run_append (a b : Str) (st : PState) :
    run (a ++ b) st = (run a st).bind (run b) := by
  induction a generalizing st with
  | nil => rfl
  | cons c a ih =>
    simp only [List.cons_append, run]
    cases step st c with
    | none => rfl
    | some st' => exact ih st'

theorem run_append_of_eq (a b : Str) (st st1 st2 : PState)
    (h1 : run a st = some st1) (h2 : run b st1 = some st2) :
    run (a ++ b) st = some st2 := by
  rw [run_append, h1]
  exact h2

theorem step_safe (acc : Str) (k : Bool) (stack : List Frame) (root : Option JValue) (c : Byte)
    (hc : jsonSafeChar c = true) :
    step ⟨.str acc k, stack, root⟩ c = some ⟨.str (acc ++ [c]) k, stack, root⟩ := by
  simp only [jsonSafeChar, Bool.and_eq_true, Bool.not_eq_true', decide_eq_false_iff_not] at hc
  obtain ⟨⟨h1, h2⟩, h3⟩ := hc
  simp only [step, stepStr, h1, h2, h3, if_false]

/-- Inside a string a JSON-safe text is taken over as it is. -/
theorem run_safe (s acc : Str) (k : Bool) (stack : List Frame) (root : Option JValue)
    (hs : jsonSafe s = true) :
    run s ⟨.str acc k, stack, root⟩ = some ⟨.str (acc ++ s) k, stack, root⟩ := by
  induction s generalizing acc with
  | nil => simp [run]
  | cons c s ih =>
    simp only [jsonSafe, List.all_cons, Bool.and_eq_true] at hs
    simp only [run, step_safe acc k stack root c hs.1]
    rw [ih (acc ++ [c]) (by simpa [jsonSafe] using hs.2)]
    simp

/-- The reader over pieces agrees with the reader over their text when the
field values are JSON-safe. -/
theorem runPieces_sound (ps : List Piece) (st st' : PState) (hs : holesSafe ps)
    (h : runPieces ps st = some st') : run (flatten ps) st = some st' := by
  induction ps generalizing st with
  | nil => simpa [runPieces, flatten, run] using h
  | cons p ps ih =>
    cases p with
    | text t =>
      simp only [runPieces] at h
      cases h1 : run t st with
      | none => rw [h1] at h; cases h
      | some st1 =>
        rw [h1] at h
        exact run_append_of_eq _ _ _ _ _ h1 (ih st1 hs h)
    | hole x =>
      obtain ⟨st_mode, st_stack, st_root⟩ := st
      simp only [runPieces] at h
      cases st_mode with
      | str acc k =>
        simp only at h
        exact run_append_of_eq _ _ _ _ _ (run_safe x acc k st_stack st_root hs.1) (ih _ hs.2 h)
      | _ => cases h

/-- A text that embeds as `v` parses to `v`. -/
theorem jsonParse_of_embeds (text : Str) (v : JValue) (h : Embeds text v) :
    jsonParse text = some v := by
  unfold jsonParse
  rw [h false [] none]
  rfl

/-! ### Reading rendered templates -/

theorem flatten_append (a b : List Piece) : flatten (a ++ b) = flatten a ++ flatten b := by
  induction a with
  | nil => rfl
  | cons p a ih => simp [flatten, ih]

theorem printValue_pieceOfValue (v : Value) :
    printValue v = (pieceOfValue v).map Piece.chars := by
  cases v with
  | str s => rfl
  | bool b => cases b <;> rfl
  | mount p => rfl

mutual
/-- The text of a node is the text of its pieces. -/
theorem execNode_pieces (m : SidecarMeta) :
    ∀ t, execNode m t = (piecesNode m t).map flatten
  | .text s => by simp [execNode, piecesNode, flatten, Except.map, Piece.chars]
  | .action p => by
    simp only [execNode, piecesNode]
    cases evalPipeline m p with
    | error e => rfl
    | ok v =>
      simp only [bind, Except.bind, printValue_pieceOfValue]
      cases pieceOfValue v with
      | error e => rfl
      | ok piece => simp [Except.map, pure, Except.pure, flatten]
  | .ifNode c body => by
    have ih := execNode_pieces m body
    simp only [execNode, piecesNode]
    cases evalPipeline m c with
    | error e => rfl
    | ok v =>
      simp only [bind, Except.bind]
      cases truth v
      · simp [Except.map, pure, Except.pure, flatten]
      · simpa using ih
  | .seq items => by
    have ih := execList_pieces m items
    simpa only [execNode, piecesNode] using ih
/-- The text of a list of nodes is the text of its pieces. -/
theorem execList_pieces (m : SidecarMeta) :
    ∀ l, execList m l = (piecesList m l).map flatten
  | [] => by simp [execList, piecesList, flatten, Except.map]
  | n :: rest => by
    have h1 := execNode_pieces m n
    have h2 := execList_pieces m rest
    simp only [execList, piecesList, h1, h2]
    cases piecesNode m n with
    | error e => rfl
    | ok a =>
      cases piecesList m rest with
      | error e => rfl
      | ok b => simp [Except.map, bind, Except.bind, pure, Except.pure, flatten_append]
end

theorem readsList_of_pieces (m : SidecarMeta) (l : List Node) (ps : List Piece) (st st' : PState)
    (hp : piecesList m l = .ok ps) (hs : holesSafe ps) (hr : runPieces ps st = some st') :
    ReadsList m l st st' := by
  refine ⟨flatten ps, ?_, runPieces_sound ps st st' hs hr⟩
  rw [execList_pieces, hp]
  rfl

theorem execList_append (m : SidecarMeta) (a b : List Node) (ta tb : Str)
    (ha : execList m a = .ok ta) (hb : execList m b = .ok tb) :
    execList m (a ++ b) = .ok (ta ++ tb) := by
  induction a generalizing ta with
  | nil =>
    simp only [execList, Except.ok.injEq] at ha
    subst ha
    simpa using hb
  | cons n a ih =>
    simp only [List.cons_append, execList] at ha ⊢
    cases hn : execNode m n with
    | error e => rw [hn] at ha; cases ha
    | ok tn =>
      rw [hn] at ha
      cases hr : execList m a with
      | error e => rw [hr] at ha; cases ha
      | ok tr =>
        rw [hr] at ha
        simp only [bind, Except.bind, pure, Except.pure, Except.ok.injEq] at ha
        subst ha
        have ih' : execList m (a.append b) = Except.ok (tr ++ tb) := ih tr hr
        rw [ih']
        simp [bind, Except.bind, pure, Except.pure]

theorem readsList_append (m : SidecarMeta) (a b : List Node) (st st1 st2 : PState)
    (ha : ReadsList m a st st1) (hb : ReadsList m b st1 st2) :
    ReadsList m (a ++ b) st st2 := by
  obtain ⟨ta, hea, hra⟩ := ha
  obtain ⟨tb, heb, hrb⟩ := hb
  exact ⟨ta ++ tb, execList_append m a b ta tb hea heb, run_append_of_eq _ _ _ _ _ hra hrb⟩

/-- Splitting a list of nodes at position `k`. -/
theorem readsList_split (m : SidecarMeta) (k : Nat) (l : List Node) (st st1 st2 : PState)
    (ha : ReadsList m (l.take k) st st1) (hb : ReadsList m (l.drop k) st1 st2) :
    ReadsList m l st st2 := by
  have := readsList_append m _ _ st st1 st2 ha hb
  rwa [List.take_append_drop] at this

/-- An optional array item: an `if` whose body is one text that adds `entry`
to the open array. -/
theorem readsList_optional (m : SidecarMeta) (c : Pipeline) (v : Value) (b : Bool) (s : String)
    (entry : JValue) (items : List JValue) (rest : List Frame) (root : Option JValue)
    (he : evalPipeline m c = .ok v) (hb : truth v = b)
    (hrun : run (lit s) ⟨.after, .arr items :: rest, root⟩
      = some ⟨.after, .arr (items ++ [entry]) :: rest, root⟩) :
    ReadsList m [.ifNode c (.seq [.text s])] ⟨.after, .arr items :: rest, root⟩
      ⟨.after, .arr (items ++ (if b then [entry] else [])) :: rest, root⟩ := by
  subst hb
  cases ht : truth v
  · refine ⟨[], ?_, ?_⟩
    · simp [execList, execNode, he, ht, bind, Except.bind, pure, Except.pure]
    · simp [run]
  · refine ⟨lit s, ?_, ?_⟩
    · simp [execList, execNode, he, ht, bind, Except.bind, pure, Except.pure]
    · simpa using hrun

theorem truth_or_bool (a b : Bool) :
    truth (if truth (.bool a) then Value.bool a else Value.bool b) = (a || b) := by
  cases a <;> cases b <;> rfl

/-! ### The envoy template read as JSON -/

theorem jsonSafe_fields (m : SidecarMeta) (hs : m.jsonSafe = true) :
    jsonSafe m.ContainerImage = true ∧ jsonSafe m.MeshName = true
    ∧ jsonSafe m.VirtualNodeName = true ∧ jsonSafe m.Preview = true
    ∧ jsonSafe m.LogLevel = true ∧ jsonSafe m.Region = true
    ∧ jsonSafe m.CpuRequests = true ∧ jsonSafe m.MemoryRequests = true
    ∧ (∀ vm, m.ServiceAccountVolumeMount = some vm →
        jsonSafe vm.MountPath = true ∧ jsonSafe vm.Name = true) := by
  simp only [SidecarMeta.jsonSafe, Bool.and_eq_true] at hs
  obtain ⟨⟨⟨⟨⟨⟨⟨⟨h1, h2⟩, h3⟩, h4⟩, h5⟩, h6⟩, h7⟩, h8⟩, h9⟩ := hs
  refine ⟨h1, h2, h3, h4, h5, h6, h7, h8, ?_⟩
  intro vm hvm
  rw [hvm] at h9
  simpa using h9

theorem validUTF8_fields (m : SidecarMeta) (hv : m.validUTF8 = true) :
    validUTF8 m.ContainerImage = true ∧ validUTF8 m.MeshName = true
    ∧ validUTF8 m.VirtualNodeName = true ∧ validUTF8 m.Preview = true
    ∧ validUTF8 m.LogLevel = true ∧ validUTF8 m.Region = true
    ∧ validUTF8 m.CpuRequests = true ∧ validUTF8 m.MemoryRequests = true
    ∧ (∀ vm, m.ServiceAccountVolumeMount = some vm →
        validUTF8 vm.MountPath = true ∧ validUTF8 vm.Name = true) := by
  simp only [SidecarMeta.validUTF8, Bool.and_eq_true] at hv
  obtain ⟨⟨⟨⟨⟨⟨⟨⟨h1, h2⟩, h3⟩, h4⟩, h5⟩, h6⟩, h7⟩, h8⟩, h9⟩ := hv
  refine ⟨h1, h2, h3, h4, h5, h6, h7, h8, ?_⟩
  intro vm hvm
  rw [hvm] at h9
  simpa using h9

set_option maxRecDepth 100000 in
/-- The volume mounts of the envoy template, read from just inside the array
up to the start of the CPU request. -/
theorem envoy_mounts_read (m : SidecarMeta) (hs : m.jsonSafe = true)
    (fields : List (Str × JValue)) (key : Str) (rest : List Frame) (root : Option JValue) :
    ReadsList m ((envoyContainerTemplate.children.drop 21).take 3)
      ⟨.value true, .arr [] :: .obj fields (some key) :: rest, root⟩
      ⟨.str [] false,
        .obj [] (some (lit "cpu")) :: .obj [] (some (lit "requests"))
          :: .obj (fields ++ [(key, .arr (envoyMounts m))]) (some (lit "resources")) :: rest,
        root⟩ := by
  obtain ⟨_, _, _, _, _, _, _, _, h9⟩ := jsonSafe_fields m hs
  obtain ⟨a1, a2, a3, a4, a5, a6, a7, a8, b1, a9, a10, b2, a11, a12, b3, b4, b5, sa⟩ := m
  rcases sa with _ | ⟨n, p, _ | _⟩
  · cases b1 <;> cases b2 <;> exact readsList_of_pieces _ _ _ _ _ rfl trivial rfl
  · obtain ⟨hp, hn⟩ := h9 _ rfl
    cases b1 <;> cases b2 <;> exact readsList_of_pieces _ _ _ _ _ rfl ⟨hp, hn, trivial⟩ rfl
  · obtain ⟨hp, hn⟩ := h9 _ rfl
    cases b1 <;> cases b2 <;> exact readsList_of_pieces _ _ _ _ _ rfl ⟨hp, hn, trivial⟩ rfl

set_option maxRecDepth 100000 in
/-- The envoy template, rendered for a description with JSON-safe fields,
reads as the value `envoyValue` wherever a value may start. -/
theorem envoy_readsList (m : SidecarMeta) (hs : m.jsonSafe = true)
    (b : Bool) (stack : List Frame) (root : Option JValue) :
    ReadsList m envoyContainerTemplate.children ⟨.value b, stack, root⟩
      (deliver (envoyValue m) stack root) := by
  obtain ⟨h1, h2, h3, h4, h5, h6, h7, h8, _⟩ := jsonSafe_fields m hs
  refine readsList_split m 11 _ _ _ _
    (readsList_of_pieces m _ _ _ _ rfl ⟨h1, h2, h3, h4, h5, trivial⟩ rfl) ?_
  refine readsList_split m 1 _ _ _ _
    (readsList_optional m _ _ (m.EnableJaegerTracing || m.EnableDatadogTracing) _ _ _ _ _
      rfl (truth_or_bool _ _) rfl) ?_
  refine readsList_split m 5 _ _ _ _
    (readsList_of_pieces m _ _ _ _ rfl ⟨h3, h6, trivial⟩ rfl) ?_
  refine readsList_split m 1 _ _ _ _
    (readsList_optional m _ _ m.InjectXraySidecar _ _ _ _ _ rfl rfl rfl) ?_
  refine readsList_split m 1 _ _ _ _
    (readsList_optional m _ _ m.EnableStatsTags _ _ _ _ _ rfl rfl rfl) ?_
  refine readsList_split m 1 _ _ _ _
    (readsList_optional m _ _ m.EnableStatsD _ _ _ _ _ rfl rfl rfl) ?_
  refine readsList_split m 1 _ _ _ _
    (readsList_of_pieces m _ _ _ _ rfl trivial rfl) ?_
  refine readsList_split m 3 _ _ _ _ (envoy_mounts_read m hs _ _ _ _) ?_
  exact readsList_of_pieces m _ _ _ _ rfl ⟨h7, h8, trivial⟩ rfl

set_option maxRecDepth 100000 in
/-- The X-Ray daemon template, rendered for a description with JSON-safe
fields, reads as the value `xrayValue` wherever a value may start. -/
theorem xray_readsList (m : SidecarMeta) (hs : m.jsonSafe = true)
    (b : Bool) (stack : List Frame) (root : Option JValue) :
    ReadsList m xrayDaemonContainerTemplate.children ⟨.value b, stack, root⟩
      (deliver (xrayValue m) stack root) := by
  obtain ⟨_, _, h3, _, _, _, h7, h8, h9⟩ := jsonSafe_fields m hs
  obtain ⟨a1, a2, a3, a4, a5, a6, a7, a8, b1, a9, a10, b2, a11, a12, b3, b4, b5, sa⟩ := m
  rcases sa with _ | ⟨n, p, _ | _⟩
  · exact readsList_of_pieces _ _ _ _ _ rfl ⟨h3, h7, h8, trivial⟩ rfl
  · obtain ⟨hp, hn⟩ := h9 _ rfl
    exact readsList_of_pieces _ _ _ _ _ rfl ⟨h3, hp, hn, h7, h8, trivial⟩ rfl
  · obtain ⟨hp, hn⟩ := h9 _ rfl
    exact readsList_of_pieces _ _ _ _ _ rfl ⟨h3, hp, hn, h7, h8, trivial⟩ rfl

theorem embeds_of_readsList (m : SidecarMeta) (name : Str) (t : Node) (v : JValue) (text : Str)
    (ht : renderTemplate name t m = .ok text)
    (hc : t = .seq t.children)
    (h : ∀ b stack root, ReadsList m t.children ⟨.value b, stack, root⟩ (deliver v stack root)) :
    Embeds text v := by
  intro b stack root
  obtain ⟨text', he, hr⟩ := h b stack root
  have : execList m t.children = .ok text := by
    rw [← ht, renderTemplate, hc]
    simp [execNode, Node.children]
  rw [this] at he
  cases he
  exact hr

/-- The rendered envoy fragment embeds as `envoyValue` when the fields are JSON-safe. -/
theorem envoy_embeds (m : SidecarMeta) (hs : m.jsonSafe = true) (text : Str)
    (ht : renderTemplate (lit "envoy") envoyContainerTemplate m = .ok text) :
    Embeds text (envoyValue m) :=
  embeds_of_readsList m _ _ _ _ ht rfl (envoy_readsList m hs)

/-- The rendered X-Ray fragment embeds as `xrayValue` when the fields are JSON-safe. -/
theorem xray_embeds (m : SidecarMeta) (hs : m.jsonSafe = true) (text : Str)
    (ht : renderTemplate (lit "xray-daemon") xrayDaemonContainerTemplate m = .ok text) :
    Embeds text (xrayValue m) :=
  embeds_of_readsList m _ _ _ _ ht rfl (xray_readsList m hs)

theorem virtualNodePath_eq (m : SidecarMeta) :
    virtualNodePath m = lit "mesh/" ++ m.MeshName ++ lit "/virtualNode/" ++ m.VirtualNodeName := by
  have h : ∀ (cs acc : Str), cs.foldl (fun a c => a ++ [c]) acc = acc ++ cs := by
    intro cs
    induction cs with
    | nil => simp
    | cons c cs ih => intro acc; simp [ih]
  unfold virtualNodePath
  rw [h]

/-- The virtual node path of a description with valid UTF-8 names is read back
as it is. -/
theorem toValidUTF8_virtualNodePath (m : SidecarMeta) (h1 : validUTF8 m.MeshName = true)
    (h2 : validUTF8 m.VirtualNodeName = true) :
    toValidUTF8 (virtualNodePath m)
      = lit "mesh/" ++ m.MeshName ++ lit "/virtualNode/" ++ m.VirtualNodeName := by
  rw [virtualNodePath_eq]
  exact toValidUTF8_of_valid _
    (validUTF8_append _ _ (validUTF8_append _ _ (validUTF8_append _ _ rfl h1) rfl) h2)

theorem hasEnv_of_entry (v : JValue) (name value : Str) (e : JValue)
    (he : e ∈ v.envEntries) (hn : e.strField (lit "name") = some name)
    (hv : e.strField (lit "value") = some value) :
    hasEnv v name value = true := by
  unfold hasEnv
  rw [List.any_eq_true]
  exact ⟨e, he, by simp [hn, hv]⟩

theorem envoyValue_envEntries (m : SidecarMeta) : (envoyValue m).envEntries = envoyEnv m := rfl

theorem xrayValue_envEntries (m : SidecarMeta) :
    (xrayValue m).envEntries
      = [envEntry "AWS_ROLE_SESSION_NAME" (toValidUTF8 m.VirtualNodeName)] := rfl

/-! ## Claims on the content of the fragments -/

set_option maxRecDepth 100000 in
/-- C12, as stated, fails: stats tags are off, yet the `env` list of the
rendered envoy fragment holds `ENABLE_ENVOY_STATS_TAGS` = `1`, written there
by the log level, which the template inserts unescaped. -/
theorem C12_counterexample_injected_entry :
    sampleSidecarLogLevel.EnableStatsTags = false
    ∧ renderSidecars sampleSidecarLogLevel = .ok [firstFragment sampleSidecarLogLevel]
    ∧ (jsonParse (firstFragment sampleSidecarLogLevel)).map
        (fun v => hasEnv v (lit "ENABLE_ENVOY_STATS_TAGS") (lit "1")) = some true :=
  ⟨rfl, rfl, rfl⟩

theorem envEntry_name (n : String) (v : Str) :
    (envEntry n v).strField (lit "name") = some (lit n) := rfl

theorem envEntry_value (n : String) (v : Str) :
    (envEntry n v).strField (lit "value") = some v := rfl

theorem any_optional (b : Bool) (e : JValue) (p : JValue → Bool) :
    (if b then [e] else []).any p = (b && p e) := by
  cases b <;> simp

theorem any_envoyEnv (m : SidecarMeta) (p : JValue → Bool) :
    (envoyEnv m).any p
      = (p (envEntry "APPMESH_VIRTUAL_NODE_NAME" (toValidUTF8 (virtualNodePath m)))
          || p (envEntry "APPMESH_PREVIEW" (toValidUTF8 m.Preview))
          || p (envEntry "ENVOY_LOG_LEVEL" (toValidUTF8 m.LogLevel))
          || ((m.EnableJaegerTracing || m.EnableDatadogTracing)
                && p (envEntry "ENVOY_STATS_CONFIG_FILE" (lit "/tmp/envoy/envoyconf.yaml")))
          || p (envEntry "AWS_ROLE_SESSION_NAME" (toValidUTF8 m.VirtualNodeName))
          || p (envEntry "AWS_REGION" (toValidUTF8 m.Region))
          || (m.InjectXraySidecar && p (envEntry "ENABLE_ENVOY_XRAY_TRACING" (lit "1")))
          || (m.EnableStatsTags && p (envEntry "ENABLE_ENVOY_STATS_TAGS" (lit "1")))
          || (m.EnableStatsD && p (envEntry "ENABLE_ENVOY_DOG_STATSD" (lit "1")))) := by
  unfold envoyEnv
  simp only [List.any_append, any_optional, List.any_cons, List.any_nil, Bool.or_false,
    Bool.or_assoc]

theorem hasEnvName_envoy (m : SidecarMeta) (name : String) :
    hasEnvName (envoyValue m) (lit name)
      = (decide (lit "APPMESH_VIRTUAL_NODE_NAME" = lit name)
          || decide (lit "APPMESH_PREVIEW" = lit name)
          || decide (lit "ENVOY_LOG_LEVEL" = lit name)
          || ((m.EnableJaegerTracing || m.EnableDatadogTracing)
                && decide (lit "ENVOY_STATS_CONFIG_FILE" = lit name))
          || decide (lit "AWS_ROLE_SESSION_NAME" = lit name)
          || decide (lit "AWS_REGION" = lit name)
          || (m.InjectXraySidecar && decide (lit "ENABLE_ENVOY_XRAY_TRACING" = lit name))
          || (m.EnableStatsTags && decide (lit "ENABLE_ENVOY_STATS_TAGS" = lit name))
          || (m.EnableStatsD && decide (lit "ENABLE_ENVOY_DOG_STATSD" = lit name))) := by
  simp only [hasEnvName, envoyValue_envEntries, any_envoyEnv, envEntry_name, Option.some.injEq]

theorem envoyEnv_optional (m : SidecarMeta) :
    hasEnvName (envoyValue m) (lit "ENVOY_STATS_CONFIG_FILE")
        = (m.EnableJaegerTracing || m.EnableDatadogTracing)
    ∧ hasEnv (envoyValue m) (lit "ENVOY_STATS_CONFIG_FILE") (lit "/tmp/envoy/envoyconf.yaml")
        = (m.EnableJaegerTracing || m.EnableDatadogTracing)
    ∧ hasEnvName (envoyValue m) (lit "ENABLE_ENVOY_XRAY_TRACING") = m.InjectXraySidecar
    ∧ hasEnv (envoyValue m) (lit "ENABLE_ENVOY_XRAY_TRACING") (lit "1") = m.InjectXraySidecar
    ∧ hasEnvName (envoyValue m) (lit "ENABLE_ENVOY_STATS_TAGS") = m.EnableStatsTags
    ∧ hasEnv (envoyValue m) (lit "ENABLE_ENVOY_STATS_TAGS") (lit "1") = m.EnableStatsTags
    ∧ hasEnvName (envoyValue m) (lit "ENABLE_ENVOY_DOG_STATSD") = m.EnableStatsD
    ∧ hasEnv (envoyValue m) (lit "ENABLE_ENVOY_DOG_STATSD") (lit "1") = m.EnableStatsD := by
  refine ⟨?_, ?_, ?_, ?_, ?_, ?_, ?_, ?_⟩
  all_goals
    first
    | (rw [hasEnvName_envoy]; simp +decide)
    | (simp only [hasEnv, envoyValue_envEntries, any_envoyEnv, envEntry_name, envEntry_value,
        Option.some.injEq]
       simp +decide)

/-- C12, amended: for a description whose string fields are JSON-safe the
rendered envoy fragment parses, and its `env` list holds
`ENVOY_STATS_CONFIG_FILE` exactly when Jaeger or Datadog tracing is on,
`ENABLE_ENVOY_XRAY_TRACING` exactly when the X-Ray daemon is injected,
`ENABLE_ENVOY_STATS_TAGS` and `ENABLE_ENVOY_DOG_STATSD` exactly with their own
toggles, each with its fixed value; the `env` list of the X-Ray fragment
holds none of the four names. -/
theorem C12_env_optional_entries (m : SidecarMeta) (hs : m.jsonSafe = true) :
    ∃ envoy xray v w,
      renderTemplate (lit "envoy") envoyContainerTemplate m = .ok envoy
      ∧ jsonParse envoy = some v
      ∧ hasEnvName v (lit "ENVOY_STATS_CONFIG_FILE")
          = (m.EnableJaegerTracing || m.EnableDatadogTracing)
      ∧ hasEnv v (lit "ENVOY_STATS_CONFIG_FILE") (lit "/tmp/envoy/envoyconf.yaml")
          = (m.EnableJaegerTracing || m.EnableDatadogTracing)
      ∧ hasEnvName v (lit "ENABLE_ENVOY_XRAY_TRACING") = m.InjectXraySidecar
      ∧ hasEnv v (lit "ENABLE_ENVOY_XRAY_TRACING") (lit "1") = m.InjectXraySidecar
      ∧ hasEnvName v (lit "ENABLE_ENVOY_STATS_TAGS") = m.EnableStatsTags
      ∧ hasEnv v (lit "ENABLE_ENVOY_STATS_TAGS") (lit "1") = m.EnableStatsTags
      ∧ hasEnvName v (lit "ENABLE_ENVOY_DOG_STATSD") = m.EnableStatsD
      ∧ hasEnv v (lit "ENABLE_ENVOY_DOG_STATSD") (lit "1") = m.EnableStatsD
      ∧ renderTemplate (lit "xray-daemon") xrayDaemonContainerTemplate m = .ok xray
      ∧ jsonParse xray = some w
      ∧ hasEnvName w (lit "ENVOY_STATS_CONFIG_FILE") = false
      ∧ hasEnvName w (lit "ENABLE_ENVOY_XRAY_TRACING") = false
      ∧ hasEnvName w (lit "ENABLE_ENVOY_STATS_TAGS") = false
      ∧ hasEnvName w (lit "ENABLE_ENVOY_DOG_STATSD") = false := by
  obtain ⟨ebody, he⟩ := renderTemplate_envoy_ok m
  obtain ⟨xbody, hx⟩ := renderTemplate_xray_ok m
  obtain ⟨h1, h2, h3, h4, h5, h6, h7, h8⟩ := envoyEnv_optional m
  exact ⟨_, _, envoyValue m, xrayValue m, he, jsonParse_of_embeds _ _ (envoy_embeds m hs _ he),
    h1, h2, h3, h4, h5, h6, h7, h8,
    hx, jsonParse_of_embeds _ _ (xray_embeds m hs _ hx), rfl, rfl, rfl, rfl⟩

set_option maxRecDepth 100000 in
/-- C12, amended, at the description of `Test_Sidecar`: its fields are
JSON-safe, all toggles are off, and none of the optional entries is there. -/
theorem C12_env_optional_entries_witness :
    sampleSidecar.jsonSafe = true
    ∧ (jsonParse (firstFragment sampleSidecar)).map
        (fun v => hasEnvName v (lit "ENABLE_ENVOY_STATS_TAGS")) = some false
    ∧ ∃ envoy v,
        renderTemplate (lit "envoy") envoyContainerTemplate sampleSidecar = .ok envoy
        ∧ jsonParse envoy = some v
        ∧ hasEnvName v (lit "ENABLE_ENVOY_STATS_TAGS") = sampleSidecar.EnableStatsTags := by
  refine ⟨rfl, rfl, ?_⟩
  obtain ⟨envoy, _, v, _, h1, h2, _, _, _, _, h3, _⟩ := C12_env_optional_entries sampleSidecar rfl
  exact ⟨envoy, v, h1, h2, h3⟩

set_option maxRecDepth 100000 in
/-- C13, as stated, fails: the image holds an escaped backslash, the template
inserts it unescaped, and the `image` of the rendered envoy fragment is
another string than `ContainerImage`. So it is for an image that is JSON-safe
but not valid UTF-8: the reader puts U+FFFD for the offending byte. -/
theorem C13_counterexample_image :
    sampleSidecarImage.ContainerImage = lit "registry\\\\envoy"
    ∧ renderSidecars sampleSidecarImage = .ok [firstFragment sampleSidecarImage]
    ∧ (jsonParse (firstFragment sampleSidecarImage)).bind (fun v => v.strField (lit "image"))
        = some (lit "registry\\envoy")
    ∧ lit "registry\\envoy" ≠ sampleSidecarImage.ContainerImage
    ∧ sampleSidecarImageBytes.jsonSafe = true
    ∧ sampleSidecarImageBytes.validUTF8 = false
    ∧ sampleSidecarImageBytes.ContainerImage = lit "img" ++ [0xFF]
    ∧ renderSidecars sampleSidecarImageBytes = .ok [firstFragment sampleSidecarImageBytes]
    ∧ (jsonParse (firstFragment sampleSidecarImageBytes)).bind
          (fun v => v.strField (lit "image"))
        = some (lit "img" ++ [0xEF, 0xBF, 0xBD])
    ∧ lit "img" ++ [0xEF, 0xBF, 0xBD] ≠ sampleSidecarImageBytes.ContainerImage :=
  ⟨rfl, rfl, rfl, by decide, rfl, rfl, rfl, rfl, rfl, by decide⟩

theorem hasEnv_envoy_of_mem (m : SidecarMeta) (name : String) (value : Str)
    (h : envEntry name value ∈ envoyEnv m) :
    hasEnv (envoyValue m) (lit name) value = true :=
  hasEnv_of_entry _ _ _ _ (by rw [envoyValue_envEntries]; exact h)
    (envEntry_name name value) (envEntry_value name value)

/-- C13, amended: for a description whose string fields are valid UTF-8 and
JSON-safe the rendered envoy fragment parses, its `image` is `ContainerImage`,
and its `env` list holds, whatever the toggles, the virtual node name, the
preview flag, the log level, the role session name and the region with their
values; the X-Ray fragment parses, its `image` is `amazon/aws-xray-daemon` and
its `env` list holds the role session name. -/
theorem C13_fixed_entries (m : SidecarMeta) (hs : m.jsonSafe = true)
    (hv : m.validUTF8 = true) :
    ∃ envoy xray v w,
      renderTemplate (lit "envoy") envoyContainerTemplate m = .ok envoy
      ∧ jsonParse envoy = some v
      ∧ v.strField (lit "image") = some m.ContainerImage
      ∧ hasEnv v (lit "APPMESH_VIRTUAL_NODE_NAME")
          (lit "mesh/" ++ m.MeshName ++ lit "/virtualNode/" ++ m.VirtualNodeName) = true
      ∧ hasEnv v (lit "APPMESH_PREVIEW") m.Preview = true
      ∧ hasEnv v (lit "ENVOY_LOG_LEVEL") m.LogLevel = true
      ∧ hasEnv v (lit "AWS_ROLE_SESSION_NAME") m.VirtualNodeName = true
      ∧ hasEnv v (lit "AWS_REGION") m.Region = true
      ∧ renderTemplate (lit "xray-daemon") xrayDaemonContainerTemplate m = .ok xray
      ∧ jsonParse xray = some w
      ∧ w.strField (lit "image") = some (lit "amazon/aws-xray-daemon")
      ∧ hasEnv w (lit "AWS_ROLE_SESSION_NAME") m.VirtualNodeName = true := by
  obtain ⟨ebody, he⟩ := renderTemplate_envoy_ok m
  obtain ⟨xbody, hx⟩ := renderTemplate_xray_ok m
  obtain ⟨v1, v2, v3, v4, v5, v6, _, _, _⟩ := validUTF8_fields m hv
  have e1 := toValidUTF8_of_valid _ v1
  have e3 := toValidUTF8_of_valid _ v3
  have e4 := toValidUTF8_of_valid _ v4
  have e5 := toValidUTF8_of_valid _ v5
  have e6 := toValidUTF8_of_valid _ v6
  have ep := toValidUTF8_virtualNodePath m v2 v3
  refine ⟨_, _, envoyValue m, xrayValue m, he, jsonParse_of_embeds _ _ (envoy_embeds m hs _ he),
    ?_, ?_, ?_, ?_, ?_, ?_,
    hx, jsonParse_of_embeds _ _ (xray_embeds m hs _ hx), rfl, ?_⟩
  · have : (envoyValue m).strField (lit "image") = some (toValidUTF8 m.ContainerImage) := rfl
    rw [this, e1]
  · exact hasEnv_envoy_of_mem m _ _ (by simp [envoyEnv, ep])
  · exact hasEnv_envoy_of_mem m _ _ (by simp [envoyEnv, e4])
  · exact hasEnv_envoy_of_mem m _ _ (by simp [envoyEnv, e5])
  · exact hasEnv_envoy_of_mem m _ _ (by simp [envoyEnv, e3])
  · exact hasEnv_envoy_of_mem m _ _ (by simp [envoyEnv, e6])
  · exact hasEnv_of_entry _ _ _ (envEntry "AWS_ROLE_SESSION_NAME" m.VirtualNodeName)
      (by rw [xrayValue_envEntries, e3]; simp) (envEntry_name _ _) (envEntry_value _ _)

set_option maxRecDepth 100000 in
/-- C13, amended, at the description of `Test_Sidecar`. -/
theorem C13_fixed_entries_witness :
    sampleSidecar.jsonSafe = true
    ∧ sampleSidecar.validUTF8 = true
    ∧ ∃ envoy v,
        renderTemplate (lit "envoy") envoyContainerTemplate sampleSidecar = .ok envoy
        ∧ jsonParse envoy = some v
        ∧ v.strField (lit "image") = some sampleSidecar.ContainerImage
        ∧ hasEnv v (lit "APPMESH_VIRTUAL_NODE_NAME") (lit "mesh/global/virtualNode/podinfo") = true := by
  refine ⟨rfl, rfl, ?_⟩
  obtain ⟨envoy, _, v, _, h1, h2, h3, h4, _⟩ := C13_fixed_entries sampleSidecar rfl rfl
  exact ⟨envoy, v, h1, h2, h3, h4⟩

set_option maxRecDepth 100000 in
/-- C14, as stated, fails: a service-account mount is provided, tracing is
off, and the `volumeMounts` array of the rendered envoy fragment holds two
objects, the second written there by the mount path, which the template
inserts unescaped. And for a mount path that is JSON-safe but not valid UTF-8
the one mount object holds another path than the one provided: the reader
puts U+FFFD for the offending byte. -/
theorem C14_counterexample_mount_path :
    sampleSidecarMount.EnableJaegerTracing = false
    ∧ sampleSidecarMount.EnableDatadogTracing = false
    ∧ sampleSidecarMount.ServiceAccountVolumeMount.isSome = true
    ∧ renderSidecars sampleSidecarMount = .ok [firstFragment sampleSidecarMount]
    ∧ (jsonParse (firstFragment sampleSidecarMount)).map (fun v => v.mounts.length) = some 2
    ∧ sampleSidecarMountBytes.jsonSafe = true
    ∧ sampleSidecarMountBytes.validUTF8 = false
    ∧ sampleSidecarMountBytes.ServiceAccountVolumeMount
        = some ⟨lit "pod-sa", lit "/var/run" ++ [0xFF], true⟩
    ∧ renderSidecars sampleSidecarMountBytes = .ok [firstFragment sampleSidecarMountBytes]
    ∧ (jsonParse (firstFragment sampleSidecarMountBytes)).map (fun v => v.mounts)
        = some [.obj [(lit "mountPath", .str (lit "/var/run" ++ [0xEF, 0xBF, 0xBD])),
                      (lit "name", .str (lit "pod-sa")), (lit "readOnly", .bool true)]] :=
  ⟨rfl, rfl, rfl, rfl, rfl, rfl, rfl, rfl, rfl, rfl⟩

/-- C14, amended: for a description whose string fields are valid UTF-8 and
JSON-safe the rendered envoy fragment parses (so its arrays have one comma
between items and none elsewhere) and its `volumeMounts` array is, in each of
the four combinations: empty; the service-account mount alone; the fixed
tracing-config mount alone; the service-account mount followed by the
tracing-config mount. -/
theorem C14_volume_mounts (m : SidecarMeta) (hs : m.jsonSafe = true)
    (hv : m.validUTF8 = true) :
    ∃ envoy v,
      renderTemplate (lit "envoy") envoyContainerTemplate m = .ok envoy
      ∧ jsonParse envoy = some v
      ∧ v.field (lit "volumeMounts") = some (.arr v.mounts)
      ∧ (m.ServiceAccountVolumeMount = none →
          (m.EnableJaegerTracing || m.EnableDatadogTracing) = false → v.mounts = [])
      ∧ (∀ vm, m.ServiceAccountVolumeMount = some vm →
          (m.EnableJaegerTracing || m.EnableDatadogTracing) = false →
          v.mounts = [.obj [(lit "mountPath", .str vm.MountPath), (lit "name", .str vm.Name),
                            (lit "readOnly", .bool vm.ReadOnly)]])
      ∧ (m.ServiceAccountVolumeMount = none →
          (m.EnableJaegerTracing || m.EnableDatadogTracing) = true →
          v.mounts = [.obj [(lit "mountPath", .str (lit "/tmp/envoy")),
                            (lit "name", .str (lit "envoy-tracing-config"))]])
      ∧ (∀ vm, m.ServiceAccountVolumeMount = some vm →
          (m.EnableJaegerTracing || m.EnableDatadogTracing) = true →
          v.mounts = [.obj [(lit "mountPath", .str vm.MountPath), (lit "name", .str vm.Name),
                            (lit "readOnly", .bool vm.ReadOnly)],
                      .obj [(lit "mountPath", .str (lit "/tmp/envoy")),
                            (lit "name", .str (lit "envoy-tracing-config"))]]) := by
  obtain ⟨ebody, he⟩ := renderTemplate_envoy_ok m
  obtain ⟨_, _, _, _, _, _, _, _, v9⟩ := validUTF8_fields m hv
  have hm : (envoyValue m).mounts = envoyMounts m := rfl
  have hmv : ∀ vm, m.ServiceAccountVolumeMount = some vm →
      mountValue vm = .obj [(lit "mountPath", .str vm.MountPath), (lit "name", .str vm.Name),
        (lit "readOnly", .bool vm.ReadOnly)] := by
    intro vm h
    obtain ⟨vp, vn⟩ := v9 vm h
    rw [mountValue, toValidUTF8_of_valid _ vp, toValidUTF8_of_valid _ vn]
  refine ⟨_, envoyValue m, he, jsonParse_of_embeds _ _ (envoy_embeds m hs _ he), rfl,
    ?_, ?_, ?_, ?_⟩
  · intro h1 h2
    rw [hm, envoyMounts, h1, h2]; rfl
  · intro vm h1 h2
    rw [hm, envoyMounts, h1, h2, ← hmv vm h1]; rfl
  · intro h1 h2
    rw [hm, envoyMounts, h1, h2]; rfl
  · intro vm h1 h2
    rw [hm, envoyMounts, h1, h2, ← hmv vm h1]; rfl

set_option maxRecDepth 100000 in
/-- C14, amended, at a description with a service-account mount and Jaeger
tracing: two mounts, the service-account one first. -/
theorem C14_volume_mounts_witness :
    sampleSidecarBoth.jsonSafe = true
    ∧ sampleSidecarBoth.validUTF8 = true
    ∧ ∃ envoy v,
        renderTemplate (lit "envoy") envoyContainerTemplate sampleSidecarBoth = .ok envoy
        ∧ jsonParse envoy = some v
        ∧ v.mounts = [.obj [(lit "mountPath", .str (lit "/var/run/secrets")),
                            (lit "name", .str (lit "pod-sa")), (lit "readOnly", .bool true)],
                      .obj [(lit "mountPath", .str (lit "/tmp/envoy")),
                            (lit "name", .str (lit "envoy-tracing-config"))]] := by
  refine ⟨rfl, rfl, ?_⟩
  obtain ⟨envoy, v, h1, h2, _, _, _, _, h3⟩ := C14_volume_mounts sampleSidecarBoth rfl rfl
  exact ⟨envoy, v, h1, h2, h3 _ rfl rfl⟩

set_option maxRecDepth 100000 in
/-- C16, as stated, fails: the image is a double quote, the template inserts
it unescaped, and the rendered envoy fragment does not parse as JSON. -/
theorem C16_counterexample_quote :
    renderSidecars sampleSidecarQuote = .ok [firstFragment sampleSidecarQuote]
    ∧ (jsonParse (firstFragment sampleSidecarQuote)).isNone = true :=
  ⟨rfl, rfl⟩

/-- C16, amended: for a description whose string fields are JSON-safe every
fragment `renderSidecars` returns parses as a JSON object; the `name` of the
first is `envoy` and the `name` of the second, when there is one, is
`xray-daemon`. -/
theorem C16_fragments_are_json (m : SidecarMeta) (hs : m.jsonSafe = true) :
    ∃ envoy xray v w,
      renderSidecars m = .ok (if m.InjectXraySidecar then [envoy, xray] else [envoy])
      ∧ jsonParse envoy = some v ∧ v.isObj = true
      ∧ v.strField (lit "name") = some (lit "envoy")
      ∧ jsonParse xray = some w ∧ w.isObj = true
      ∧ w.strField (lit "name") = some (lit "xray-daemon")
      ∧ ∃ sidecars, renderSidecars m = .ok sidecars
          ∧ ∀ f ∈ sidecars, ∃ u, jsonParse f = some u ∧ u.isObj = true
              ∧ (u.strField (lit "name") = some (lit "envoy")
                  ∨ u.strField (lit "name") = some (lit "xray-daemon")) := by
  obtain ⟨ebody, he⟩ := renderTemplate_envoy_ok m
  obtain ⟨xbody, hx⟩ := renderTemplate_xray_ok m
  have hr := renderSidecars_eq m _ _ he hx
  have hev := jsonParse_of_embeds _ _ (envoy_embeds m hs _ he)
  have hxv := jsonParse_of_embeds _ _ (xray_embeds m hs _ hx)
  refine ⟨_, _, envoyValue m, xrayValue m, hr, hev, rfl, rfl, hxv, rfl, rfl, _, hr, ?_⟩
  intro f hf
  cases hb : m.InjectXraySidecar <;> rw [hb] at hf <;> simp at hf
  · subst hf
    exact ⟨_, hev, rfl, Or.inl rfl⟩
  · rcases hf with rfl | rfl
    · exact ⟨_, hev, rfl, Or.inl rfl⟩
    · exact ⟨_, hxv, rfl, Or.inr rfl⟩

set_option maxRecDepth 100000 in
/-- C16, amended, at the description of `Test_Sidecar`. -/
theorem C16_fragments_are_json_witness :
    sampleSidecar.jsonSafe = true
    ∧ ∃ sidecars, renderSidecars sampleSidecar = .ok sidecars
        ∧ ∀ f ∈ sidecars, ∃ u, jsonParse f = some u ∧ u.isObj = true
            ∧ (u.strField (lit "name") = some (lit "envoy")
                ∨ u.strField (lit "name") = some (lit "xray-daemon")) := by
  refine ⟨rfl, ?_⟩
  obtain ⟨_, _, _, _, _, _, _, _, _, _, _, h⟩ := C16_fragments_are_json sampleSidecar rfl
  exact h

/-! ## The patch document read as JSON -/

theorem run_singleton (c : Byte) (st : PState) : run [c] st = step st c := by
  simp only [run]
  cases step st c <;> rfl

/-- The items of an array, each embedding, separated by commas. -/
theorem run_join (fs : List Str) (vals : List JValue) (h : List.Forall₂ Embeds fs vals)
    (hne : fs ≠ []) (b : Bool) (items : List JValue) (rest : List Frame) (root : Option JValue) :
    run (Join fs (lit ",")) ⟨.value b, .arr items :: rest, root⟩
      = some ⟨.after, .arr (items ++ vals) :: rest, root⟩ := by
  induction h generalizing b items with
  | nil => exact absurd rfl hne
  | @cons f v fs' vals' hf hrest ih =>
    cases hrest with
    | nil =>
      simp only [Join]
      rw [hf b (.arr items :: rest) root]
      rfl
    | @cons f2 v2 fs2 vals2 hf2 hrest2 =>
      have ih' := ih (by simp) false (items ++ [v])
      simp only [Join]
      have h1 : run f ⟨.value b, .arr items :: rest, root⟩
          = some ⟨.after, .arr (items ++ [v]) :: rest, root⟩ := by
        rw [hf b (.arr items :: rest) root]
        rfl
      have h2 : run (lit ",") ⟨.after, .arr (items ++ [v]) :: rest, root⟩
          = some ⟨.value false, .arr (items ++ [v]) :: rest, root⟩ := rfl
      rw [run_append_of_eq _ _ _ _ _ (run_append_of_eq _ _ _ _ _ h1 h2) ih']
      simp

/-- An array of embedding items embeds. -/
theorem embeds_array (fs : List Str) (vals : List JValue) (h : List.Forall₂ Embeds fs vals) :
    Embeds (lit "[" ++ Join fs (lit ",") ++ lit "]") (.arr vals) := by
  intro b stack root
  cases h with
  | nil => rfl
  | @cons f v fs' vals' hf hrest =>
    refine run_append_of_eq _ _ _ _ _ (run_append_of_eq _ _ _ _ _ ?_
      (run_join _ _ (List.Forall₂.cons hf hrest) (by simp) true [] stack root)) ?_
    · rfl
    · rfl

/-- An object text made of a fixed beginning that ends where a member value
starts, an embedding value, and a fixed end that closes the object. -/
theorem embeds_wrap (pre v post : Str) (val : JValue) (fs : List (Str × JValue)) (key : Str)
    (hpre : ∀ b stack root, run pre ⟨.value b, stack, root⟩
      = some ⟨.value false, .obj fs (some key) :: stack, root⟩)
    (hv : Embeds v val)
    (hpost : ∀ stack root, run post ⟨.after, .obj (fs ++ [(key, val)]) none :: stack, root⟩
      = some (deliver (.obj (fs ++ [(key, val)])) stack root)) :
    Embeds (pre ++ v ++ post) (.obj (fs ++ [(key, val)])) := by
  intro b stack root
  refine run_append_of_eq _ _ _ _ _ (run_append_of_eq _ _ _ _ _ (hpre b stack root) ?_)
    (hpost stack root)
  rw [hv false _ root]
  rfl

theorem isPatchOp_opValue (a b : Str) (c : JValue) : isPatchOp (opValue a b c) = true := rfl

theorem strField_path_opValue (op path : Str) (v : JValue) :
    (opValue op path v).strField (lit "path") = some path := rfl

theorem strField_op_opValue (op path : Str) (v : JValue) :
    (opValue op path v).strField (lit "op") = some op := rfl

theorem field_value_opValue (op path : Str) (v : JValue) :
    (opValue op path v).field (lit "value") = some v := rfl

/-- An append operation on one of the four targets, around an embedding value. -/
theorem add_embeds (target : String)
    (ht : target = "initContainers" ∨ target = "containers"
      ∨ target = "imagePullSecrets" ∨ target = "volumes")
    (v : Str) (val : JValue) (hval : Embeds v val) :
    Embeds (add (lit target) v) (opValue (lit "add") (lit "/spec/" ++ lit target ++ lit "/-") val) := by
  rcases ht with rfl | rfl | rfl | rfl
  · have e : add (lit "initContainers") v
        = lit "\x7b\"op\":\"add\",\"path\":\"/spec/initContainers/-\", \"value\": " ++ v
            ++ lit "\x7d" := rfl
    rw [e]
    refine embeds_wrap _ _ _ val
      [(lit "op", .str (lit "add")), (lit "path", .str _)] (lit "value") ?_ hval ?_
    · exact fun _ _ _ => rfl
    · exact fun _ _ => rfl
  · have e : add (lit "containers") v
        = lit "\x7b\"op\":\"add\",\"path\":\"/spec/containers/-\", \"value\": " ++ v
            ++ lit "\x7d" := rfl
    rw [e]
    refine embeds_wrap _ _ _ val
      [(lit "op", .str (lit "add")), (lit "path", .str _)] (lit "value") ?_ hval ?_
    · exact fun _ _ _ => rfl
    · exact fun _ _ => rfl
  · have e : add (lit "imagePullSecrets") v
        = lit "\x7b\"op\":\"add\",\"path\":\"/spec/imagePullSecrets/-\", \"value\": " ++ v
            ++ lit "\x7d" := rfl
    rw [e]
    refine embeds_wrap _ _ _ val
      [(lit "op", .str (lit "add")), (lit "path", .str _)] (lit "value") ?_ hval ?_
    · exact fun _ _ _ => rfl
    · exact fun _ _ => rfl
  · have e : add (lit "volumes") v
        = lit "\x7b\"op\":\"add\",\"path\":\"/spec/volumes/-\", \"value\": " ++ v
            ++ lit "\x7d" := rfl
    rw [e]
    refine embeds_wrap _ _ _ val
      [(lit "op", .str (lit "add")), (lit "path", .str _)] (lit "value") ?_ hval ?_
    · exact fun _ _ _ => rfl
    · exact fun _ _ => rfl

/-- A create operation on one of the three targets, around embedding items. -/
theorem create_embeds (target : String)
    (ht : target = "initContainers" ∨ target = "containers" ∨ target = "imagePullSecrets")
    (fs : List Str) (vals : List JValue) (hvals : List.Forall₂ Embeds fs vals) :
    Embeds (create (lit target) (Join fs (lit ",")))
      (opValue (lit "add") (lit "/spec/" ++ lit target) (.arr vals)) := by
  have harr := embeds_array fs vals hvals
  rcases ht with rfl | rfl | rfl
  · have e : create (lit "initContainers") (Join fs (lit ","))
        = lit "\x7b\"op\":\"add\",\"path\":\"/spec/initContainers\", \"value\": "
            ++ (lit "[" ++ Join fs (lit ",") ++ lit "]") ++ lit "\x7d" := by
      simp only [create, List.append_assoc]
      rfl
    rw [e]
    refine embeds_wrap _ _ _ _
      [(lit "op", .str (lit "add")), (lit "path", .str _)] (lit "value") ?_ harr ?_
    · exact fun _ _ _ => rfl
    · exact fun _ _ => rfl
  · have e : create (lit "containers") (Join fs (lit ","))
        = lit "\x7b\"op\":\"add\",\"path\":\"/spec/containers\", \"value\": "
            ++ (lit "[" ++ Join fs (lit ",") ++ lit "]") ++ lit "\x7d" := by
      simp only [create, List.append_assoc]
      rfl
    rw [e]
    refine embeds_wrap _ _ _ _
      [(lit "op", .str (lit "add")), (lit "path", .str _)] (lit "value") ?_ harr ?_
    · exact fun _ _ _ => rfl
    · exact fun _ _ => rfl
  · have e : create (lit "imagePullSecrets") (Join fs (lit ","))
        = lit "\x7b\"op\":\"add\",\"path\":\"/spec/imagePullSecrets\", \"value\": "
            ++ (lit "[" ++ Join fs (lit ",") ++ lit "]") ++ lit "\x7d" := by
      simp only [create, List.append_assoc]
      rfl
    rw [e]
    refine embeds_wrap _ _ _ _
      [(lit "op", .str (lit "add")), (lit "path", .str _)] (lit "value") ?_ harr ?_
    · exact fun _ _ _ => rfl
    · exact fun _ _ => rfl

theorem ecrSecret_embeds : Embeds ecrSecret secretValue :=
  fun _ _ _ => rfl

/-- A per-key annotation operation with JSON-safe key and value. -/
theorem updateAnnotation_embeds (op : String) (key value : Str)
    (hop : op = "add" ∨ op = "replace")
    (hk : jsonSafe key = true) (hv : jsonSafe value = true) :
    Embeds ( updateAnnotation (lit op) key value)
      (opValue (lit op) (lit "/metadata/annotations/" ++ toValidUTF8 key)
        (.str (toValidUTF8 value))) := by
  have e : updateAnnotation (lit op) key value
      = flatten [.text (lit "\x7b\"op\":\""), .text (lit op),
          .text (lit "\",\"path\":\"/metadata/annotations/"), .hole key,
          .text (lit "\",\"value\":\""), .hole value, .text (lit "\"\x7d")] := by
    simp [ updateAnnotation, flatten, Piece.chars, List.append_assoc]
  rw [e]
  rcases hop with rfl | rfl
  · exact fun b stack root => runPieces_sound _ _ _ ⟨hk, hv, trivial⟩ rfl
  · exact fun b stack root => runPieces_sound _ _ _ ⟨hk, hv, trivial⟩ rfl

theorem forall₂_of_isJsonText (fs : List Str) (h : ∀ f ∈ fs, IsJsonText f) :
    ∃ vals, List.Forall₂ Embeds fs vals := by
  induction fs with
  | nil => exact ⟨[], List.Forall₂.nil⟩
  | cons f fs ih =>
    obtain ⟨v, hv⟩ := h f (by simp)
    obtain ⟨vals, hvals⟩ := ih (fun g hg => h g (by simp [hg]))
    exact ⟨v :: vals, List.Forall₂.cons hv hvals⟩

theorem jsonSafe_append (a b : Str) (ha : jsonSafe a = true) (hb : jsonSafe b = true) :
    jsonSafe (a ++ b) = true := by
  simp only [jsonSafe, List.all_append, Bool.and_eq_true] at *
  exact ⟨ha, hb⟩

theorem jsonSafe_escapeJSONPointer (key : Str) (h : jsonSafe key = true) :
    jsonSafe (escapeJSONPointer key) = true := by
  induction key with
  | nil => rfl
  | cons c s ih =>
    simp only [jsonSafe, List.all_cons, Bool.and_eq_true] at h
    rw [escapeJSONPointer_cons]
    refine jsonSafe_append _ _ ?_ (ih (by simpa [jsonSafe] using h.2))
    unfold escapeChar
    by_cases h1 : c = ch '~'
    · rw [if_pos h1]; rfl
    · by_cases h2 : c = ch '/'
      · rw [if_neg h1, if_pos h2]; rfl
      · rw [if_neg h1, if_neg h2]
        simp [jsonSafe, h.1]

/-- A document of operation texts parses as the array of their values. -/
theorem document_parses (ps : List Str) (h : ∀ p ∈ ps, IsPatchOpText p) :
    ∃ items, jsonParse (lit "[" ++ Join ps (lit ",") ++ lit "]") = some (.arr items)
      ∧ items.length = ps.length ∧ ∀ e ∈ items, isPatchOp e = true := by
  have : ∃ vals, List.Forall₂ Embeds ps vals ∧ ∀ e ∈ vals, isPatchOp e = true := by
    induction ps with
    | nil => exact ⟨[], List.Forall₂.nil, by simp⟩
    | cons p ps ih =>
      obtain ⟨e, he, hp⟩ := h p (by simp)
      obtain ⟨vals, hvals, hall⟩ := ih (fun q hq => h q (by simp [hq]))
      refine ⟨e :: vals, List.Forall₂.cons he hvals, ?_⟩
      intro x hx
      rcases List.mem_cons.mp hx with rfl | hx
      · exact hp
      · exact hall x hx
  obtain ⟨vals, hvals, hall⟩ := this
  exact ⟨vals, jsonParse_of_embeds _ _ (embeds_array ps vals hvals), hvals.length_eq.symm, hall⟩

/-- An append operation on one of the four targets reads as a patch operation. -/
theorem add_isPatchOpText (target : String)
    (ht : target = "initContainers" ∨ target = "containers"
      ∨ target = "imagePullSecrets" ∨ target = "volumes")
    (v : Str) (hv : IsJsonText v) : IsPatchOpText (add (lit target) v) := by
  obtain ⟨val, hval⟩ := hv
  exact ⟨_, add_embeds target ht v val hval, isPatchOp_opValue _ _ _⟩

/-- A create operation on one of the three targets reads as a patch operation. -/
theorem create_isPatchOpText (target : String)
    (ht : target = "initContainers" ∨ target = "containers" ∨ target = "imagePullSecrets")
    (fs : List Str) (hfs : ∀ f ∈ fs, IsJsonText f) :
    IsPatchOpText (create (lit target) (Join fs (lit ","))) := by
  obtain ⟨vals, hvals⟩ := forall₂_of_isJsonText fs hfs
  exact ⟨_, create_embeds target ht fs vals hvals, isPatchOp_opValue _ _ _⟩

theorem ecrSecret_isJsonText : IsJsonText ecrSecret :=
  ⟨_, ecrSecret_embeds⟩

/-- A per-key annotation operation with JSON-safe key and value reads as a
patch operation. -/
theorem updateAnnotation_isPatchOpText (op key value : Str)
    (hop : op = lit "add" ∨ op = lit "replace")
    (hk : jsonSafe key = true) (hv : jsonSafe value = true) :
    IsPatchOpText ( updateAnnotation op key value) := by
  rcases hop with rfl | rfl
  · exact ⟨_, updateAnnotation_embeds "add" key value (Or.inl rfl) hk hv, isPatchOp_opValue _ _ _⟩
  · exact ⟨_, updateAnnotation_embeds "replace" key value (Or.inr rfl) hk hv,
      isPatchOp_opValue _ _ _⟩
theorem forall₂_append {α β : Type} (R : α → β → Prop) (a1 a2 : List α) (b1 b2 : List β)
    (h1 : List.Forall₂ R a1 b1) (h2 : List.Forall₂ R a2 b2) :
    List.Forall₂ R (a1 ++ a2) (b1 ++ b2) := by
  induction h1 with
  | nil => exact h2
  | cons h _ ih => exact List.Forall₂.cons h ih

theorem forall₂_map {α β γ : Type} (R : α → β → Prop) (f : γ → α) (g : γ → β) (l : List γ)
    (h : ∀ x ∈ l, R (f x) (g x)) : List.Forall₂ R (l.map f) (l.map g) := by
  induction l with
  | nil => exact List.Forall₂.nil
  | cons x l ih =>
    exact List.Forall₂.cons (h x (by simp)) (ih (fun y hy => h y (by simp [hy])))

theorem forall₂_map_both {α β γ δ : Type} (R : α → β → Prop) (S : γ → δ → Prop)
    (f : α → γ) (g : β → δ) (a : List α) (b : List β)
    (h : List.Forall₂ R a b) (hfg : ∀ x y, R x y → S (f x) (g y)) :
    List.Forall₂ S (a.map f) (b.map g) := by
  induction h with
  | nil => exact List.Forall₂.nil
  | cons hxy _ ih => exact List.Forall₂.cons (hfg _ _ hxy) ih

/-- The fragments `renderSidecars` returns for a description with JSON-safe
fields read as `sidecarValues`. -/
theorem sidecars_embed (s : SidecarMeta) (hs : s.jsonSafe = true) (sidecars : List Str)
    (h : renderSidecars s = .ok sidecars) : List.Forall₂ Embeds sidecars (sidecarValues s) := by
  obtain ⟨ebody, he⟩ := renderTemplate_envoy_ok s
  obtain ⟨xbody, hx⟩ := renderTemplate_xray_ok s
  have hr := renderSidecars_eq s _ _ he hx
  rw [h] at hr
  simp only [Except.ok.injEq] at hr
  subst hr
  have h1 := envoy_embeds s hs _ he
  have h2 := xray_embeds s hs _ hx
  unfold sidecarValues
  cases s.InjectXraySidecar
  · exact List.Forall₂.cons h1 List.Forall₂.nil
  · exact List.Forall₂.cons h1 (List.Forall₂.cons h2 List.Forall₂.nil)

theorem containersOps_embed {ρ : Type} (m : Meta ρ) (hs : m.Sidecar.jsonSafe = true)
    (sidecars : List Str) (h : renderSidecars m.Sidecar = .ok sidecars) :
    List.Forall₂ Embeds (containersOps m sidecars) (containersValues m) := by
  have hsc := sidecars_embed m.Sidecar hs sidecars h
  unfold containersOps containersValues
  cases m.AppendSidecar
  · exact List.Forall₂.cons (create_embeds "containers" (Or.inr (Or.inl rfl)) _ _ hsc)
      List.Forall₂.nil
  · exact forall₂_map_both Embeds Embeds _ _ _ _ hsc
      (fun x y hxy => add_embeds "containers" (Or.inr (Or.inl rfl)) x y hxy)

theorem pullSecretOps_embed {ρ : Type} (m : Meta ρ) :
    List.Forall₂ Embeds (pullSecretOps m) (pullSecretValues m) := by
  unfold pullSecretOps pullSecretValues
  cases m.HasImagePullSecret
  · exact List.Forall₂.nil
  · cases m.AppendImagePullSecret
    · exact List.Forall₂.cons
        (create_embeds "imagePullSecrets" (Or.inr (Or.inr rfl)) [ecrSecret] [secretValue]
          (List.Forall₂.cons ecrSecret_embeds List.Forall₂.nil)) List.Forall₂.nil
    · exact List.Forall₂.cons
        (add_embeds "imagePullSecrets" (Or.inr (Or.inr (Or.inl rfl))) _ _ ecrSecret_embeds)
        List.Forall₂.nil

theorem cni_map_present {ρ : Type} (env : Env ρ) (m : Meta ρ)
    (h : appmeshCNIEnabled env m = true) : ∃ es, m.PodAnnotations = some es := by
  unfold appmeshCNIEnabled mapIndex at h
  cases hp : m.PodAnnotations with
  | none => rw [hp] at h; simp at h
  | some es => exact ⟨es, rfl⟩

theorem initStep_embed {ρ : Type} (env : Env ρ) (m : Meta ρ) (pre : List Str)
    (h1 : initStep env m = .ok pre) (hj : JsonRequest env m) :
    ∃ vs, List.Forall₂ Embeds pre vs ∧ InitValues env m vs := by
  obtain ⟨_, hann, hinit, _, _⟩ := hj
  unfold initStep at h1
  cases hc : appmeshCNIEnabled env m with
  | true =>
    rw [hc, if_pos rfl] at h1
    cases h1
    obtain ⟨es, hes⟩ := cni_map_present env m hc
    refine ⟨_, ?_, Or.inl ⟨hc, es, hes, rfl⟩⟩
    unfold appMeshCNIAnnotationsPatch
    rw [hes, annotationsPatches_some]
    apply forall₂_map
    intro kv hkv
    have hmem : kv ∈ newAnnotations env m :=
      (env.range.visit_perm (newAnnotations env m)).mem_iff.mp hkv
    obtain ⟨hk, hv⟩ := hann hc kv hmem
    unfold annotationValue
    by_cases hq : (mapIndex (some es) kv.1).1 ≠ []
    · simp only [if_pos hq]
      exact updateAnnotation_embeds "replace" _ _ (Or.inr rfl) (jsonSafe_escapeJSONPointer _ hk) hv
    · simp only [if_neg hq]
      exact updateAnnotation_embeds "add" _ _ (Or.inl rfl) (jsonSafe_escapeJSONPointer _ hk) hv
  | false =>
    rw [hc] at h1
    cases hri : env.renderInit m.Init with
    | error e => rw [hri] at h1; cases h1
    | ok x =>
      rw [hri] at h1
      simp only [Bool.false_eq_true, if_false, Except.ok.injEq] at h1
      subst h1
      obtain ⟨v, hv⟩ := hinit hc x hri
      refine ⟨_, ?_, Or.inr ⟨hc, x, v, hri, hv, rfl⟩⟩
      cases m.AppendInit
      · exact List.Forall₂.cons
          (create_embeds "initContainers" (Or.inl rfl) [x] [v]
            (List.Forall₂.cons hv List.Forall₂.nil)) List.Forall₂.nil
      · exact List.Forall₂.cons (add_embeds "initContainers" (Or.inl rfl) x v hv) List.Forall₂.nil

theorem tracing_embed (enabled : Bool) (volume : Str) (init : Except GoError Str) (d : List Str)
    (h : (if enabled then
            match init with
            | .error err => .error err
            | .ok x => .ok [add (lit "volumes") volume, add (lit "initContainers") x]
          else .ok []) = (.ok d : Except GoError (List Str)))
    (hj : enabled = true → IsJsonText volume ∧ ∀ x, init = .ok x → IsJsonText x) :
    ∃ vs, List.Forall₂ Embeds d vs ∧ TracingValues enabled volume init vs := by
  cases enabled with
  | false =>
    simp only [Bool.false_eq_true, if_false, Except.ok.injEq] at h
    subst h
    exact ⟨[], List.Forall₂.nil, Or.inl ⟨rfl, rfl⟩⟩
  | true =>
    obtain ⟨⟨w, hw⟩, hx⟩ := hj rfl
    cases init with
    | error e => simp at h
    | ok x =>
      simp only [if_true, Except.ok.injEq] at h
      subst h
      obtain ⟨v, hv⟩ := hx x rfl
      exact ⟨_, List.Forall₂.cons
          (add_embeds "volumes" (Or.inr (Or.inr (Or.inr rfl))) _ w hw)
          (List.Forall₂.cons (add_embeds "initContainers" (Or.inl rfl) x v hv) List.Forall₂.nil),
        Or.inr ⟨rfl, x, v, w, rfl, hw, hv, rfl⟩⟩

/-- The document of a successful composition on a request that is read as
JSON: it parses as the array of the values of its operations, in order: those
of step 1, of the containers, of the image pull secret and of the two tracers;
every operation text reads as its value. -/
theorem document_reads {ρ : Type} (env : Env ρ) (m : Meta ρ) (ps : List Str)
    (h : composePatches env m = .ok ps) (hj : JsonRequest env m) :
    ∃ initV ddV jgV,
      InitValues env m initV
      ∧ TracingValues m.Sidecar.EnableDatadogTracing env.renderDatadogConfigVolume
          (env.renderDatadogInitContainer m.Sidecar.DatadogAddress m.Sidecar.DatadogPort) ddV
      ∧ TracingValues m.Sidecar.EnableJaegerTracing env.renderJaegerConfigVolume
          (env.renderJaegerInitContainer m.Sidecar.JaegerAddress m.Sidecar.JaegerPort) jgV
      ∧ List.Forall₂ Embeds ps
          (initV ++ containersValues m ++ pullSecretValues m ++ ddV ++ jgV)
      ∧ jsonParse (GeneratePatch env m).1
          = some (.arr (initV ++ containersValues m ++ pullSecretValues m ++ ddV ++ jgV))
      ∧ docOps (GeneratePatch env m).1
          = some (initV ++ containersValues m ++ pullSecretValues m ++ ddV ++ jgV) := by
  have hG := GeneratePatch_of_ok env m ps h
  obtain ⟨pre, sidecars, d, j, h1, h2, h3, h4, rfl⟩ := composePatches_ok env m ps h
  obtain ⟨initV, hi1, hi2⟩ := initStep_embed env m pre h1 hj
  obtain ⟨hs, _, _, hdd, hjg⟩ := hj
  obtain ⟨ddV, hd1, hd2⟩ := tracing_embed _ _ _ d h3 hdd
  obtain ⟨jgV, hj1, hj2⟩ := tracing_embed _ _ _ j h4 hjg
  have hall : List.Forall₂ Embeds
      (pre ++ containersOps m sidecars ++ pullSecretOps m ++ d ++ j)
      (initV ++ containersValues m ++ pullSecretValues m ++ ddV ++ jgV) :=
    forall₂_append _ _ _ _ _ (forall₂_append _ _ _ _ _ (forall₂_append _ _ _ _ _
      (forall₂_append _ _ _ _ _ hi1 (containersOps_embed m hs sidecars h2))
      (pullSecretOps_embed m)) hd1) hj1
  have hp : jsonParse (GeneratePatch env m).1
      = some (.arr (initV ++ containersValues m ++ pullSecretValues m ++ ddV ++ jgV)) := by
    rw [hG]
    exact jsonParse_of_embeds _ _ (embeds_array _ _ hall)
  refine ⟨initV, ddV, jgV, hi2, hd2, hj2, hall, hp, ?_⟩
  unfold docOps
  rw [hp]

/-- The document of a successful composition on a request that is read as
JSON, step by step: the operations of each step read as the values of that
step, and the document parses as the array of all of them in order. -/
theorem document_reads_steps {ρ : Type} (env : Env ρ) (m : Meta ρ) (ps : List Str)
    (h : composePatches env m = .ok ps) (hj : JsonRequest env m) :
    ∃ first sidecars d j initV ddV jgV,
      initStep env m = .ok first ∧ renderSidecars m.Sidecar = .ok sidecars
      ∧ datadogStep env m = .ok d ∧ jaegerStep env m = .ok j
      ∧ ps = first ++ containersOps m sidecars ++ pullSecretOps m ++ d ++ j
      ∧ InitValues env m initV
      ∧ TracingValues m.Sidecar.EnableDatadogTracing env.renderDatadogConfigVolume
          (env.renderDatadogInitContainer m.Sidecar.DatadogAddress m.Sidecar.DatadogPort) ddV
      ∧ TracingValues m.Sidecar.EnableJaegerTracing env.renderJaegerConfigVolume
          (env.renderJaegerInitContainer m.Sidecar.JaegerAddress m.Sidecar.JaegerPort) jgV
      ∧ List.Forall₂ Embeds first initV
      ∧ List.Forall₂ Embeds (containersOps m sidecars) (containersValues m)
      ∧ List.Forall₂ Embeds (pullSecretOps m) (pullSecretValues m)
      ∧ List.Forall₂ Embeds d ddV
      ∧ List.Forall₂ Embeds j jgV
      ∧ docOps (GeneratePatch env m).1
          = some (initV ++ containersValues m ++ pullSecretValues m ++ ddV ++ jgV) := by
  have hG := GeneratePatch_of_ok env m ps h
  obtain ⟨pre, sidecars, d, j, h1, h2, h3, h4, rfl⟩ := composePatches_ok env m ps h
  obtain ⟨initV, hi1, hi2⟩ := initStep_embed env m pre h1 hj
  obtain ⟨hs, _, _, hdd, hjg⟩ := hj
  obtain ⟨ddV, hd1, hd2⟩ := tracing_embed _ _ _ d h3 hdd
  obtain ⟨jgV, hj1, hj2⟩ := tracing_embed _ _ _ j h4 hjg
  have hc := containersOps_embed m hs sidecars h2
  have hall : List.Forall₂ Embeds
      (pre ++ containersOps m sidecars ++ pullSecretOps m ++ d ++ j)
      (initV ++ containersValues m ++ pullSecretValues m ++ ddV ++ jgV) :=
    forall₂_append _ _ _ _ _ (forall₂_append _ _ _ _ _ (forall₂_append _ _ _ _ _
      (forall₂_append _ _ _ _ _ hi1 hc) (pullSecretOps_embed m)) hd1) hj1
  refine ⟨pre, sidecars, d, j, initV, ddV, jgV, h1, h2, h3, h4, rfl, hi2, hd2, hj2, hi1, hc,
    pullSecretOps_embed m, hd1, hj1, ?_⟩
  unfold docOps
  rw [hG, jsonParse_of_embeds _ _ (embeds_array _ _ hall)]


theorem sidecars_isJsonText (s : SidecarMeta) (hs : s.jsonSafe = true) (sidecars : List Str)
    (h : renderSidecars s = .ok sidecars) : ∀ f ∈ sidecars, IsJsonText f := by
  obtain ⟨ebody, he⟩ := renderTemplate_envoy_ok s
  obtain ⟨xbody, hx⟩ := renderTemplate_xray_ok s
  have hr := renderSidecars_eq s _ _ he hx
  rw [h] at hr
  simp only [Except.ok.injEq] at hr
  subst hr
  intro f hf
  have h1 : IsJsonText (envoyHeader ++ (s.ContainerImage ++ ebody)) := ⟨_, envoy_embeds s hs _ he⟩
  have h2 : IsJsonText (lit "\n\x7b\n  \"name\": \"xray-daemon\"," ++ xbody) :=
    ⟨_, xray_embeds s hs _ hx⟩
  cases hb : s.InjectXraySidecar <;> rw [hb] at hf <;> simp at hf
  · subst hf; exact h1
  · rcases hf with rfl | rfl
    · exact h1
    · exact h2

set_option maxRecDepth 100000 in
/-- C17, as stated, fails: in CNI mode the ignored IPs are a double quote,
`updateAnnotation` inserts the value unescaped, and the document
`GeneratePatch` returns without error does not parse as JSON. -/
theorem C17_counterexample_annotation_value :
    appmeshCNIEnabled sampleEnv sampleMetaCNIQuote = true
    ∧ sampleMetaCNIQuote.Init.IgnoredIPs = lit "\""
    ∧ (GeneratePatch sampleEnv sampleMetaCNIQuote).2 = none
    ∧ (jsonParse (GeneratePatch sampleEnv sampleMetaCNIQuote).1).isNone = true :=
  ⟨rfl, rfl, rfl, rfl⟩

/-- C17, amended: when composition succeeds, the string fields of the sidecar
description are JSON-safe, in CNI mode the desired annotation keys and values
are JSON-safe, and the fragments of the renderers outside the embedded files
that are used (the init container outside CNI mode, the volume and the init
container of a tracer that is switched on) read as JSON values, the document
`GeneratePatch` returns parses as a JSON array with one element per
operation, each an object with `op`, `path` and `value` members. -/
theorem C17_document_is_json {ρ : Type} (env : Env ρ) (m : Meta ρ) (ps : List Str)
    (h : composePatches env m = .ok ps)
    (hs : m.Sidecar.jsonSafe = true)
    (hann : appmeshCNIEnabled env m = true →
      ∀ kv ∈ newAnnotations env m, jsonSafe kv.1 = true ∧ jsonSafe kv.2 = true)
    (hinit : appmeshCNIEnabled env m = false →
      ∀ x, env.renderInit m.Init = .ok x → IsJsonText x)
    (hdv : m.Sidecar.EnableDatadogTracing = true → IsJsonText env.renderDatadogConfigVolume)
    (hdi : m.Sidecar.EnableDatadogTracing = true →
      ∀ x, env.renderDatadogInitContainer m.Sidecar.DatadogAddress m.Sidecar.DatadogPort
        = .ok x → IsJsonText x)
    (hjv : m.Sidecar.EnableJaegerTracing = true → IsJsonText env.renderJaegerConfigVolume)
    (hji : m.Sidecar.EnableJaegerTracing = true →
      ∀ x, env.renderJaegerInitContainer m.Sidecar.JaegerAddress m.Sidecar.JaegerPort
        = .ok x → IsJsonText x) :
    ∃ items, jsonParse (GeneratePatch env m).1 = some (.arr items)
      ∧ items.length = ps.length
      ∧ ∀ e ∈ items, isPatchOp e = true := by
  have hG := GeneratePatch_of_ok env m ps h
  obtain ⟨pre, sidecars, d, j, h1, h2, h3, h4, rfl⟩ := composePatches_ok env m ps h
  rw [hG]
  apply document_parses
  intro p hp
  simp only [List.mem_append] at hp
  rcases hp with (((hp | hp) | hp) | hp) | hp
  · -- step 1
    unfold initStep at h1
    cases hc : appmeshCNIEnabled env m with
    | true =>
      rw [hc, if_pos rfl] at h1
      cases h1
      obtain ⟨es, hes⟩ := cni_map_present env m hc
      unfold appMeshCNIAnnotationsPatch at hp
      rw [hes, annotationsPatches_some, List.mem_map] at hp
      obtain ⟨kv, hkv, rfl⟩ := hp
      have hmem : kv ∈ newAnnotations env m :=
        (env.range.visit_perm (newAnnotations env m)).mem_iff.mp hkv
      obtain ⟨hk, hv⟩ := hann hc kv hmem
      refine updateAnnotation_isPatchOpText _ _ _ ?_ (jsonSafe_escapeJSONPointer _ hk) hv
      by_cases hq : (mapIndex (some es) kv.1).1 ≠ []
      · rw [if_pos hq]; exact Or.inr rfl
      · rw [if_neg hq]; exact Or.inl rfl
    | false =>
      rw [hc] at h1
      cases hri : env.renderInit m.Init with
      | error e => rw [hri] at h1; cases h1
      | ok x =>
        rw [hri] at h1
        simp only [Bool.false_eq_true, if_false, Except.ok.injEq] at h1
        subst h1
        rw [List.mem_singleton] at hp
        subst hp
        have hx := hinit hc x hri
        cases m.AppendInit
        · exact create_isPatchOpText "initContainers" (Or.inl rfl) [x]
            (fun f hf => by rw [List.mem_singleton] at hf; subst hf; exact hx)
        · exact add_isPatchOpText "initContainers" (Or.inl rfl) x hx
  · -- step 2
    have hsc := sidecars_isJsonText m.Sidecar hs sidecars h2
    unfold containersOps at hp
    cases hb : m.AppendSidecar <;> rw [hb] at hp
    · rw [if_neg (by decide), List.mem_singleton] at hp
      subst hp
      exact create_isPatchOpText "containers" (Or.inr (Or.inl rfl)) sidecars hsc
    · rw [if_pos rfl, List.mem_map] at hp
      obtain ⟨f, hf, rfl⟩ := hp
      exact add_isPatchOpText "containers" (Or.inr (Or.inl rfl)) f (hsc f hf)
  · -- step 3
    unfold pullSecretOps at hp
    cases hb : m.HasImagePullSecret <;> rw [hb] at hp
    · rw [if_neg (by decide)] at hp; cases hp
    · rw [if_pos rfl, List.mem_singleton] at hp
      subst hp
      cases m.AppendImagePullSecret
      · exact create_isPatchOpText "imagePullSecrets" (Or.inr (Or.inr rfl)) [ecrSecret]
          (fun f hf => by rw [List.mem_singleton] at hf; subst hf; exact ecrSecret_isJsonText)
      · exact add_isPatchOpText "imagePullSecrets" (Or.inr (Or.inr (Or.inl rfl))) ecrSecret
          ecrSecret_isJsonText
  · -- step 4
    unfold datadogStep at h3
    cases hb : m.Sidecar.EnableDatadogTracing <;> rw [hb] at h3
    · cases h3; cases hp
    · cases hr : env.renderDatadogInitContainer m.Sidecar.DatadogAddress m.Sidecar.DatadogPort with
      | error e => rw [hr] at h3; cases h3
      | ok x =>
        rw [hr] at h3; cases h3
        simp only [List.mem_cons, List.mem_singleton, List.not_mem_nil, or_false] at hp
        rcases hp with rfl | rfl
        · exact add_isPatchOpText "volumes" (Or.inr (Or.inr (Or.inr rfl))) _ (hdv hb)
        · exact add_isPatchOpText "initContainers" (Or.inl rfl) _ (hdi hb x hr)
  · -- step 5
    unfold jaegerStep at h4
    cases hb : m.Sidecar.EnableJaegerTracing <;> rw [hb] at h4
    · cases h4; cases hp
    · cases hr : env.renderJaegerInitContainer m.Sidecar.JaegerAddress m.Sidecar.JaegerPort with
      | error e => rw [hr] at h4; cases h4
      | ok x =>
        rw [hr] at h4; cases h4
        simp only [List.mem_cons, List.mem_singleton, List.not_mem_nil, or_false] at hp
        rcases hp with rfl | rfl
        · exact add_isPatchOpText "volumes" (Or.inr (Or.inr (Or.inr rfl))) _ (hjv hb)
        · exact add_isPatchOpText "initContainers" (Or.inl rfl) _ (hji hb x hr)

set_option maxRecDepth 100000 in
/-- C17, amended, at the sample request in CNI mode with both tracers on: the
document parses as an array of twelve operations. -/
theorem C17_document_is_json_witness :
    composePatches sampleEnv sampleMetaCNITracing = .ok (samplePatches sampleMetaCNITracing)
    ∧ sampleMetaCNITracing.Sidecar.jsonSafe = true
    ∧ (∀ kv ∈ newAnnotations sampleEnv sampleMetaCNITracing,
        jsonSafe kv.1 = true ∧ jsonSafe kv.2 = true)
    ∧ IsJsonText sampleEnv.renderDatadogConfigVolume
    ∧ IsJsonText (lit "\x7b\"name\": \"inject-datadog-config\"\x7d")
    ∧ IsJsonText sampleEnv.renderJaegerConfigVolume
    ∧ IsJsonText (lit "\x7b\"name\": \"inject-jaeger-config\"\x7d")
    ∧ (samplePatches sampleMetaCNITracing).length = 12
    ∧ ∃ items, jsonParse (GeneratePatch sampleEnv sampleMetaCNITracing).1 = some (.arr items)
        ∧ items.length = (samplePatches sampleMetaCNITracing).length
        ∧ ∀ e ∈ items, isPatchOp e = true := by
  have hsafe : ∀ kv ∈ newAnnotations sampleEnv sampleMetaCNITracing,
      jsonSafe kv.1 = true ∧ jsonSafe kv.2 = true := by decide
  have j1 : IsJsonText sampleEnv.renderDatadogConfigVolume := ⟨_, fun _ _ _ => rfl⟩
  have j2 : IsJsonText (lit "\x7b\"name\": \"inject-datadog-config\"\x7d") := ⟨_, fun _ _ _ => rfl⟩
  have j3 : IsJsonText sampleEnv.renderJaegerConfigVolume := ⟨_, fun _ _ _ => rfl⟩
  have j4 : IsJsonText (lit "\x7b\"name\": \"inject-jaeger-config\"\x7d") := ⟨_, fun _ _ _ => rfl⟩
  refine ⟨rfl, rfl, hsafe, j1, j2, j3, j4, rfl, ?_⟩
  exact C17_document_is_json sampleEnv sampleMetaCNITracing _ rfl rfl (fun _ => hsafe)
    (fun hc => by cases hc) (fun _ => j1) (fun _ x hx => by cases hx; exact j2)
    (fun _ => j3) (fun _ x hx => by cases hx; exact j4)
/-! ## The paths of the operations of the document -/

theorem opAt_of_path (P p : Str) (e : JValue) (h : e.strField (lit "path") = some p) :
    opAt P e = decide (p = P) := by
  unfold opAt
  rw [h]
  simp

theorem opUnder_of_path (pre p : Str) (e : JValue) (h : e.strField (lit "path") = some p) :
    opUnder pre e = pre.isPrefixOf p := by
  unfold opUnder
  rw [h]

theorem annotationValue_path (es : List (Str × Str)) (kv : Str × Str) :
    (annotationValue es kv).strField (lit "path")
      = some (lit "/metadata/annotations/" ++ toValidUTF8 (escapeJSONPointer kv.1)) := rfl

/-- A path under `/metadata/annotations/` is no path that does not begin so. -/
theorem annotationPath_ne (x P : Str) (hP : (lit "/metadata/annotations/").isPrefixOf P = false) :
    decide (lit "/metadata/annotations/" ++ x = P) = false := by
  rw [decide_eq_false_iff_not]
  intro h
  rw [← h, isPrefixOf_append] at hP
  cases hP

theorem filter_eq_nil_of_false (Q : JValue → Bool) (l : List JValue)
    (h : ∀ e ∈ l, Q e = false) : l.filter Q = [] := by
  rw [List.filter_eq_nil_iff]
  intro e he
  rw [h e he]
  decide

theorem filter_eq_self_of_true (Q : JValue → Bool) (l : List JValue)
    (h : ∀ e ∈ l, Q e = true) : l.filter Q = l :=
  List.filter_eq_self.mpr h

theorem tracingValues_off (volume : Str) (init : Except GoError Str) (vs : List JValue)
    (h : TracingValues false volume init vs) : vs = [] := by
  rcases h with ⟨_, h⟩ | ⟨h, _⟩
  · exact h
  · cases h

theorem tracingValues_on (volume : Str) (init : Except GoError Str) (vs : List JValue)
    (h : TracingValues true volume init vs) :
    ∃ x v w, init = .ok x ∧ Embeds volume w ∧ Embeds x v
      ∧ vs = [opValue (lit "add") (lit "/spec/volumes/-") w,
              opValue (lit "add") (lit "/spec/initContainers/-") v] := by
  rcases h with ⟨h, _⟩ | ⟨_, h⟩
  · cases h
  · exact h

/-- The operations of a tracing step have the two append paths. -/
theorem tracingValues_path (enabled : Bool) (volume : Str) (init : Except GoError Str)
    (vs : List JValue) (h : TracingValues enabled volume init vs) :
    ∀ e ∈ vs, e.strField (lit "path") = some (lit "/spec/volumes/-")
      ∨ e.strField (lit "path") = some (lit "/spec/initContainers/-") := by
  intro e he
  rcases h with ⟨_, h⟩ | ⟨_, x, v, w, _, _, _, h⟩
  · rw [h] at he; cases he
  · rw [h] at he
    simp only [List.mem_cons, List.mem_singleton, List.not_mem_nil, or_false] at he
    rcases he with rfl | rfl
    · exact Or.inl rfl
    · exact Or.inr rfl

/-- The operations of the containers step have the append path or the create path. -/
theorem containersValues_path {ρ : Type} (m : Meta ρ) :
    ∀ e ∈ containersValues m, e.strField (lit "path")
      = some (if m.AppendSidecar then lit "/spec/containers/-" else lit "/spec/containers") := by
  intro e he
  unfold containersValues at he
  cases hb : m.AppendSidecar <;> rw [hb] at he
  · simp only [Bool.false_eq_true, if_false, List.mem_singleton] at he
    subst he; rfl
  · simp only [if_true, List.mem_map] at he
    obtain ⟨v, _, rfl⟩ := he
    rfl

/-- The operation of the image pull secret step has the append path or the create path. -/
theorem pullSecretValues_path {ρ : Type} (m : Meta ρ) :
    ∀ e ∈ pullSecretValues m, e.strField (lit "path")
      = some (if m.AppendImagePullSecret then lit "/spec/imagePullSecrets/-"
              else lit "/spec/imagePullSecrets") := by
  intro e he
  unfold pullSecretValues at he
  cases hb : m.HasImagePullSecret <;> rw [hb] at he
  · simp at he
  · simp only [if_true, List.mem_singleton] at he
    subst he
    cases m.AppendImagePullSecret <;> rfl

/-- The operations of step 1 have a path under `/metadata/annotations/` in CNI
mode, and otherwise the append path or the create path of the init containers. -/
theorem initValues_path {ρ : Type} (env : Env ρ) (m : Meta ρ) (vs : List JValue)
    (h : InitValues env m vs) :
    ∀ e ∈ vs,
      (appmeshCNIEnabled env m = true
        ∧ ∃ x, e.strField (lit "path") = some (lit "/metadata/annotations/" ++ x))
      ∨ (appmeshCNIEnabled env m = false
        ∧ e.strField (lit "path")
            = some (if m.AppendInit then lit "/spec/initContainers/-"
                    else lit "/spec/initContainers")) := by
  intro e he
  rcases h with ⟨hc, es, _, h⟩ | ⟨hc, x, v, _, _, h⟩
  · rw [h, List.mem_map] at he
    obtain ⟨kv, _, rfl⟩ := he
    exact Or.inl ⟨hc, _, annotationValue_path es kv⟩
  · rw [h, List.mem_singleton] at he
    subst he
    refine Or.inr ⟨hc, ?_⟩
    cases m.AppendInit <;> rfl

/-- A Boolean test that looks at the path only, evaluated on the operations of
step 1. -/
theorem initValues_test {ρ : Type} (env : Env ρ) (m : Meta ρ) (vs : List JValue)
    (h : InitValues env m vs) (Q : JValue → Bool) (b : Bool)
    (hann : ∀ e x, e.strField (lit "path") = some (lit "/metadata/annotations/" ++ x) → Q e = b)
    (hadd : ∀ e, e.strField (lit "path") = some (lit "/spec/initContainers/-") → Q e = b)
    (hcreate : ∀ e, e.strField (lit "path") = some (lit "/spec/initContainers") → Q e = b) :
    ∀ e ∈ vs, Q e = b := by
  intro e he
  rcases initValues_path env m vs h e he with ⟨_, x, hx⟩ | ⟨_, hp⟩
  · exact hann e x hx
  · cases hb : m.AppendInit <;> rw [hb] at hp
    · exact hcreate e hp
    · exact hadd e hp

theorem containersValues_test {ρ : Type} (m : Meta ρ) (Q : JValue → Bool) (b : Bool)
    (hadd : ∀ e, e.strField (lit "path") = some (lit "/spec/containers/-") → Q e = b)
    (hcreate : ∀ e, e.strField (lit "path") = some (lit "/spec/containers") → Q e = b) :
    ∀ e ∈ containersValues m, Q e = b := by
  intro e he
  have hp := containersValues_path m e he
  cases hb : m.AppendSidecar <;> rw [hb] at hp
  · exact hcreate e hp
  · exact hadd e hp

theorem pullSecretValues_test {ρ : Type} (m : Meta ρ) (Q : JValue → Bool) (b : Bool)
    (hadd : ∀ e, e.strField (lit "path") = some (lit "/spec/imagePullSecrets/-") → Q e = b)
    (hcreate : ∀ e, e.strField (lit "path") = some (lit "/spec/imagePullSecrets") → Q e = b) :
    ∀ e ∈ pullSecretValues m, Q e = b := by
  intro e he
  have hp := pullSecretValues_path m e he
  cases hb : m.AppendImagePullSecret <;> rw [hb] at hp
  · exact hcreate e hp
  · exact hadd e hp

theorem tracingValues_test (enabled : Bool) (volume : Str) (init : Except GoError Str)
    (vs : List JValue) (h : TracingValues enabled volume init vs) (Q : JValue → Bool) (b : Bool)
    (hvol : ∀ e, e.strField (lit "path") = some (lit "/spec/volumes/-") → Q e = b)
    (hinit : ∀ e, e.strField (lit "path") = some (lit "/spec/initContainers/-") → Q e = b) :
    ∀ e ∈ vs, Q e = b := by
  intro e he
  rcases tracingValues_path enabled volume init vs h e he with hp | hp
  · exact hvol e hp
  · exact hinit e hp

/-- The sample environment reads as JSON for every request with JSON-safe
sidecar fields and, in CNI mode, JSON-safe annotations. -/
theorem sampleEnv_jsonRequest (m : Meta Unit) (hs : m.Sidecar.jsonSafe = true)
    (hann : appmeshCNIEnabled sampleEnv m = true →
      ∀ kv ∈ newAnnotations sampleEnv m, jsonSafe kv.1 = true ∧ jsonSafe kv.2 = true) :
    JsonRequest sampleEnv m := by
  refine ⟨hs, hann, ?_, ?_, ?_⟩
  · intro _ x hx
    cases hx
    exact ⟨_, fun _ _ _ => rfl⟩
  · intro _
    refine ⟨⟨_, fun _ _ _ => rfl⟩, ?_⟩
    intro x hx
    cases hx
    exact ⟨_, fun _ _ _ => rfl⟩
  · intro _
    refine ⟨⟨_, fun _ _ _ => rfl⟩, ?_⟩
    intro x hx
    cases hx
    exact ⟨_, fun _ _ _ => rfl⟩

/-- No operation of a document that is read as JSON has the path `P`, when `P`
is none of the paths of the steps listed. -/
theorem opAt_false (P : Str) (e : JValue)
    (hann : (lit "/metadata/annotations/").isPrefixOf P = false)
    (hne : P ∉ [lit "/spec/initContainers/-", lit "/spec/initContainers",
      lit "/spec/containers/-", lit "/spec/containers", lit "/spec/imagePullSecrets/-",
      lit "/spec/imagePullSecrets", lit "/spec/volumes/-"])
    (he : (∃ x, e.strField (lit "path") = some (lit "/metadata/annotations/" ++ x))
      ∨ (∃ p ∈ [lit "/spec/initContainers/-", lit "/spec/initContainers",
          lit "/spec/containers/-", lit "/spec/containers", lit "/spec/imagePullSecrets/-",
          lit "/spec/imagePullSecrets", lit "/spec/volumes/-"],
          e.strField (lit "path") = some p)) :
    opAt P e = false := by
  rcases he with ⟨x, hx⟩ | ⟨p, hp, hx⟩
  · rw [opAt_of_path _ _ _ hx]
    exact annotationPath_ne _ _ hann
  · rw [opAt_of_path _ _ _ hx, decide_eq_false_iff_not]
    rintro rfl
    exact hne hp

/-- The path of an operation of step 1, of the containers step, of the image
pull secret step or of a tracing step is under `/metadata/annotations/` or one
of seven fixed paths. -/
theorem ops_paths {ρ : Type} (env : Env ρ) (m : Meta ρ) (initV ddV jgV : List JValue)
    (vd : Str) (id : Except GoError Str) (vj : Str) (ij : Except GoError Str) (bd bj : Bool)
    (hi : InitValues env m initV) (hd : TracingValues bd vd id ddV)
    (hj : TracingValues bj vj ij jgV) :
    ∀ e ∈ initV ++ containersValues m ++ pullSecretValues m ++ ddV ++ jgV,
      (∃ x, e.strField (lit "path") = some (lit "/metadata/annotations/" ++ x))
      ∨ (∃ p ∈ [lit "/spec/initContainers/-", lit "/spec/initContainers",
          lit "/spec/containers/-", lit "/spec/containers", lit "/spec/imagePullSecrets/-",
          lit "/spec/imagePullSecrets", lit "/spec/volumes/-"],
          e.strField (lit "path") = some p) := by
  intro e he
  simp only [List.mem_append] at he
  rcases he with (((he | he) | he) | he) | he
  · rcases initValues_path env m initV hi e he with ⟨_, x, hx⟩ | ⟨_, hp⟩
    · exact Or.inl ⟨x, hx⟩
    · refine Or.inr ⟨_, ?_, hp⟩
      cases m.AppendInit <;> simp
  · refine Or.inr ⟨_, ?_, containersValues_path m e he⟩
    cases m.AppendSidecar <;> simp
  · refine Or.inr ⟨_, ?_, pullSecretValues_path m e he⟩
    cases m.AppendImagePullSecret <;> simp
  · rcases tracingValues_path _ _ _ _ hd e he with hp | hp
    · exact Or.inr ⟨_, by simp, hp⟩
    · exact Or.inr ⟨_, by simp, hp⟩
  · rcases tracingValues_path _ _ _ _ hj e he with hp | hp
    · exact Or.inr ⟨_, by simp, hp⟩
    · exact Or.inr ⟨_, by simp, hp⟩

/-- A Boolean test that looks at the path only, evaluated on the operations of
the steps after step 1. -/
theorem laterValues_test {ρ : Type} (m : Meta ρ) (ddV jgV : List JValue)
    (vd : Str) (id : Except GoError Str) (vj : Str) (ij : Except GoError Str) (bd bj : Bool)
    (hd : TracingValues bd vd id ddV) (hj : TracingValues bj vj ij jgV)
    (Q : JValue → Bool) (b : Bool)
    (hp : ∀ p ∈ [lit "/spec/containers/-", lit "/spec/containers", lit "/spec/imagePullSecrets/-",
        lit "/spec/imagePullSecrets", lit "/spec/volumes/-", lit "/spec/initContainers/-"],
      ∀ e, e.strField (lit "path") = some p → Q e = b) :
    ∀ e ∈ containersValues m ++ pullSecretValues m ++ ddV ++ jgV, Q e = b := by
  intro e he
  simp only [List.mem_append] at he
  rcases he with ((he | he) | he) | he
  · exact containersValues_test m Q b (hp _ (by simp)) (hp _ (by simp)) e he
  · exact pullSecretValues_test m Q b (hp _ (by simp)) (hp _ (by simp)) e he
  · exact tracingValues_test _ _ _ _ hd Q b (hp _ (by simp)) (hp _ (by simp)) e he
  · exact tracingValues_test _ _ _ _ hj Q b (hp _ (by simp)) (hp _ (by simp)) e he

/-! ## Claims on the operations of the returned document -/

set_option maxRecDepth 100000 in
/-- C8, as stated, fails: append mode, no tracing, no image pull secret, but
the X-Ray daemon is injected, and the document has two operations with the
append path of `/spec/containers`; and without the X-Ray daemon a memory
request that closes its operation and opens another, which the template
inserts unescaped, gives two such operations as well. -/
theorem C8_counterexample_xray :
    sampleMetaXray.AppendSidecar = true
    ∧ sampleMetaXray.Sidecar.EnableJaegerTracing = false
    ∧ sampleMetaXray.Sidecar.EnableDatadogTracing = false
    ∧ sampleMetaXray.HasImagePullSecret = false
    ∧ (GeneratePatch sampleEnv sampleMetaXray).2 = none
    ∧ ((samplePatches sampleMetaXray).filter (hasPath (lit "/spec/containers/-"))).length = 2
    ∧ (docOps (GeneratePatch sampleEnv sampleMetaXray).1).map
        (fun ops => (ops.filter (opAt (lit "/spec/containers/-"))).length) = some 2
    ∧ sampleMetaInjectContainer.AppendSidecar = true
    ∧ sampleMetaInjectContainer.Sidecar.EnableJaegerTracing = false
    ∧ sampleMetaInjectContainer.Sidecar.EnableDatadogTracing = false
    ∧ sampleMetaInjectContainer.HasImagePullSecret = false
    ∧ sampleMetaInjectContainer.Sidecar.InjectXraySidecar = false
    ∧ (GeneratePatch sampleEnv sampleMetaInjectContainer).2 = none
    ∧ (docOps (GeneratePatch sampleEnv sampleMetaInjectContainer).1).map
        (fun ops => (ops.filter (opAt (lit "/spec/containers/-"))).length) = some 2 :=
  ⟨rfl, rfl, rfl, rfl, rfl, rfl, rfl, rfl, rfl, rfl, rfl, rfl, rfl, rfl⟩

/-- C8, amended: on a successful composition with `AppendSidecar` set, both
tracing toggles off, no image pull secret and no X-Ray daemon, for a request
that is read as JSON (JSON-safe sidecar fields, JSON-safe annotations in CNI
mode, an init container that reads as JSON outside CNI mode): the operations
are those of step 1 followed by one append of the rendered `envoy` fragment,
which `renderSidecars` returns alone; the document parses as an array with one
operation more than step 1 gives, and exactly one of its operations has the
append path of `/spec/containers`: the `add` whose value is the `envoy`
container, with `name` equal to `envoy`. -/
theorem C8_append_mode_single_envoy {ρ : Type} (env : Env ρ) (m : Meta ρ) (ps : List Str)
    (h : composePatches env m = .ok ps)
    (hA : m.AppendSidecar = true)
    (hJ : m.Sidecar.EnableJaegerTracing = false)
    (hD : m.Sidecar.EnableDatadogTracing = false)
    (hS : m.HasImagePullSecret = false)
    (hX : m.Sidecar.InjectXraySidecar = false)
    (hj : JsonRequest env m) :
    ∃ envoy pre ops,
      renderSidecars m.Sidecar = .ok [envoy]
      ∧ jsonParse envoy = some (envoyValue m.Sidecar)
      ∧ (envoyValue m.Sidecar).strField (lit "name") = some (lit "envoy")
      ∧ initStep env m = .ok pre
      ∧ ps = pre ++ [lit "\x7b\"op\":\"add\",\"path\":\"/spec/containers/-\", \"value\": " ++ envoy
                      ++ lit "\x7d"]
      ∧ (GeneratePatch env m).1 = lit "[" ++ Join ps (lit ",") ++ lit "]"
      ∧ docOps (GeneratePatch env m).1 = some ops
      ∧ ops.length = pre.length + 1
      ∧ ops.filter (opAt (lit "/spec/containers/-"))
          = [.obj [(lit "op", .str (lit "add")), (lit "path", .str (lit "/spec/containers/-")),
                   (lit "value", envoyValue m.Sidecar)]] := by
  have hG := GeneratePatch_of_ok env m ps h
  obtain ⟨initV, ddV, jgV, hi, hd, hjg, hall, _, hdoc⟩ := document_reads env m ps h hj
  obtain ⟨pre, sidecars, d, j, h1, h2, h3, h4, rfl⟩ := composePatches_ok env m ps h
  obtain ⟨ebody, he⟩ := renderTemplate_envoy_ok m.Sidecar
  obtain ⟨xbody, hx⟩ := renderTemplate_xray_ok m.Sidecar
  have hs := renderSidecars_eq m.Sidecar _ _ he hx
  rw [hX, h2] at hs
  simp only [Bool.false_eq_true, if_false, Except.ok.injEq] at hs
  subst hs
  have hd0 : d = [] := by
    unfold datadogStep at h3
    rw [hD] at h3
    cases h3; rfl
  have hj0 : j = [] := by
    unfold jaegerStep at h4
    rw [hJ] at h4
    cases h4; rfl
  have hp : pullSecretOps m = [] := by
    unfold pullSecretOps
    rw [hS]; rfl
  have hc : containersOps m [envoyHeader ++ (m.Sidecar.ContainerImage ++ ebody)]
      = [add (lit "containers") (envoyHeader ++ (m.Sidecar.ContainerImage ++ ebody))] := by
    unfold containersOps
    rw [hA]; rfl
  rw [hD] at hd
  rw [hJ] at hjg
  have hdv := tracingValues_off _ _ _ hd
  have hjv := tracingValues_off _ _ _ hjg
  have hpv : pullSecretValues m = [] := by
    unfold pullSecretValues
    rw [hS]; rfl
  have hcv : containersValues m
      = [opValue (lit "add") (lit "/spec/containers/-") (envoyValue m.Sidecar)] := by
    unfold containersValues sidecarValues
    rw [hA, hX]; rfl
  subst hd0 hj0 hdv hjv
  rw [hp, hc] at hG hall ⊢
  rw [hpv, hcv] at hdoc hall
  simp only [List.append_nil] at hG hdoc hall ⊢
  have hlen := hall.length_eq
  refine ⟨_, pre, _, h2, jsonParse_of_embeds _ _ (envoy_embeds m.Sidecar hj.1 _ he), rfl, h1, rfl,
    ?_, hdoc, ?_, ?_⟩
  · rw [hG]
  · simp only [List.length_append, List.length_singleton] at hlen ⊢
    omega
  · rw [List.filter_append, filter_eq_nil_of_false _ initV, List.nil_append]
    · rfl
    · exact initValues_test env m initV hi _ false
        (fun e x hx => by rw [opAt_of_path _ _ _ hx]; exact annotationPath_ne _ _ rfl)
        (fun e hx => by rw [opAt_of_path _ _ _ hx]; rfl)
        (fun e hx => by rw [opAt_of_path _ _ _ hx]; rfl)

set_option maxRecDepth 100000 in
/-- C8, amended, at the sample request. -/
theorem C8_append_mode_single_envoy_witness :
    composePatches sampleEnv sampleMeta = .ok (samplePatches sampleMeta)
    ∧ sampleMeta.AppendSidecar = true
    ∧ sampleMeta.Sidecar.EnableJaegerTracing = false
    ∧ sampleMeta.Sidecar.EnableDatadogTracing = false
    ∧ sampleMeta.HasImagePullSecret = false
    ∧ sampleMeta.Sidecar.InjectXraySidecar = false
    ∧ JsonRequest sampleEnv sampleMeta
    ∧ ∃ envoy pre ops,
      renderSidecars sampleMeta.Sidecar = .ok [envoy]
      ∧ jsonParse envoy = some (envoyValue sampleMeta.Sidecar)
      ∧ (envoyValue sampleMeta.Sidecar).strField (lit "name") = some (lit "envoy")
      ∧ initStep sampleEnv sampleMeta = .ok pre
      ∧ samplePatches sampleMeta
          = pre ++ [lit "\x7b\"op\":\"add\",\"path\":\"/spec/containers/-\", \"value\": " ++ envoy
                      ++ lit "\x7d"]
      ∧ (GeneratePatch sampleEnv sampleMeta).1
          = lit "[" ++ Join (samplePatches sampleMeta) (lit ",") ++ lit "]"
      ∧ docOps (GeneratePatch sampleEnv sampleMeta).1 = some ops
      ∧ ops.length = pre.length + 1
      ∧ ops.filter (opAt (lit "/spec/containers/-"))
          = [.obj [(lit "op", .str (lit "add")), (lit "path", .str (lit "/spec/containers/-")),
                   (lit "value", envoyValue sampleMeta.Sidecar)]] :=
  ⟨rfl, rfl, rfl, rfl, rfl, rfl, sampleEnv_jsonRequest sampleMeta rfl (fun hc => by cases hc),
    C8_append_mode_single_envoy sampleEnv sampleMeta _ rfl rfl rfl rfl rfl rfl
      (sampleEnv_jsonRequest sampleMeta rfl (fun hc => by cases hc))⟩

set_option maxRecDepth 100000 in
/-- C9, as stated, fails: no image pull secret is asked for, yet the document
`GeneratePatch` returns holds an operation on `/spec/imagePullSecrets`,
written there by the memory request, which the template inserts unescaped. -/
theorem C9_counterexample_injected_secret :
    sampleMetaInjectSecret.HasImagePullSecret = false
    ∧ (GeneratePatch sampleEnv sampleMetaInjectSecret).2 = none
    ∧ (docOps (GeneratePatch sampleEnv sampleMetaInjectSecret).1).map
        (fun ops => (ops.filter (opUnder (lit "/spec/imagePullSecrets"))).length) = some 1 :=
  ⟨rfl, rfl, rfl⟩

theorem pullSecretOps_filter {ρ : Type} (m : Meta ρ) :
    (pullSecretOps m).filter (pathStartsWith (lit "/spec/imagePullSecrets")) = pullSecretOps m := by
  rw [List.filter_eq_self]
  exact pullSecretOps_all (fun q => pathStartsWith (lit "/spec/imagePullSecrets") q = true)
    (pathStartsWith_add_imagePullSecrets _) (pathStartsWith_create_imagePullSecrets _)

set_option maxRecDepth 100000 in
/-- C9, amended: on a successful composition of a request that is read as JSON
(JSON-safe sidecar fields, JSON-safe annotations in CNI mode, fragments of the
renderers used that read as JSON) the document parses as an array of
operations of which exactly one has a path under `/spec/imagePullSecrets`
when `HasImagePullSecret` is set, and none otherwise; it is the append form
when `AppendImagePullSecret` is set and the create form otherwise, with the
value `{"name": "appmesh-ecr-secret"}`, alone or in a one-element array. The
operation text is the fixed literal, byte for byte; with `HasImagePullSecret`
unset the value of `AppendImagePullSecret` does not change what
`GeneratePatch` returns; and with `AppendSidecar` unset, `HasImagePullSecret`
set and `AppendImagePullSecret` unset the document holds a whole-array create
for `containers` and one for `imagePullSecrets`. -/
theorem C9_image_pull_secret {ρ : Type} (env : Env ρ) (m : Meta ρ) (ps : List Str)
    (h : composePatches env m = .ok ps) (hj : JsonRequest env m) :
    ∃ ops, docOps (GeneratePatch env m).1 = some ops
    ∧ ops.filter (opUnder (lit "/spec/imagePullSecrets"))
        = (if m.HasImagePullSecret then
            [if m.AppendImagePullSecret then
               .obj [(lit "op", .str (lit "add")),
                     (lit "path", .str (lit "/spec/imagePullSecrets/-")),
                     (lit "value", .obj [(lit "name", .str (lit "appmesh-ecr-secret"))])]
             else
               .obj [(lit "op", .str (lit "add")),
                     (lit "path", .str (lit "/spec/imagePullSecrets")),
                     (lit "value", .arr [.obj [(lit "name", .str (lit "appmesh-ecr-secret"))]])]]
           else [])
    ∧ ps.filter (pathStartsWith (lit "/spec/imagePullSecrets"))
        = (if m.HasImagePullSecret then
            [if m.AppendImagePullSecret then
               lit ("\x7b\"op\":\"add\",\"path\":\"/spec/imagePullSecrets/-\", "
                 ++ "\"value\": \x7b\"name\": \"appmesh-ecr-secret\"\x7d\x7d")
             else
               lit ("\x7b\"op\":\"add\",\"path\":\"/spec/imagePullSecrets\", "
                 ++ "\"value\": [\x7b\"name\": \"appmesh-ecr-secret\"\x7d]\x7d")]
           else [])
    ∧ (m.HasImagePullSecret = false →
        ∀ b, GeneratePatch env { m with AppendImagePullSecret := b } = GeneratePatch env m)
    ∧ (m.AppendSidecar = false → m.HasImagePullSecret = true → m.AppendImagePullSecret = false →
        ∃ sidecars, renderSidecars m.Sidecar = .ok sidecars
          ∧ lit "\x7b\"op\":\"add\",\"path\":\"/spec/containers\", \"value\": ["
              ++ Join sidecars (lit ",") ++ lit "]\x7d" ∈ ps
          ∧ lit ("\x7b\"op\":\"add\",\"path\":\"/spec/imagePullSecrets\", "
                 ++ "\"value\": [\x7b\"name\": \"appmesh-ecr-secret\"\x7d]\x7d") ∈ ps
          ∧ .obj [(lit "op", .str (lit "add")), (lit "path", .str (lit "/spec/containers")),
                  (lit "value", .arr (sidecarValues m.Sidecar))] ∈ ops
          ∧ .obj [(lit "op", .str (lit "add")), (lit "path", .str (lit "/spec/imagePullSecrets")),
                  (lit "value", .arr [.obj [(lit "name", .str (lit "appmesh-ecr-secret"))]])]
              ∈ ops) := by
  obtain ⟨initV, ddV, jgV, hi, hd, hjg, _, _, hdoc⟩ := document_reads env m ps h hj
  obtain ⟨pre, sidecars, d, j, h1, h2, h3, h4, rfl⟩ := composePatches_ok env m ps h
  refine ⟨_, hdoc, ?_, ?_, ?_, ?_⟩
  · -- the document
    have e1 : initV.filter (opUnder (lit "/spec/imagePullSecrets")) = [] :=
      filter_eq_nil_of_false _ _ (initValues_test env m initV hi _ false
        (fun e x hx => by rw [opUnder_of_path _ _ _ hx]; rfl)
        (fun e hx => by rw [opUnder_of_path _ _ _ hx]; rfl)
        (fun e hx => by rw [opUnder_of_path _ _ _ hx]; rfl))
    have e2 : (containersValues m).filter (opUnder (lit "/spec/imagePullSecrets")) = [] :=
      filter_eq_nil_of_false _ _ (containersValues_test m _ false
        (fun e hx => by rw [opUnder_of_path _ _ _ hx]; rfl)
        (fun e hx => by rw [opUnder_of_path _ _ _ hx]; rfl))
    have e3 : (pullSecretValues m).filter (opUnder (lit "/spec/imagePullSecrets"))
        = pullSecretValues m :=
      filter_eq_self_of_true _ _ (pullSecretValues_test m _ true
        (fun e hx => by rw [opUnder_of_path _ _ _ hx]; rfl)
        (fun e hx => by rw [opUnder_of_path _ _ _ hx]; rfl))
    have e4 : ddV.filter (opUnder (lit "/spec/imagePullSecrets")) = [] :=
      filter_eq_nil_of_false _ _ (tracingValues_test _ _ _ _ hd _ false
        (fun e hx => by rw [opUnder_of_path _ _ _ hx]; rfl)
        (fun e hx => by rw [opUnder_of_path _ _ _ hx]; rfl))
    have e5 : jgV.filter (opUnder (lit "/spec/imagePullSecrets")) = [] :=
      filter_eq_nil_of_false _ _ (tracingValues_test _ _ _ _ hjg _ false
        (fun e hx => by rw [opUnder_of_path _ _ _ hx]; rfl)
        (fun e hx => by rw [opUnder_of_path _ _ _ hx]; rfl))
    simp only [List.filter_append, e1, e2, e3, e4, e5, List.nil_append, List.append_nil]
    unfold pullSecretValues
    cases m.HasImagePullSecret
    · rfl
    · cases m.AppendImagePullSecret <;> rfl
  · -- the operation texts
    have hpre : pre.filter (pathStartsWith (lit "/spec/imagePullSecrets")) = [] := by
      rw [List.filter_eq_nil_iff]
      intro p hp
      have := initStep_all (fun q => pathStartsWith (lit "/spec/imagePullSecrets") q = false)
        h1 (fun _ _ => rfl) (fun _ _ => rfl) (fun _ _ => rfl) (fun _ => rfl) (fun _ => rfl) p hp
      simp [this]
    have hc : (containersOps m sidecars).filter (pathStartsWith (lit "/spec/imagePullSecrets"))
        = [] := by
      rw [List.filter_eq_nil_iff]
      intro p hp
      have := containersOps_all (fun q => pathStartsWith (lit "/spec/imagePullSecrets") q = false)
        (fun _ => rfl) (fun _ => rfl) p hp
      simp [this]
    have hd' : d.filter (pathStartsWith (lit "/spec/imagePullSecrets")) = [] := by
      rw [List.filter_eq_nil_iff]
      intro p hp
      have := datadogStep_all (fun q => pathStartsWith (lit "/spec/imagePullSecrets") q = false)
        h3 (fun _ => rfl) (fun _ => rfl) p hp
      simp [this]
    have hj' : j.filter (pathStartsWith (lit "/spec/imagePullSecrets")) = [] := by
      rw [List.filter_eq_nil_iff]
      intro p hp
      have := jaegerStep_all (fun q => pathStartsWith (lit "/spec/imagePullSecrets") q = false)
        h4 (fun _ => rfl) (fun _ => rfl) p hp
      simp [this]
    simp only [List.filter_append, hpre, hc, hd', hj', pullSecretOps_filter, List.nil_append,
      List.append_nil]
    unfold pullSecretOps
    cases m.HasImagePullSecret
    · rfl
    · cases m.AppendImagePullSecret <;> rfl
  · intro hH b
    have e : composePatches env { m with AppendImagePullSecret := b } = composePatches env m := by
      rw [composePatches_eq_steps, composePatches_eq_steps]
      have e1 : pullSecretOps { m with AppendImagePullSecret := b } = pullSecretOps m := by
        unfold pullSecretOps
        simp only [hH]
        rfl
      have e2 : ∀ sc, containersOps { m with AppendImagePullSecret := b } sc = containersOps m sc :=
        fun _ => rfl
      simp only [e1, e2]
      rfl
    unfold GeneratePatch
    rw [e]
  · intro hS hH hA
    refine ⟨sidecars, h2, ?_, ?_, ?_, ?_⟩
    · have : containersOps m sidecars = [create (lit "containers") (Join sidecars (lit ","))] := by
        unfold containersOps; rw [hS]; rfl
      rw [this]
      simp only [List.mem_append, List.mem_singleton]
      exact Or.inl (Or.inl (Or.inl (Or.inr rfl)))
    · have : pullSecretOps m = [create (lit "imagePullSecrets") ecrSecret] := by
        unfold pullSecretOps; rw [hH, hA]; rfl
      rw [this]
      simp only [List.mem_append, List.mem_singleton]
      exact Or.inl (Or.inl (Or.inr rfl))
    · have : containersValues m
          = [opValue (lit "add") (lit "/spec/containers") (.arr (sidecarValues m.Sidecar))] := by
        unfold containersValues; rw [hS]; rfl
      rw [this]
      simp only [List.mem_append, List.mem_singleton]
      exact Or.inl (Or.inl (Or.inl (Or.inr rfl)))
    · have : pullSecretValues m
          = [opValue (lit "add") (lit "/spec/imagePullSecrets") (.arr [secretValue])] := by
        unfold pullSecretValues; rw [hH, hA]; rfl
      rw [this]
      simp only [List.mem_append, List.mem_singleton]
      exact Or.inl (Or.inl (Or.inr rfl))

set_option maxRecDepth 100000 in
/-- C9, amended, at the sample request in create mode with an image pull
secret: the document holds the create of the secret array and no other
operation under `/spec/imagePullSecrets`. -/
theorem C9_image_pull_secret_witness :
    composePatches sampleEnv sampleMetaSecret = .ok (samplePatches sampleMetaSecret)
    ∧ JsonRequest sampleEnv sampleMetaSecret
    ∧ ∃ ops, docOps (GeneratePatch sampleEnv sampleMetaSecret).1 = some ops
      ∧ ops.filter (opUnder (lit "/spec/imagePullSecrets"))
          = [.obj [(lit "op", .str (lit "add")),
                   (lit "path", .str (lit "/spec/imagePullSecrets")),
                   (lit "value", .arr [.obj [(lit "name", .str (lit "appmesh-ecr-secret"))]])]]
      ∧ (samplePatches sampleMetaSecret).filter (pathStartsWith (lit "/spec/imagePullSecrets"))
          = [lit ("\x7b\"op\":\"add\",\"path\":\"/spec/imagePullSecrets\", "
                 ++ "\"value\": [\x7b\"name\": \"appmesh-ecr-secret\"\x7d]\x7d")] := by
  have hj := sampleEnv_jsonRequest sampleMetaSecret rfl (fun hc => by cases hc)
  refine ⟨rfl, hj, ?_⟩
  obtain ⟨ops, h1, h2, h3, _⟩ := C9_image_pull_secret sampleEnv sampleMetaSecret _ rfl hj
  exact ⟨ops, h1, h2, h3⟩

set_option maxRecDepth 100000 in
/-- C10, as stated, fails: both tracers are off, yet the document
`GeneratePatch` returns holds an append to `/spec/volumes`, written there by
the memory request, which the template inserts unescaped. -/
theorem C10_counterexample_injected_volume :
    sampleMetaInjectVolume.Sidecar.EnableDatadogTracing = false
    ∧ sampleMetaInjectVolume.Sidecar.EnableJaegerTracing = false
    ∧ (GeneratePatch sampleEnv sampleMetaInjectVolume).2 = none
    ∧ (docOps (GeneratePatch sampleEnv sampleMetaInjectVolume).1).map
        (fun ops => (ops.filter (opAt (lit "/spec/volumes/-"))).length) = some 1 :=
  ⟨rfl, rfl, rfl, rfl⟩

theorem datadogStep_on {ρ : Type} (env : Env ρ) (m : Meta ρ) (d : List Str)
    (h : datadogStep env m = .ok d) (hD : m.Sidecar.EnableDatadogTracing = true) :
    ∃ x, env.renderDatadogInitContainer m.Sidecar.DatadogAddress m.Sidecar.DatadogPort = .ok x
      ∧ d = [add (lit "volumes") env.renderDatadogConfigVolume, add (lit "initContainers") x] := by
  unfold datadogStep at h
  rw [hD, if_pos rfl] at h
  cases hr : env.renderDatadogInitContainer m.Sidecar.DatadogAddress m.Sidecar.DatadogPort with
  | error e => rw [hr] at h; cases h
  | ok x => rw [hr] at h; cases h; exact ⟨x, rfl, rfl⟩

theorem jaegerStep_on {ρ : Type} (env : Env ρ) (m : Meta ρ) (j : List Str)
    (h : jaegerStep env m = .ok j) (hJ : m.Sidecar.EnableJaegerTracing = true) :
    ∃ x, env.renderJaegerInitContainer m.Sidecar.JaegerAddress m.Sidecar.JaegerPort = .ok x
      ∧ j = [add (lit "volumes") env.renderJaegerConfigVolume, add (lit "initContainers") x] := by
  unfold jaegerStep at h
  rw [hJ, if_pos rfl] at h
  cases hr : env.renderJaegerInitContainer m.Sidecar.JaegerAddress m.Sidecar.JaegerPort with
  | error e => rw [hr] at h; cases h
  | ok x => rw [hr] at h; cases h; exact ⟨x, rfl, rfl⟩

theorem datadogStep_off {ρ : Type} (env : Env ρ) (m : Meta ρ) (d : List Str)
    (h : datadogStep env m = .ok d) (hD : m.Sidecar.EnableDatadogTracing = false) : d = [] := by
  unfold datadogStep at h
  rw [hD] at h
  cases h; rfl

theorem jaegerStep_off {ρ : Type} (env : Env ρ) (m : Meta ρ) (j : List Str)
    (h : jaegerStep env m = .ok j) (hJ : m.Sidecar.EnableJaegerTracing = false) : j = [] := by
  unfold jaegerStep at h
  rw [hJ] at h
  cases h; rfl

/-- C10, amended: on a successful composition of a request that is read as
JSON (JSON-safe sidecar fields, JSON-safe annotations in CNI mode, fragments
of the renderers used that read as JSON) the operations are those of steps 1
to 3 followed by a tail fixed by the two tracing toggles, and the document
parses as the array of their values, text by text. No operation of steps 1 to
3 appends to `/spec/volumes`. The tail is empty when both toggles are off;
the volume append and then the init container append of the one tracer that
is on; and with both on the four operations Datadog volume, Datadog init
container, Jaeger volume, Jaeger init container. Every operation of the tail
is an append, never a whole-array create, and the tail does not involve
`AppendInit`. -/
theorem C10_tracing_tail {ρ : Type} (env : Env ρ) (m : Meta ρ) (ps : List Str)
    (h : composePatches env m = .ok ps) (hj : JsonRequest env m) :
    ∃ first sidecars tailTexts pre tail,
      initStep env m = .ok first
      ∧ renderSidecars m.Sidecar = .ok sidecars
      ∧ ps = (first ++ containersOps m sidecars ++ pullSecretOps m) ++ tailTexts
      ∧ docOps (GeneratePatch env m).1 = some (pre ++ tail)
      ∧ List.Forall₂ Embeds (first ++ containersOps m sidecars ++ pullSecretOps m) pre
      ∧ List.Forall₂ Embeds tailTexts tail
      ∧ (∀ e ∈ pre, opAt (lit "/spec/volumes/-") e = false)
      ∧ (m.Sidecar.EnableDatadogTracing = false → m.Sidecar.EnableJaegerTracing = false →
          tailTexts = [] ∧ tail = []
          ∧ ∀ e ∈ pre ++ tail, opAt (lit "/spec/volumes/-") e = false)
      ∧ (m.Sidecar.EnableDatadogTracing = true → m.Sidecar.EnableJaegerTracing = false →
          ∃ datadogInit v w,
            env.renderDatadogInitContainer m.Sidecar.DatadogAddress m.Sidecar.DatadogPort
              = .ok datadogInit
            ∧ tailTexts
                = [lit "\x7b\"op\":\"add\",\"path\":\"/spec/volumes/-\", \"value\": "
                     ++ env.renderDatadogConfigVolume ++ lit "\x7d",
                   lit "\x7b\"op\":\"add\",\"path\":\"/spec/initContainers/-\", \"value\": "
                     ++ datadogInit ++ lit "\x7d"]
            ∧ tail
                = [.obj [(lit "op", .str (lit "add")), (lit "path", .str (lit "/spec/volumes/-")),
                         (lit "value", w)],
                   .obj [(lit "op", .str (lit "add")),
                         (lit "path", .str (lit "/spec/initContainers/-")), (lit "value", v)]])
      ∧ (m.Sidecar.EnableDatadogTracing = false → m.Sidecar.EnableJaegerTracing = true →
          ∃ jaegerInit v w,
            env.renderJaegerInitContainer m.Sidecar.JaegerAddress m.Sidecar.JaegerPort
              = .ok jaegerInit
            ∧ tailTexts
                = [lit "\x7b\"op\":\"add\",\"path\":\"/spec/volumes/-\", \"value\": "
                     ++ env.renderJaegerConfigVolume ++ lit "\x7d",
                   lit "\x7b\"op\":\"add\",\"path\":\"/spec/initContainers/-\", \"value\": "
                     ++ jaegerInit ++ lit "\x7d"]
            ∧ tail
                = [.obj [(lit "op", .str (lit "add")), (lit "path", .str (lit "/spec/volumes/-")),
                         (lit "value", w)],
                   .obj [(lit "op", .str (lit "add")),
                         (lit "path", .str (lit "/spec/initContainers/-")), (lit "value", v)]])
      ∧ (m.Sidecar.EnableDatadogTracing = true → m.Sidecar.EnableJaegerTracing = true →
          ∃ datadogInit jaegerInit v1 w1 v2 w2,
            env.renderDatadogInitContainer m.Sidecar.DatadogAddress m.Sidecar.DatadogPort
              = .ok datadogInit
            ∧ env.renderJaegerInitContainer m.Sidecar.JaegerAddress m.Sidecar.JaegerPort
              = .ok jaegerInit
            ∧ tailTexts
                = [lit "\x7b\"op\":\"add\",\"path\":\"/spec/volumes/-\", \"value\": "
                     ++ env.renderDatadogConfigVolume ++ lit "\x7d",
                   lit "\x7b\"op\":\"add\",\"path\":\"/spec/initContainers/-\", \"value\": "
                     ++ datadogInit ++ lit "\x7d",
                   lit "\x7b\"op\":\"add\",\"path\":\"/spec/volumes/-\", \"value\": "
                     ++ env.renderJaegerConfigVolume ++ lit "\x7d",
                   lit "\x7b\"op\":\"add\",\"path\":\"/spec/initContainers/-\", \"value\": "
                     ++ jaegerInit ++ lit "\x7d"]
            ∧ tail
                = [.obj [(lit "op", .str (lit "add")), (lit "path", .str (lit "/spec/volumes/-")),
                         (lit "value", w1)],
                   .obj [(lit "op", .str (lit "add")),
                         (lit "path", .str (lit "/spec/initContainers/-")), (lit "value", v1)],
                   .obj [(lit "op", .str (lit "add")), (lit "path", .str (lit "/spec/volumes/-")),
                         (lit "value", w2)],
                   .obj [(lit "op", .str (lit "add")),
                         (lit "path", .str (lit "/spec/initContainers/-")), (lit "value", v2)]])
      ∧ (∀ e ∈ tail,
          (opAt (lit "/spec/volumes/-") e = true ∨ opAt (lit "/spec/initContainers/-") e = true)
          ∧ opAt (lit "/spec/volumes") e = false
          ∧ opAt (lit "/spec/initContainers") e = false) := by
  obtain ⟨first, sidecars, d, j, initV, ddV, jgV, h1, h2, h3, h4, hps, hi, hd, hjg,
    f1, f2, f3, f4, f5, hdoc⟩ := document_reads_steps env m ps h hj
  have hpre : ∀ e ∈ initV ++ containersValues m ++ pullSecretValues m,
      opAt (lit "/spec/volumes/-") e = false := by
    intro e he
    simp only [List.mem_append] at he
    rcases he with (he | he) | he
    · exact initValues_test env m initV hi _ false
        (fun e x hx => by rw [opAt_of_path _ _ _ hx]; exact annotationPath_ne _ _ rfl)
        (fun e hx => by rw [opAt_of_path _ _ _ hx]; rfl)
        (fun e hx => by rw [opAt_of_path _ _ _ hx]; rfl) e he
    · exact containersValues_test m _ false
        (fun e hx => by rw [opAt_of_path _ _ _ hx]; rfl)
        (fun e hx => by rw [opAt_of_path _ _ _ hx]; rfl) e he
    · exact pullSecretValues_test m _ false
        (fun e hx => by rw [opAt_of_path _ _ _ hx]; rfl)
        (fun e hx => by rw [opAt_of_path _ _ _ hx]; rfl) e he
  refine ⟨first, sidecars, d ++ j, initV ++ containersValues m ++ pullSecretValues m, ddV ++ jgV,
    h1, h2, ?_, ?_, ?_, forall₂_append _ _ _ _ _ f4 f5, hpre, ?_, ?_, ?_, ?_, ?_⟩
  · rw [hps]
    simp only [List.append_assoc]
  · rw [hdoc]
    simp only [List.append_assoc]
  · exact forall₂_append _ _ _ _ _ (forall₂_append _ _ _ _ _ f1 f2) f3
  · intro hD hJ
    rw [hD] at hd
    rw [hJ] at hjg
    have e1 := tracingValues_off _ _ _ hd
    have e2 := tracingValues_off _ _ _ hjg
    subst e1 e2
    refine ⟨by rw [datadogStep_off env m d h3 hD, jaegerStep_off env m j h4 hJ]; rfl, rfl, ?_⟩
    simpa using hpre
  · intro hD hJ
    rw [hD] at hd
    rw [hJ] at hjg
    have e2 := tracingValues_off _ _ _ hjg
    obtain ⟨x, v, w, hx, _, _, e1⟩ := tracingValues_on _ _ _ hd
    obtain ⟨x', hx', ed⟩ := datadogStep_on env m d h3 hD
    subst e1 e2
    refine ⟨x', v, w, hx', ?_, rfl⟩
    rw [ed, jaegerStep_off env m j h4 hJ]
    rfl
  · intro hD hJ
    rw [hD] at hd
    rw [hJ] at hjg
    have e1 := tracingValues_off _ _ _ hd
    obtain ⟨x, v, w, hx, _, _, e2⟩ := tracingValues_on _ _ _ hjg
    obtain ⟨x', hx', ej⟩ := jaegerStep_on env m j h4 hJ
    subst e1 e2
    refine ⟨x', v, w, hx', ?_, rfl⟩
    rw [ej, datadogStep_off env m d h3 hD]
    rfl
  · intro hD hJ
    rw [hD] at hd
    rw [hJ] at hjg
    obtain ⟨x1, v1, w1, _, _, _, e1⟩ := tracingValues_on _ _ _ hd
    obtain ⟨x2, v2, w2, _, _, _, e2⟩ := tracingValues_on _ _ _ hjg
    obtain ⟨y1, hy1, ed⟩ := datadogStep_on env m d h3 hD
    obtain ⟨y2, hy2, ej⟩ := jaegerStep_on env m j h4 hJ
    subst e1 e2
    refine ⟨y1, y2, v1, w1, v2, w2, hy1, hy2, ?_, rfl⟩
    rw [ed, ej]
    rfl
  · intro e he
    rw [List.mem_append] at he
    have key : ∀ vs b vol init, TracingValues b vol init vs → ∀ e ∈ vs,
        (opAt (lit "/spec/volumes/-") e = true ∨ opAt (lit "/spec/initContainers/-") e = true)
        ∧ opAt (lit "/spec/volumes") e = false
        ∧ opAt (lit "/spec/initContainers") e = false := by
      intro vs b vol init ht e he
      rcases tracingValues_path b vol init vs ht e he with hp | hp
      · refine ⟨Or.inl ?_, ?_, ?_⟩ <;> rw [opAt_of_path _ _ _ hp] <;> rfl
      · refine ⟨Or.inr ?_, ?_, ?_⟩ <;> rw [opAt_of_path _ _ _ hp] <;> rfl
    rcases he with he | he
    · exact key _ _ _ _ hd e he
    · exact key _ _ _ _ hjg e he

set_option maxRecDepth 100000 in
/-- C10, amended, at the sample request with both tracers on: the document
ends with the four tracing operations, Datadog before Jaeger. -/
theorem C10_tracing_tail_witness :
    composePatches sampleEnv sampleMetaTracing = .ok (samplePatches sampleMetaTracing)
    ∧ JsonRequest sampleEnv sampleMetaTracing
    ∧ (docOps (GeneratePatch sampleEnv sampleMetaTracing).1).map
        (fun ops => ops.map (fun e => e.strField (lit "path")))
        = some [some (lit "/spec/initContainers"), some (lit "/spec/containers/-"),
                some (lit "/spec/volumes/-"), some (lit "/spec/initContainers/-"),
                some (lit "/spec/volumes/-"), some (lit "/spec/initContainers/-")]
    ∧ ∃ first sidecars tailTexts pre tail,
      initStep sampleEnv sampleMetaTracing = .ok first
      ∧ renderSidecars sampleMetaTracing.Sidecar = .ok sidecars
      ∧ samplePatches sampleMetaTracing
          = (first ++ containersOps sampleMetaTracing sidecars ++ pullSecretOps sampleMetaTracing)
              ++ tailTexts
      ∧ docOps (GeneratePatch sampleEnv sampleMetaTracing).1 = some (pre ++ tail)
      ∧ tailTexts.length = 4 ∧ tail.length = 4
      ∧ (∀ e ∈ pre, opAt (lit "/spec/volumes/-") e = false) := by
  have hj := sampleEnv_jsonRequest sampleMetaTracing rfl (fun hc => by cases hc)
  refine ⟨rfl, hj, rfl, ?_⟩
  obtain ⟨first, sidecars, tailTexts, pre, tail, h1, h2, h3, h4, _, _, h5, _, _, _, h6, _⟩ :=
    C10_tracing_tail sampleEnv sampleMetaTracing _ rfl hj
  obtain ⟨x, y, v1, w1, v2, w2, _, _, ht, hv⟩ := h6 rfl rfl
  exact ⟨first, sidecars, tailTexts, pre, tail, h1, h2, h3, h4, by rw [ht]; rfl, by rw [hv]; rfl, h5⟩

set_option maxRecDepth 100000 in
/-- C6, as stated, fails: CNI mode is off, yet the document `GeneratePatch`
returns holds an operation on an annotation, written there by the memory
request, which the template inserts unescaped. -/
theorem C6_counterexample_injected_annotation :
    appmeshCNIEnabled sampleEnv sampleMetaInjectAnnotation = false
    ∧ (GeneratePatch sampleEnv sampleMetaInjectAnnotation).2 = none
    ∧ (docOps (GeneratePatch sampleEnv sampleMetaInjectAnnotation).1).map
        (fun ops => ops.map (fun e => e.strField (lit "path")))
        = some [some (lit "/spec/initContainers"), some (lit "/spec/containers/-"),
                some (lit "/metadata/annotations/k")] :=
  ⟨rfl, rfl, rfl⟩

theorem cni_iff {ρ : Type} (env : Env ρ) (m : Meta ρ) :
    appmeshCNIEnabled env m = true
      ↔ ∃ es, m.PodAnnotations = some es
          ∧ entryGet es ( Config.AppMeshCNIAnnotation env.cfg) = some (lit "enabled") := by
  unfold appmeshCNIEnabled mapIndex
  cases m.PodAnnotations with
  | none => simp
  | some es =>
    cases hg : entryGet es ( Config.AppMeshCNIAnnotation env.cfg) with
    | none => simp [hg]
    | some v => simp [hg]

/-- C6, amended: CNI mode is on exactly when the pod annotations map the CNI
key to `enabled`. On a successful composition of a request that is read as
JSON (JSON-safe sidecar fields, JSON-safe annotations in CNI mode, fragments
of the renderers used that read as JSON) the operations are those of step 1
followed by those of the later steps, the document parses as the array of
their values, text by text, and no operation of the later steps has a path
under `/metadata/annotations`. In CNI mode the result does not depend on
`renderInit` (it is not called), step 1 gives exactly the annotation-merge
operations, one per-key operation for each entry visited, each with a path
under `/metadata/annotations/` and none an append to the init containers, and
no operation of the document creates `/spec/initContainers`. Outside CNI mode
step 1 gives one operation, the rendered init container, appended when
`AppendInit` is set and created as a one-element array otherwise, and no
operation of the document has a path under `/metadata/annotations`. -/
theorem C6_cni_mode_selects_first_step {ρ : Type} (env : Env ρ) (m : Meta ρ) (ps : List Str)
    (h : composePatches env m = .ok ps) (hj : JsonRequest env m) :
    (appmeshCNIEnabled env m = true
      ↔ ∃ es, m.PodAnnotations = some es
          ∧ entryGet es ( Config.AppMeshCNIAnnotation env.cfg) = some (lit "enabled"))
    ∧ ∃ first rest firstValues restValues,
        initStep env m = .ok first
        ∧ ps = first ++ rest
        ∧ docOps (GeneratePatch env m).1 = some (firstValues ++ restValues)
        ∧ List.Forall₂ Embeds first firstValues
        ∧ List.Forall₂ Embeds rest restValues
        ∧ (∀ e ∈ restValues, opUnder (lit "/metadata/annotations") e = false)
        ∧ (appmeshCNIEnabled env m = true →
            (∀ r, composePatches { env with renderInit := r } m = composePatches env m)
            ∧ first = appMeshCNIAnnotationsPatch env m
            ∧ (∃ es, m.PodAnnotations = some es
                ∧ first = (env.range.visit (newAnnotations env m)).map (fun kv =>
                    lit "\x7b\"op\":\""
                      ++ (if (mapIndex (some es) kv.1).1 ≠ [] then lit "replace" else lit "add")
                      ++ lit "\",\"path\":\"/metadata/annotations/" ++ escapeJSONPointer kv.1
                      ++ lit "\",\"value\":\"" ++ kv.2 ++ lit "\"\x7d")
                ∧ firstValues = (env.range.visit (newAnnotations env m)).map (fun kv =>
                    .obj [(lit "op", .str (if (mapIndex (some es) kv.1).1 ≠ [] then lit "replace"
                                           else lit "add")),
                          (lit "path", .str (lit "/metadata/annotations/"
                            ++ toValidUTF8 (escapeJSONPointer kv.1))),
                          (lit "value", .str (toValidUTF8 kv.2))]))
            ∧ (∀ e ∈ firstValues, opUnder (lit "/metadata/annotations/") e = true
                ∧ opAt (lit "/spec/initContainers/-") e = false)
            ∧ (∀ e ∈ firstValues ++ restValues, opAt (lit "/spec/initContainers") e = false))
        ∧ (appmeshCNIEnabled env m = false →
            ∃ initPatch v,
              env.renderInit m.Init = .ok initPatch
              ∧ jsonParse initPatch = some v
              ∧ first
                  = [if m.AppendInit then
                       lit "\x7b\"op\":\"add\",\"path\":\"/spec/initContainers/-\", \"value\": "
                         ++ initPatch ++ lit "\x7d"
                     else
                       lit "\x7b\"op\":\"add\",\"path\":\"/spec/initContainers\", \"value\": ["
                         ++ initPatch ++ lit "]\x7d"]
              ∧ firstValues
                  = [if m.AppendInit then
                       .obj [(lit "op", .str (lit "add")),
                             (lit "path", .str (lit "/spec/initContainers/-")), (lit "value", v)]
                     else
                       .obj [(lit "op", .str (lit "add")),
                             (lit "path", .str (lit "/spec/initContainers")),
                             (lit "value", .arr [v])]]
              ∧ ∀ e ∈ firstValues ++ restValues,
                  opUnder (lit "/metadata/annotations") e = false) := by
  refine ⟨cni_iff env m, ?_⟩
  obtain ⟨first, sidecars, d, j, initV, ddV, jgV, h1, h2, h3, h4, hps, hi, hd, hjg,
    f1, f2, f3, f4, f5, hdoc⟩ := document_reads_steps env m ps h hj
  have hrestU : ∀ e ∈ containersValues m ++ pullSecretValues m ++ ddV ++ jgV,
      opUnder (lit "/metadata/annotations") e = false :=
    laterValues_test m ddV jgV _ _ _ _ _ _ hd hjg _ false (by
      intro p hp e hx
      rw [opUnder_of_path _ _ _ hx]
      simp only [List.mem_cons, List.mem_singleton, List.not_mem_nil, or_false] at hp
      rcases hp with rfl | rfl | rfl | rfl | rfl | rfl <;> rfl)
  have hrestA : ∀ e ∈ containersValues m ++ pullSecretValues m ++ ddV ++ jgV,
      opAt (lit "/spec/initContainers") e = false :=
    laterValues_test m ddV jgV _ _ _ _ _ _ hd hjg _ false (by
      intro p hp e hx
      rw [opAt_of_path _ _ _ hx]
      simp only [List.mem_cons, List.mem_singleton, List.not_mem_nil, or_false] at hp
      rcases hp with rfl | rfl | rfl | rfl | rfl | rfl <;> rfl)
  refine ⟨first, containersOps m sidecars ++ pullSecretOps m ++ d ++ j, initV,
    containersValues m ++ pullSecretValues m ++ ddV ++ jgV, h1, ?_, ?_, f1,
    forall₂_append _ _ _ _ _ (forall₂_append _ _ _ _ _ (forall₂_append _ _ _ _ _ f2 f3) f4) f5,
    hrestU, ?_, ?_⟩
  · rw [hps]
    simp only [List.append_assoc]
  · rw [hdoc]
    simp only [List.append_assoc]
  · intro hcni
    have hinit : ∀ e : Env ρ, appmeshCNIEnabled e m = true →
        initStep e m = .ok (appMeshCNIAnnotationsPatch e m) := by
      intro e he
      unfold initStep
      rw [he, if_pos rfl]
    have hfirst : first = appMeshCNIAnnotationsPatch env m := by
      rw [hinit env hcni] at h1
      cases h1; rfl
    rcases hi with ⟨_, es, hes, hv⟩ | ⟨hc, _⟩
    swap
    · rw [hcni] at hc; cases hc
    refine ⟨?_, hfirst, ⟨es, hes, ?_, ?_⟩, ?_, ?_⟩
    · intro r
      have hcni2 : appmeshCNIEnabled { env with renderInit := r } m = true := hcni
      rw [composePatches_eq_steps, composePatches_eq_steps, hinit _ hcni, hinit _ hcni2]
      rfl
    · rw [hfirst]
      unfold appMeshCNIAnnotationsPatch
      rw [hes, annotationsPatches_some]
      rfl
    · rw [hv]
      rfl
    · intro e he
      rw [hv, List.mem_map] at he
      obtain ⟨kv, _, rfl⟩ := he
      have hp := annotationValue_path es kv
      refine ⟨?_, ?_⟩
      · rw [opUnder_of_path _ _ _ hp]
        exact isPrefixOf_append _ _
      · rw [opAt_of_path _ _ _ hp]
        exact annotationPath_ne _ _ rfl
    · intro e he
      rw [List.mem_append] at he
      rcases he with he | he
      · rw [hv, List.mem_map] at he
        obtain ⟨kv, _, rfl⟩ := he
        rw [opAt_of_path _ _ _ (annotationValue_path es kv)]
        exact annotationPath_ne _ _ rfl
      · exact hrestA e he
  · intro hcni
    rcases hi with ⟨hc, _⟩ | ⟨_, x, v, hx, hxv, hv⟩
    · rw [hcni] at hc; cases hc
    have hfirst : first = [if m.AppendInit then add (lit "initContainers") x
        else create (lit "initContainers") x] := by
      unfold initStep at h1
      rw [hcni, hx] at h1
      simp only [Bool.false_eq_true, if_false, Except.ok.injEq] at h1
      exact h1.symm
    refine ⟨x, v, hx, jsonParse_of_embeds _ _ hxv, ?_, ?_, ?_⟩
    · rw [hfirst]
      cases m.AppendInit <;> rfl
    · rw [hv]
      cases m.AppendInit <;> rfl
    · intro e he
      rw [List.mem_append] at he
      rcases he with he | he
      · rw [hv, List.mem_singleton] at he
        subst he
        cases m.AppendInit <;> rfl
      · exact hrestU e he

set_option maxRecDepth 100000 in
/-- C6, amended, at the sample request in CNI mode: the annotation-merge
operations come first, followed by the operations of the later steps, and the
document has the paths of the seven annotations and of the container. -/
theorem C6_cni_mode_selects_first_step_witness :
    appmeshCNIEnabled sampleEnv sampleMetaCNI = true
    ∧ composePatches sampleEnv sampleMetaCNI = .ok (samplePatches sampleMetaCNI)
    ∧ JsonRequest sampleEnv sampleMetaCNI
    ∧ ∃ first rest firstValues restValues,
        initStep sampleEnv sampleMetaCNI = .ok first
        ∧ samplePatches sampleMetaCNI = first ++ rest
        ∧ docOps (GeneratePatch sampleEnv sampleMetaCNI).1 = some (firstValues ++ restValues)
        ∧ first = appMeshCNIAnnotationsPatch sampleEnv sampleMetaCNI
        ∧ (∀ e ∈ firstValues, opUnder (lit "/metadata/annotations/") e = true
            ∧ opAt (lit "/spec/initContainers/-") e = false)
        ∧ (∀ e ∈ restValues, opUnder (lit "/metadata/annotations") e = false)
        ∧ (∀ e ∈ firstValues ++ restValues, opAt (lit "/spec/initContainers") e = false) := by
  have hj : JsonRequest sampleEnv sampleMetaCNI :=
    sampleEnv_jsonRequest sampleMetaCNI rfl (fun _ => by decide)
  refine ⟨rfl, rfl, hj, ?_⟩
  obtain ⟨_, first, rest, fv, rv, h1, h2, h3, _, _, h4, h5, _⟩ :=
    C6_cni_mode_selects_first_step sampleEnv sampleMetaCNI _ rfl hj
  obtain ⟨_, h6, _, h7, h8⟩ := h5 rfl
  exact ⟨first, rest, fv, rv, h1, h2, h3, h6, h7, h4, h8⟩

set_option maxRecDepth 100000 in
/-- C19, as stated, fails: in CNI mode the ignored IPs close their operation
and open another, `updateAnnotation` inserts them unescaped, and the document
`GeneratePatch` returns holds an operation whose path is exactly
`/metadata/annotations`. -/
theorem C19_counterexample_injected_whole_map :
    appmeshCNIEnabled sampleEnv sampleMetaCNIInject = true
    ∧ (GeneratePatch sampleEnv sampleMetaCNIInject).2 = none
    ∧ (docOps (GeneratePatch sampleEnv sampleMetaCNIInject).1).map
        (fun ops => (ops.filter (opAt (lit "/metadata/annotations"))).length) = some 1 :=
  ⟨rfl, rfl, rfl⟩

/-- C19, amended: on a successful composition of a request that is read as
JSON (JSON-safe sidecar fields, JSON-safe annotations in CNI mode, fragments
of the renderers used that read as JSON) the document parses as the array of
the values of the operations, text by text, and no operation of it has the
whole-map path `/metadata/annotations`; no operation text is a
`createAnnotation` text; an operation with a path under
`/metadata/annotations` occurs only in CNI mode and is the per-key operation
of a visited entry; and in CNI mode the pod annotation map is present and not
empty, since it holds the CNI key. -/
theorem C19_no_whole_map_create {ρ : Type} (env : Env ρ) (m : Meta ρ) (ps : List Str)
    (h : composePatches env m = .ok ps) (hj : JsonRequest env m) :
    ∃ ops, docOps (GeneratePatch env m).1 = some ops
      ∧ List.Forall₂ Embeds ps ops
      ∧ (∀ e ∈ ops, opAt (lit "/metadata/annotations") e = false)
      ∧ (∀ p ∈ ps, ∀ key value,
          p ≠ lit "\x7b\"op\":\"add\",\"path\":\"/metadata/annotations\",\"value\":\x7b\""
                ++ key ++ lit "\": \"" ++ value ++ lit "\"\x7d\x7d")
      ∧ (∀ e ∈ ops, opUnder (lit "/metadata/annotations") e = true →
          appmeshCNIEnabled env m = true
          ∧ ∃ es, m.PodAnnotations = some es
            ∧ ∃ kv ∈ env.range.visit (newAnnotations env m),
                e = .obj [(lit "op", .str (if (mapIndex (some es) kv.1).1 ≠ [] then lit "replace"
                                           else lit "add")),
                          (lit "path", .str (lit "/metadata/annotations/"
                            ++ toValidUTF8 (escapeJSONPointer kv.1))),
                          (lit "value", .str (toValidUTF8 kv.2))])
      ∧ (appmeshCNIEnabled env m = true →
          ∃ es, m.PodAnnotations = some es ∧ es ≠ []
            ∧ entryGet es ( Config.AppMeshCNIAnnotation env.cfg) = some (lit "enabled")) := by
  obtain ⟨_, ht2, _, ht4⟩ := composePatches_annotation_texts env m ps h
  obtain ⟨initV, ddV, jgV, hi, hd, hjg, hall, _, hdoc⟩ := document_reads env m ps h hj
  have hrestU : ∀ e ∈ containersValues m ++ pullSecretValues m ++ ddV ++ jgV,
      opUnder (lit "/metadata/annotations") e = false :=
    laterValues_test m ddV jgV _ _ _ _ _ _ hd hjg _ false (by
      intro p hp e hx
      rw [opUnder_of_path _ _ _ hx]
      simp only [List.mem_cons, List.mem_singleton, List.not_mem_nil, or_false] at hp
      rcases hp with rfl | rfl | rfl | rfl | rfl | rfl <;> rfl)
  refine ⟨_, hdoc, hall, ?_, ?_, ?_, ht4⟩
  · intro e he
    exact opAt_false _ e rfl (by decide) (ops_paths env m initV ddV jgV _ _ _ _ _ _ hi hd hjg e he)
  · intro p hp key value he
    exact ht2 p hp key value he
  · intro e he hu
    simp only [List.append_assoc, List.mem_append] at he
    rcases he with he | he
    · rcases hi with ⟨hc, es, hes, hv⟩ | ⟨_, x, v, _, _, hv⟩
      · rw [hv, List.mem_map] at he
        obtain ⟨kv, hkv, rfl⟩ := he
        exact ⟨hc, es, hes, kv, hkv, rfl⟩
      · rw [hv, List.mem_singleton] at he
        subst he
        have : opUnder (lit "/metadata/annotations")
            (if m.AppendInit then opValue (lit "add") (lit "/spec/initContainers/-") v
             else opValue (lit "add") (lit "/spec/initContainers") (.arr [v])) = false := by
          cases m.AppendInit <;> rfl
        rw [this] at hu
        cases hu
    · have := hrestU e (by simp only [List.append_assoc, List.mem_append]; exact he)
      rw [this] at hu
      cases hu

set_option maxRecDepth 100000 in
/-- C19, amended, at the sample request in CNI mode: the document has seven
operations under `/metadata/annotations/` and none at `/metadata/annotations`. -/
theorem C19_no_whole_map_create_witness :
    composePatches sampleEnv sampleMetaCNI = .ok (samplePatches sampleMetaCNI)
    ∧ JsonRequest sampleEnv sampleMetaCNI
    ∧ (docOps (GeneratePatch sampleEnv sampleMetaCNI).1).map
        (fun ops => (ops.filter (opUnder (lit "/metadata/annotations/"))).length) = some 7
    ∧ ∃ ops, docOps (GeneratePatch sampleEnv sampleMetaCNI).1 = some ops
      ∧ (∀ e ∈ ops, opAt (lit "/metadata/annotations") e = false) := by
  have hj : JsonRequest sampleEnv sampleMetaCNI :=
    sampleEnv_jsonRequest sampleMetaCNI rfl (fun _ => by decide)
  refine ⟨rfl, hj, rfl, ?_⟩
  obtain ⟨ops, h1, _, h2, _⟩ := C19_no_whole_map_create sampleEnv sampleMetaCNI _ rfl hj
  exact ⟨ops, h1, h2⟩

set_option maxRecDepth 100000 in
/-- C11, as stated, fails: the X-Ray daemon is not injected, yet the one
fragment `renderSidecars` returns reads as a container named `xray-daemon`:
the image closes its string and adds a second `name` member, which the
template inserts unescaped. -/
theorem C11_counterexample_injected_name :
    sampleSidecarName.InjectXraySidecar = false
    ∧ renderSidecars sampleSidecarName = .ok [firstFragment sampleSidecarName]
    ∧ fragmentName (firstFragment sampleSidecarName) = some (lit "xray-daemon") :=
  ⟨rfl, rfl, rfl⟩

/-- C11, amended: `renderSidecars` succeeds for every description; it returns
the one `envoy` fragment when `InjectXraySidecar` is off and the `envoy`
fragment followed by the `xray-daemon` fragment when it is on; and for a
description whose string fields are JSON-safe the first fragment reads as a
container named `envoy`, the second as a container named `xray-daemon`, and a
fragment that reads as a container named `xray-daemon` is in the result
exactly when the toggle is on. -/
theorem C11_renderSidecars_fragments (s : SidecarMeta) :
    ∃ envoy xray ebody xbody,
      renderTemplate (lit "envoy") envoyContainerTemplate s = .ok envoy
      ∧ envoy = lit "\n\x7b\n  \"name\": \"envoy\",\n  \"image\": \"" ++ (s.ContainerImage ++ ebody)
      ∧ renderTemplate (lit "xray-daemon") xrayDaemonContainerTemplate s = .ok xray
      ∧ xray = lit "\n\x7b\n  \"name\": \"xray-daemon\"," ++ xbody
      ∧ renderSidecars s = .ok (if s.InjectXraySidecar then [envoy, xray] else [envoy])
      ∧ (s.jsonSafe = true →
          fragmentName envoy = some (lit "envoy")
          ∧ fragmentName xray = some (lit "xray-daemon")
          ∧ ∃ sidecars, renderSidecars s = .ok sidecars
              ∧ (sidecars.any (fun f => decide (fragmentName f = some (lit "xray-daemon"))) = true
                  ↔ s.InjectXraySidecar = true)) := by
  obtain ⟨ebody, he⟩ := renderTemplate_envoy_ok s
  obtain ⟨xbody, hx⟩ := renderTemplate_xray_ok s
  have hs := renderSidecars_eq s _ _ he hx
  refine ⟨_, _, ebody, xbody, he, rfl, hx, rfl, hs, ?_⟩
  intro hsafe
  have h1 : fragmentName (envoyHeader ++ (s.ContainerImage ++ ebody)) = some (lit "envoy") := by
    unfold fragmentName
    rw [jsonParse_of_embeds _ _ (envoy_embeds s hsafe _ he)]
    rfl
  have h2 : fragmentName (lit "\n\x7b\n  \"name\": \"xray-daemon\"," ++ xbody)
      = some (lit "xray-daemon") := by
    unfold fragmentName
    rw [jsonParse_of_embeds _ _ (xray_embeds s hsafe _ hx)]
    rfl
  refine ⟨h1, h2, _, hs, ?_⟩
  have hne : ¬ (some (lit "envoy") = some (lit "xray-daemon")) := by decide
  cases hb : s.InjectXraySidecar
  · simp [h1, hne]
  · simp [h1, h2]

set_option maxRecDepth 100000 in
/-- C11, amended, at the description of `Test_Sidecar` with the X-Ray daemon
switched on: two fragments, named `envoy` and `xray-daemon`. -/
theorem C11_renderSidecars_fragments_witness :
    sampleMetaXray.Sidecar.jsonSafe = true
    ∧ (match renderSidecars sampleMetaXray.Sidecar with
       | .ok sidecars => sidecars.map fragmentName
       | .error _ => [])
        = [some (lit "envoy"), some (lit "xray-daemon")]
    ∧ ∃ envoy xray,
        renderSidecars sampleMetaXray.Sidecar = .ok [envoy, xray]
        ∧ fragmentName envoy = some (lit "envoy")
        ∧ fragmentName xray = some (lit "xray-daemon") := by
  refine ⟨rfl, rfl, ?_⟩
  obtain ⟨envoy, xray, _, _, _, _, _, _, h1, h2⟩ :=
    C11_renderSidecars_fragments sampleMetaXray.Sidecar
  obtain ⟨h3, h4, _⟩ := h2 rfl
  exact ⟨envoy, xray, h1, h3, h4⟩


end Patch
